import Mathlib

/-!
# USB descriptors (`usb/Descriptors.h`, `usb/Descriptors.cpp`)

A shallow embedding of the descriptor records, of the composition templates that
nest them, and of the run-time scan `ConfigDescriptorHeader::FindEndpoint`.

Conventions of the embedding:

* memory is a map from addresses to bytes; a byte read is taken modulo 256 and
  a 16-bit read is little-endian (the structs are packed and unaligned);
* pointers are natural-number addresses, pointer arithmetic does not wrap;
* `uint8_t` and `uint16_t` values are naturals reduced modulo `2^8` and `2^16`
  where the source stores or converts them; `int` values are integers;
* the `for` loop of `FindEndpoint` is run with a step budget: the result `none`
  means that the budget ran out before the loop left, `some none` is the
  `NULL` result and `some (some p)` is the record at address `p`.
-/

namespace usb

/-! ## Enumerations -/

namespace DescriptorType

def Device : Nat := 1
def Config : Nat := 2
def String : Nat := 3
def Interface : Nat := 4
def Endpoint : Nat := 5
def ClassSpecific : Nat := 0x20
def ClassSpecificDevice : Nat := ClassSpecific ||| Device
def ClassSpecificConfig : Nat := ClassSpecific ||| Config
def ClassSpecificInterface : Nat := ClassSpecific ||| Interface
def ClassSpecificEndpoint : Nat := ClassSpecific ||| Endpoint

end DescriptorType

/-- Endpoint type. -/
inductive EndpointType where
  | Control
  | Isochronous
  | Bulk
  | Interrupt
  deriving DecidableEq

/-- Enumerator value of an `EndpointType`. -/
def EndpointType.val : EndpointType → Nat
  | .Control => 0
  | .Isochronous => 1
  | .Bulk => 2
  | .Interrupt => 3

/-- Isochronous endpoint synchronization mode. -/
inductive IsoSync where
  | None
  | Asynchronous
  | Adaptive
  | Synchronous
  deriving DecidableEq

/-- Enumerator value of an `IsoSync`. -/
def IsoSync.val : IsoSync → Nat
  | .None => 0
  | .Asynchronous => 1
  | .Adaptive => 2
  | .Synchronous => 3

/-- Isochronous endpoint usage. -/
inductive IsoUsage where
  | Data
  | Feedback
  | ExplicitFeedback
  deriving DecidableEq

/-- Enumerator value of an `IsoUsage`. -/
def IsoUsage.val : IsoUsage → Nat
  | .Data => 0
  | .Feedback => 1
  | .ExplicitFeedback => 2

/-- Modelled from the spec: the macro `BIT` of `base/base.h`, a header that is
not among the sources. `BIT(n)` is the value whose only set bit is bit `n`
(`_Reserved1 = BIT(7)` is the "reserved bit, must be 1", bit 7 of the byte). -/
def BIT (n : Nat) : Nat := 2 ^ n

/-- Modelled from the spec: the size of a struct declared with the macro
`PACKED_UNALIGNED_STRUCT` of `base/base.h`, a header that is not among the
sources. The members follow one another with no padding (the records form one
contiguous byte run in the wire format's field widths and order), so the size
is the sum of the member sizes. -/
def packedSize (members : List Nat) : Nat := members.sum

namespace ConfigAttributes

def BusPowered : Nat := 0
def RemoteWakeup : Nat := BIT 5
def SelfPowered : Nat := BIT 6
def _Reserved1 : Nat := BIT 7

/-- Modelled from the spec: the `operator|` that `DEFINE_FLAG_ENUM(ConfigAttributes)`
of `base/base.h` provides, a header that is not among the sources: the bitwise
or of the two `uint8_t` enumerator values. -/
def or (a b : Nat) : Nat := (a % 256) ||| (b % 256)

end ConfigAttributes

/-! ## Memory and the record fields read through a pointer -/

/-- Byte-addressed memory. -/
abbrev Mem := Nat → Nat

/-- A `uint8_t` read. -/
def read8 (mem : Mem) (a : Nat) : Nat := mem a % 256

/-- A little-endian `uint16_t` read. -/
def read16 (mem : Mem) (a : Nat) : Nat := read8 mem a + 256 * read8 mem (a + 1)

/-- Memory holding the given bytes from address 0 on, and zero elsewhere. -/
def Mem.ofBytes (bytes : List Nat) : Mem := fun a => bytes.getD a 0

/-! Field accesses `p->field` on the packed records, by the field's offset. -/

namespace Ptr

/-- `((const DescriptorHeader*)p)->bLength`. -/
def bLength (mem : Mem) (p : Nat) : Nat := read8 mem p

/-- `((const DescriptorHeader*)p)->bDescriptorType`. -/
def bDescriptorType (mem : Mem) (p : Nat) : Nat := read8 mem (p + 1)

/-- `((const ConfigDescriptorHeader*)p)->wTotalLength`. -/
def wTotalLength (mem : Mem) (p : Nat) : Nat := read16 mem (p + 2)

/-- `((const InterfaceDescriptorHeader*)p)->bInterfaceNumber`. -/
def bInterfaceNumber (mem : Mem) (p : Nat) : Nat := read8 mem (p + 2)

/-- `((const InterfaceDescriptorHeader*)p)->bAlternateSetting`. -/
def bAlternateSetting (mem : Mem) (p : Nat) : Nat := read8 mem (p + 3)

/-- `((const InterfaceDescriptorHeader*)p)->bNumEndpoints`. -/
def bNumEndpoints (mem : Mem) (p : Nat) : Nat := read8 mem (p + 4)

/-- `((const EndpointDescriptor*)p)->bEndpointAddress`. -/
def bEndpointAddress (mem : Mem) (p : Nat) : Nat := read8 mem (p + 2)

end Ptr

/-- `DescriptorHeader::Next()`: `(uintptr_t)this + bLength`. -/
def DescriptorHeader.Next (mem : Mem) (this : Nat) : Nat := this + Ptr.bLength mem this

/-! ## The scan `ConfigDescriptorHeader::FindEndpoint` -/

namespace ConfigDescriptorHeader

open DescriptorHeader

/-- `ConfigDescriptorHeader::End()`: `(uintptr_t)this + wTotalLength`. -/
def End (mem : Mem) (this : Nat) : Nat := this + Ptr.wTotalLength mem this

/-- The value assigned to `active` at the interface record `hdr`. -/
def scopeActive (mem : Mem) (interface alternate : Int) (hdr : Nat) : Bool :=
  (decide (interface < 0) || decide (interface = (Ptr.bInterfaceNumber mem hdr : Int))) &&
    (decide (alternate < 0) || decide (alternate = (Ptr.bAlternateSetting mem hdr : Int)))

/-- The `for` loop of `FindEndpoint`, from cursor `hdr` with flag `active`,
for at most `fuel` iterations. -/
def FindEndpointLoop (mem : Mem) (endPtr address : Nat) (interface alternate : Int) :
    Nat → Nat → Bool → Option (Option Nat)
  | 0, hdr, _ => if hdr < endPtr then none else some none
  | fuel + 1, hdr, active =>
    if hdr < endPtr then
      if Ptr.bDescriptorType mem hdr = DescriptorType.Interface then
        FindEndpointLoop mem endPtr address interface alternate fuel (Next mem hdr)
          (scopeActive mem interface alternate hdr)
      else if Ptr.bDescriptorType mem hdr = DescriptorType.Endpoint then
        if active && decide (Ptr.bEndpointAddress mem hdr = address) then
          some (some hdr)
        else
          FindEndpointLoop mem endPtr address interface alternate fuel (Next mem hdr) active
      else
        FindEndpointLoop mem endPtr address interface alternate fuel (Next mem hdr) active
    else
      some none

/-- `ConfigDescriptorHeader::FindEndpoint(address, interface, alternate)` on the
configuration at `this`, with a budget of `fuel` loop iterations. The `uint8_t`
parameter `address` is reduced modulo 256. -/
def FindEndpoint (fuel : Nat) (mem : Mem) (this : Nat) (address : Nat)
    (interface alternate : Int) : Option (Option Nat) :=
  FindEndpointLoop mem (End mem this) (address % 256) interface alternate fuel this false

/-- The call `FindEndpoint(address)`: the declaration's default arguments
`interface = -1` and `alternate = 0` are filled in. -/
def FindEndpoint_addressOnly (fuel : Nat) (mem : Mem) (this : Nat) (address : Nat) :
    Option (Option Nat) :=
  FindEndpoint fuel mem this address (-1) 0

/-- The cursors visited by `for (hdr = start; hdr < end; hdr = hdr->Next())`
in its first `fuel` iterations. -/
def walk (mem : Mem) (endPtr : Nat) : Nat → Nat → List Nat
  | 0, _ => []
  | fuel + 1, hdr =>
    if hdr < endPtr then hdr :: walk mem endPtr fuel (Next mem hdr) else []

/-- The records of the configuration at `this`, in the order in which the scan
of `FindEndpoint` meets them within `fuel` iterations. -/
def records (fuel : Nat) (mem : Mem) (this : Nat) : List Nat :=
  walk mem (End mem this) fuel this

end ConfigDescriptorHeader

/-! ## Descriptor values -/

/-- The fields of `EndpointDescriptor`, in declaration order; the two unions
are kept as their byte views `bEndpointAddress` and `bmAttributes`. -/
structure EndpointDescriptor where
  bLength : Nat
  bDescriptorType : Nat
  bEndpointAddress : Nat
  bmAttributes : Nat
  wMaxPacketSize : Nat
  bInterval : Nat
  deriving DecidableEq

namespace EndpointDescriptor

/-- `sizeof(EndpointDescriptor)`: two `uint8_t`, the two one-byte unions, a
`uint16_t` and a `uint8_t`. -/
def sizeof : Nat := packedSize [1, 1, 1, 1, 2, 1]

/-- Bit-field view `number : 4` of the address byte. -/
def number (e : EndpointDescriptor) : Nat := e.bEndpointAddress % 16

/-- Bit-field view `in : 1` of the address byte (bit 7). -/
def in_ (e : EndpointDescriptor) : Nat := e.bEndpointAddress / 128 % 2

/-- Bit-field view `type : 2` of the attribute byte. -/
def type (e : EndpointDescriptor) : Nat := e.bmAttributes % 4

/-- Bit-field view `isoSync : 2` of the attribute byte. -/
def isoSync (e : EndpointDescriptor) : Nat := e.bmAttributes / 4 % 4

/-- Bit-field view `isoUsage : 2` of the attribute byte. -/
def isoUsage (e : EndpointDescriptor) : Nat := e.bmAttributes / 16 % 4

/-- The bytes held at the two unions by the storage in which an
`EndpointDescriptor` is constructed, before the constructor runs. -/
structure Storage where
  bEndpointAddress : Nat
  bmAttributes : Nat

/-- Storage whose bytes are zero, as in a constant-initialised descriptor. -/
def Storage.zeroed : Storage := ⟨0, 0⟩

/-- The constructor `EndpointDescriptor(address, attributes, maxPacketSize, interval)`:
it initialises the two union bytes whole. -/
def ctorRaw (address attributes maxPacketSize interval : Nat) : EndpointDescriptor :=
  ⟨sizeof % 256, DescriptorType.Endpoint, address % 256, attributes % 256,
    maxPacketSize % 65536, interval % 256⟩

/-- The constructor
`EndpointDescriptor(in, number, type, maxPacketSize, interval, sync, usage)`, run
on an object in `storage`: it initialises the bit-fields `number : 4` and
`in : 1`, bits 0-3 and 7 of the address byte, and `type : 2`, `isoSync : 2` and
`isoUsage : 2`, bits 0-5 of the attribute byte. It initialises neither the
unnamed `uint8_t : 3`, bits 4-6 of the address byte, nor the unnamed
`uint8_t : 2`, bits 6-7 of the attribute byte: these keep the bits of the
storage. -/
def ctor (storage : Storage) (inp : Bool) (number : Nat) (type : EndpointType)
    (maxPacketSize interval : Nat) (sync : IsoSync) (usage : IsoUsage) : EndpointDescriptor :=
  ⟨sizeof % 256, DescriptorType.Endpoint,
    number % 256 % 16 + 16 * (storage.bEndpointAddress / 16 % 8) +
      128 * (if inp then 1 else 0),
    type.val % 256 % 4 + 4 * (sync.val % 256 % 4) + 16 * (usage.val % 256 % 4) +
      64 * (storage.bmAttributes / 64 % 4),
    maxPacketSize % 65536,
    interval % 256⟩

/-! The static factories return the object built by the constructor; `storage`
is the storage of the returned object. -/

def ControlIn (storage : Storage) : EndpointDescriptor :=
  ctor storage true 0 EndpointType.Control 64 1 IsoSync.None IsoUsage.Data

def ControlOut (storage : Storage) : EndpointDescriptor :=
  ctor storage false 0 EndpointType.Control 64 1 IsoSync.None IsoUsage.Data

def BulkIn (storage : Storage) (number maxPacketSize : Nat) : EndpointDescriptor :=
  ctor storage true number EndpointType.Bulk maxPacketSize 1 IsoSync.None IsoUsage.Data

def BulkOut (storage : Storage) (number maxPacketSize : Nat) : EndpointDescriptor :=
  ctor storage false number EndpointType.Bulk maxPacketSize 1 IsoSync.None IsoUsage.Data

def InterruptIn (storage : Storage) (number maxPacketSize pollInterval : Nat) :
    EndpointDescriptor :=
  ctor storage true number EndpointType.Interrupt maxPacketSize pollInterval IsoSync.None
    IsoUsage.Data

def InterruptOut (storage : Storage) (number maxPacketSize pollInterval : Nat) :
    EndpointDescriptor :=
  ctor storage true number EndpointType.Interrupt maxPacketSize pollInterval IsoSync.None
    IsoUsage.Data

/-- The seven bytes of the packed struct. -/
def bytes (e : EndpointDescriptor) : List Nat :=
  [e.bLength % 256, e.bDescriptorType % 256, e.bEndpointAddress % 256, e.bmAttributes % 256,
    e.wMaxPacketSize % 256, e.wMaxPacketSize / 256 % 256, e.bInterval % 256]

end EndpointDescriptor

/-- The fields of `InterfaceDescriptorHeader`, in declaration order. -/
structure InterfaceDescriptorHeader where
  bLength : Nat
  bDescriptorType : Nat
  bInterfaceNumber : Nat
  bAlternateSetting : Nat
  bNumEndpoints : Nat
  bInterfaceClass : Nat
  bInterfaceSubClass : Nat
  bInterfaceProtocol : Nat
  iInterface : Nat
  deriving DecidableEq

namespace InterfaceDescriptorHeader

/-- `sizeof(InterfaceDescriptorHeader)`: nine one-byte members. -/
def sizeof : Nat := packedSize [1, 1, 1, 1, 1, 1, 1, 1, 1]

/-- The constructor
`InterfaceDescriptorHeader(index, alternate, numEndpoints, cls, subCls, proto, strName)`. -/
def ctor (index alternate numEndpoints cls subCls proto strName : Nat) :
    InterfaceDescriptorHeader :=
  ⟨sizeof % 256, DescriptorType.Interface, index % 256, alternate % 256, numEndpoints % 256,
    cls % 256, subCls % 256, proto % 256, strName % 256⟩

/-- The nine bytes of the packed struct. -/
def bytes (h : InterfaceDescriptorHeader) : List Nat :=
  [h.bLength % 256, h.bDescriptorType % 256, h.bInterfaceNumber % 256,
    h.bAlternateSetting % 256, h.bNumEndpoints % 256, h.bInterfaceClass % 256,
    h.bInterfaceSubClass % 256, h.bInterfaceProtocol % 256, h.iInterface % 256]

end InterfaceDescriptorHeader

/-- The fields of `ConfigDescriptorHeader`, in declaration order. -/
structure ConfigDescriptorHeader where
  bLength : Nat
  bDescriptorType : Nat
  wTotalLength : Nat
  bNumInterfaces : Nat
  bConfigurationValue : Nat
  iConfiguration : Nat
  bmAttributes : Nat
  bMaxPower : Nat
  deriving DecidableEq

namespace ConfigDescriptorHeader

/-- `sizeof(ConfigDescriptorHeader)`: two `uint8_t`, the `uint16_t`
`wTotalLength` and five one-byte members. -/
def sizeof : Nat := packedSize [1, 1, 2, 1, 1, 1, 1, 1]

/-- The constructor `ConfigDescriptorHeader(interfacesSize, numInterfaces, index,
maxPower, strName, attributes)`; `interfacesSize` is a `uint16_t` parameter,
`maxPower` an `int` divided by two, rounding toward zero. -/
def ctor (interfacesSize numInterfaces index : Nat) (maxPower : Int)
    (strName attributes : Nat) : ConfigDescriptorHeader :=
  ⟨sizeof % 256, DescriptorType.Config, (sizeof + interfacesSize % 65536) % 65536,
    numInterfaces % 256, index % 256, strName % 256,
    ConfigAttributes.or attributes ConfigAttributes._Reserved1,
    (Int.tdiv maxPower 2 % 256).toNat⟩

/-- The nine bytes of the packed struct. -/
def bytes (h : ConfigDescriptorHeader) : List Nat :=
  [h.bLength % 256, h.bDescriptorType % 256, h.wTotalLength % 256, h.wTotalLength / 256 % 256,
    h.bNumInterfaces % 256, h.bConfigurationValue % 256, h.iConfiguration % 256,
    h.bmAttributes % 256, h.bMaxPower % 256]

end ConfigDescriptorHeader

/-! ## The composition templates -/

/-- A value that can be a member of `ConfigChildren<...>`: a scalar, an
endpoint, a `CustomDescriptor<...>` with its content, or an interface with its
nested descriptors. -/
inductive Item where
  | u8 (v : Nat)
  | u16 (v : Nat)
  | u32 (v : Nat)
  | endpoint (e : EndpointDescriptor)
  | custom (bLength bDescriptorType : Nat) (content : List Item)
  | interface (h : InterfaceDescriptorHeader) (endpoints : List Item)

mutual
/-- `sizeof(T)` of the packed type of an item. -/
def Item.sizeof : Item → Nat
  | .u8 _ => 1
  | .u16 _ => 2
  | .u32 _ => 4
  | .endpoint _ => EndpointDescriptor.sizeof
  | .custom _ _ content => packedSize [1, 1, ConfigChildren.sizeof content]
  | .interface _ endpoints =>
    packedSize [InterfaceDescriptorHeader.sizeof, ConfigChildren.sizeof endpoints]
/-- `sizeof(ConfigChildren<T...>)`: the members `first` and `rest`. -/
def ConfigChildren.sizeof : List Item → Nat
  | [] => 0
  | first :: rest => packedSize [first.sizeof, ConfigChildren.sizeof rest]
end

mutual
/-- The bytes of an item as laid out in memory. -/
def Item.bytes : Item → List Nat
  | .u8 v => [v % 256]
  | .u16 v => [v % 256, v / 256 % 256]
  | .u32 v => [v % 256, v / 256 % 256, v / 65536 % 256, v / 16777216 % 256]
  | .endpoint e => e.bytes
  | .custom bLength bDescriptorType content =>
    bLength % 256 :: bDescriptorType % 256 :: ConfigChildren.bytes content
  | .interface h endpoints => h.bytes ++ ConfigChildren.bytes endpoints
/-- The bytes of `ConfigChildren<T...>`: `first`, then `rest`. -/
def ConfigChildren.bytes : List Item → List Nat
  | [] => []
  | first :: rest => first.bytes ++ ConfigChildren.bytes rest
end

/-- `is_endpoint<T>()`: 1 for `EndpointDescriptor`, 0 for every other type. -/
def is_endpoint : Item → Nat
  | .endpoint _ => 1
  | _ => 0

/-- `endpoint_count<T1, TRest...>()`. -/
def endpoint_count : List Item → Nat
  | [] => 0
  | t1 :: rest => is_endpoint t1 + endpoint_count rest

/-- `CustomDescriptor<TContent...>`. -/
structure CustomDescriptor where
  bLength : Nat
  bDescriptorType : Nat
  content : List Item

namespace CustomDescriptor

/-- The constructor `CustomDescriptor(type, content...)`; `bLength` is the
`uint8_t` initialised from `sizeof(CustomDescriptor)`. -/
def ctor (type : Nat) (content : List Item) : CustomDescriptor :=
  ⟨packedSize [1, 1, ConfigChildren.sizeof content] % 256, type % 256, content⟩

/-- A custom descriptor as a member of a child list. -/
def toItem (d : CustomDescriptor) : Item := .custom d.bLength d.bDescriptorType d.content

/-- The bytes of the packed struct. -/
def bytes (d : CustomDescriptor) : List Nat := d.toItem.bytes

end CustomDescriptor

/-- `ClassSpecificInterfaceDescriptor(subType, content...)`. -/
def ClassSpecificInterfaceDescriptor (subType : Nat) (content : List Item) : CustomDescriptor :=
  CustomDescriptor.ctor DescriptorType.ClassSpecificInterface (Item.u8 subType :: content)

/-- `InterfaceDescriptorBlock<TEndpoints...>`: the header base, then the
nested descriptors. The header alone is the block without nested descriptors. -/
structure InterfaceDescriptorBlock extends InterfaceDescriptorHeader where
  endpoints : List Item

namespace InterfaceDescriptorBlock

/-- The constructor `InterfaceDescriptorBlock(index, alternate, cls, subCls, proto,
strName, endpoints...)`. -/
def ctor (index alternate cls subCls proto strName : Nat) (endpoints : List Item) :
    InterfaceDescriptorBlock :=
  ⟨InterfaceDescriptorHeader.ctor index alternate (endpoint_count endpoints) cls subCls proto
    strName, endpoints⟩

/-- An interface as a member of a child list. -/
def toItem (b : InterfaceDescriptorBlock) : Item :=
  .interface b.toInterfaceDescriptorHeader b.endpoints

/-- The bytes of the packed struct. -/
def bytes (b : InterfaceDescriptorBlock) : List Nat := b.toItem.bytes

end InterfaceDescriptorBlock

/-- The two overloads of `InterfaceDescriptor(index, alternate, cls, subCls, proto,
strName, endpoints...)`: without nested descriptors the non-template overload
builds the header with `numEndpoints = 0`, otherwise the block is built. -/
def InterfaceDescriptor (index alternate cls subCls proto strName : Nat)
    (endpoints : List Item) : InterfaceDescriptorBlock :=
  match endpoints with
  | [] => ⟨InterfaceDescriptorHeader.ctor index alternate 0 cls subCls proto strName, []⟩
  | _ :: _ => InterfaceDescriptorBlock.ctor index alternate cls subCls proto strName endpoints

/-- `ConfigDescriptorBlock<TInterfaces...>`: the header base, then the nested
interfaces. The header alone is the block without nested interfaces. -/
structure ConfigDescriptorBlock extends ConfigDescriptorHeader where
  interfaces : List Item

namespace ConfigDescriptorBlock

/-- The constructor
`ConfigDescriptorBlock(index, maxPower, strName, attributes, interfaces...)`. -/
def ctor (index : Nat) (maxPower : Int) (strName attributes : Nat) (interfaces : List Item) :
    ConfigDescriptorBlock :=
  ⟨ConfigDescriptorHeader.ctor (ConfigChildren.sizeof interfaces) interfaces.length index
    maxPower strName attributes, interfaces⟩

/-- The bytes of the packed struct. -/
def bytes (b : ConfigDescriptorBlock) : List Nat :=
  b.toConfigDescriptorHeader.bytes ++ ConfigChildren.bytes b.interfaces

end ConfigDescriptorBlock

/-- The two overloads of
`ConfigDescriptor(index, maxPower, strName, attributes, interfaces...)`: without
interfaces the non-template overload builds the header with sizes 0, otherwise
the block is built. -/
def ConfigDescriptor (index : Nat) (maxPower : Int) (strName attributes : Nat)
    (interfaces : List Item) : ConfigDescriptorBlock :=
  match interfaces with
  | [] => ⟨ConfigDescriptorHeader.ctor 0 0 index maxPower strName attributes, []⟩
  | _ :: _ => ConfigDescriptorBlock.ctor index maxPower strName attributes interfaces

/-! ## Definitions used to state the properties of the composition -/

/-- The item is of type `EndpointDescriptor`. -/
def Item.isEndpoint : Item → Bool
  | .endpoint _ => true
  | _ => false

/-- The item is a `CustomDescriptor<...>`. -/
def Item.isCustom : Item → Bool
  | .custom _ _ _ => true
  | _ => false

mutual
/-- The byte sizes of the records an item contributes, in layout order: an
interface contributes its 9-byte record and then the records nested in it; an
endpoint its 7-byte record; a custom descriptor one record of its header and
content; a scalar its own size. -/
def Item.recordSizes : Item → List Nat
  | .u8 _ => [1]
  | .u16 _ => [2]
  | .u32 _ => [4]
  | .endpoint _ => [7]
  | .custom _ _ content => [2 + ConfigChildren.sizeof content]
  | .interface _ endpoints => 9 :: ConfigChildren.recordSizes endpoints
/-- The byte sizes of the records of a child list, in layout order. -/
def ConfigChildren.recordSizes : List Item → List Nat
  | [] => []
  | first :: rest => first.recordSizes ++ ConfigChildren.recordSizes rest
end

/-- Concatenation of byte runs. -/
def concatBytes : List (List Nat) → List Nat
  | [] => []
  | r :: rs => r ++ concatBytes rs

/-- The byte run `r` is a record that `Next()` steps over exactly: its first
byte is its own length, between 1 and 255. -/
def Framed (r : List Nat) : Prop :=
  0 < r.length ∧ r.length < 256 ∧ r.getD 0 0 = r.length

/-- The start addresses of consecutive byte runs laid out from `start` on. -/
def recordOffsets : Nat → List (List Nat) → List Nat
  | _, [] => []
  | start, r :: rs => start :: recordOffsets (start + r.length) rs

/-! ## The scan as a pass over the list of visited records

Definitions used to state and prove the properties of `FindEndpoint`. -/

namespace ConfigDescriptorHeader

open DescriptorHeader

/-- The body of the loop of `FindEndpoint` run over an explicit list of record
addresses instead of following `Next()`. -/
def scanRecords (mem : Mem) (address : Nat) (interface alternate : Int) :
    List Nat → Bool → Option Nat
  | [], _ => none
  | hdr :: rest, active =>
    if Ptr.bDescriptorType mem hdr = DescriptorType.Interface then
      scanRecords mem address interface alternate rest (scopeActive mem interface alternate hdr)
    else if Ptr.bDescriptorType mem hdr = DescriptorType.Endpoint then
      if active && decide (Ptr.bEndpointAddress mem hdr = address) then some hdr
      else scanRecords mem address interface alternate rest active
    else scanRecords mem address interface alternate rest active

/-- The flag `active` once the loop has passed the records `pre`. -/
def activeAfter (mem : Mem) (interface alternate : Int) : Bool → List Nat → Bool
  | active, [] => active
  | active, hdr :: rest =>
    if Ptr.bDescriptorType mem hdr = DescriptorType.Interface then
      activeAfter mem interface alternate (scopeActive mem interface alternate hdr) rest
    else activeAfter mem interface alternate active rest

/-- The flag `active` after one more record. -/
def nextActive (mem : Mem) (interface alternate : Int) (active : Bool) (hdr : Nat) : Bool :=
  if Ptr.bDescriptorType mem hdr = DescriptorType.Interface then
    scopeActive mem interface alternate hdr
  else active

/-- The loop returns at `hdr` when it arrives there with the flag `active`. -/
def hitAt (mem : Mem) (address : Nat) (active : Bool) (hdr : Nat) : Bool :=
  decide (Ptr.bDescriptorType mem hdr = DescriptorType.Endpoint) &&
    (active && decide (Ptr.bEndpointAddress mem hdr = address))

/-- The last interface record among the records `pre`, if there is one. -/
def lastInterface? (mem : Mem) : List Nat → Option Nat
  | [] => none
  | hdr :: rest =>
    match lastInterface? mem rest with
    | some i => some i
    | none => if Ptr.bDescriptorType mem hdr = DescriptorType.Interface then some hdr else none

/-- Every record length met by the scan of the configuration at `this` is
non-zero. -/
def WellFormed (mem : Mem) (this : Nat) : Prop :=
  ∀ h ∈ records (Ptr.wTotalLength mem this) mem this, Ptr.bLength mem h ≠ 0

instance (mem : Mem) (this : Nat) : Decidable (WellFormed mem this) :=
  inferInstanceAs
    (Decidable (∀ h ∈ records (Ptr.wTotalLength mem this) mem this, Ptr.bLength mem h ≠ 0))

end ConfigDescriptorHeader

/-! ## Example configurations -/

namespace Example

/-- Two alternate settings of interface 0: setting 0 with the bulk IN endpoint
1, setting 1 with the bulk IN endpoint 2 and a class-specific descriptor. The
records start at 0 (configuration), 9, 18 (endpoint `0x81`), 25, 34 (endpoint
`0x82`) and 41; the configuration ends at 46. -/
def twoAlternates : ConfigDescriptorBlock :=
  ConfigDescriptor 1 100 0 ConfigAttributes.BusPowered
    [(InterfaceDescriptor 0 0 0xFF 0 0 0
        [Item.endpoint (EndpointDescriptor.BulkIn .zeroed 1 64)]).toItem,
      (InterfaceDescriptor 0 1 0xFF 0 0 0
        [Item.endpoint (EndpointDescriptor.BulkIn .zeroed 2 64),
          (ClassSpecificInterfaceDescriptor 6 [Item.u8 0, Item.u8 1]).toItem]).toItem]

/-- Memory holding `twoAlternates` at address 0. -/
def twoAlternatesMem : Mem := Mem.ofBytes twoAlternates.bytes

/-- A configuration whose only nested descriptor is the bulk IN endpoint 1: no
interface record precedes the endpoint record at 9; the configuration ends at
16. -/
def endpointOnly : ConfigDescriptorBlock :=
  ConfigDescriptor 1 100 0 ConfigAttributes.BusPowered
    [Item.endpoint (EndpointDescriptor.BulkIn .zeroed 1 64)]

/-- Memory holding `endpointOnly` at address 0. -/
def endpointOnlyMem : Mem := Mem.ofBytes endpointOnly.bytes

/-- A configuration with the single interface 0 in alternate setting 1,
holding the bulk IN endpoint 1 at 18; the configuration ends at 25. -/
def alternateOne : ConfigDescriptorBlock :=
  ConfigDescriptor 1 100 0 ConfigAttributes.BusPowered
    [(InterfaceDescriptor 0 1 0xFF 0 0 0
        [Item.endpoint (EndpointDescriptor.BulkIn .zeroed 1 64)]).toItem]

/-- Memory holding `alternateOne` at address 0. -/
def alternateOneMem : Mem := Mem.ofBytes alternateOne.bytes

end Example

/-! ## The device descriptor -/

/-- The fields of `DeviceDescriptor`, in declaration order. -/
structure DeviceDescriptor where
  bLength : Nat
  bDescriptorType : Nat
  bcdUSB : Nat
  bDeviceClass : Nat
  bDeviceSubClass : Nat
  bDeviceProtocol : Nat
  bMaxPacketSize0 : Nat
  idVendor : Nat
  idProduct : Nat
  bcdDevice : Nat
  iManufacturer : Nat
  iProduct : Nat
  iSerialNumber : Nat
  bNumConfigurations : Nat
  deriving DecidableEq

namespace DeviceDescriptor

/-- `sizeof(DeviceDescriptor)`: the two header bytes, `bcdUSB`, four one-byte
members, three `uint16_t` and four one-byte members. -/
def sizeof : Nat := packedSize [1, 1, 2, 1, 1, 1, 1, 2, 2, 2, 1, 1, 1, 1]

/-- The constructor `DeviceDescriptor(cls, subCls, proto, vid, pid, ver, strMfg,
strProduct, strSerial, numConfig)`; `bcdUSB` and `bMaxPacketSize0` take their
default member initialisers `0x0200` and `64`. -/
def ctor (cls subCls proto vid pid ver strMfg strProduct strSerial numConfig : Nat) :
    DeviceDescriptor :=
  ⟨sizeof % 256, DescriptorType.Device, 0x0200, cls % 256, subCls % 256, proto % 256, 64,
    vid % 65536, pid % 65536, ver % 65536, strMfg % 256, strProduct % 256, strSerial % 256,
    numConfig % 256⟩

/-- The eighteen bytes of the packed struct. -/
def bytes (d : DeviceDescriptor) : List Nat :=
  [d.bLength % 256, d.bDescriptorType % 256, d.bcdUSB % 256, d.bcdUSB / 256 % 256,
    d.bDeviceClass % 256, d.bDeviceSubClass % 256, d.bDeviceProtocol % 256,
    d.bMaxPacketSize0 % 256, d.idVendor % 256, d.idVendor / 256 % 256, d.idProduct % 256,
    d.idProduct / 256 % 256, d.bcdDevice % 256, d.bcdDevice / 256 % 256,
    d.iManufacturer % 256, d.iProduct % 256, d.iSerialNumber % 256,
    d.bNumConfigurations % 256]

end DeviceDescriptor

/-! ## Setup packets (`usb/Packets.h`) -/

/-- A `uint8_t` store. -/
def write8 (mem : Mem) (a v : Nat) : Mem := fun x => if x = a then v % 256 else mem x

/-- A little-endian `uint16_t` store. -/
def write16 (mem : Mem) (a v : Nat) : Mem := write8 (write8 mem a (v % 256)) (a + 1) (v / 256)

/-! The members of the 8-byte `SetupPacket` at address `p`, by their offsets:
`bmRequestType` at 0, `bRequest` at 1, `wValue` at 2, `wIndex` at 4, `wLength` at
6. The members of an anonymous union are views of the same bytes; the
bit-fields of a byte are allocated from bit 0 upward. An assignment to a member
is the function `set_` of that member. -/

namespace SetupPacket

/-- `p->bmRequestType`. -/
def bmRequestType (mem : Mem) (p : Nat) : Nat := read8 mem p

/-- Bit-field `p->recipient`, 5 bits from bit 0. -/
def recipient (mem : Mem) (p : Nat) : Nat := read8 mem p % 32

/-- Bit-field `p->type`, 2 bits from bit 5. -/
def type (mem : Mem) (p : Nat) : Nat := read8 mem p / 32 % 4

/-- Bit-field `p->direction`, 1 bit at bit 7. -/
def direction (mem : Mem) (p : Nat) : Nat := read8 mem p / 128 % 2

/-- `p->bRequest`. -/
def bRequest (mem : Mem) (p : Nat) : Nat := read8 mem (p + 1)

/-- `p->wValue`. -/
def wValue (mem : Mem) (p : Nat) : Nat := read16 mem (p + 2)

/-- `p->descriptorIndex`, the first byte of the union with `wValue`. -/
def descriptorIndex (mem : Mem) (p : Nat) : Nat := read8 mem (p + 2)

/-- `p->descriptorType`, the second byte of the union with `wValue`. -/
def descriptorType (mem : Mem) (p : Nat) : Nat := read8 mem (p + 3)

/-- `p->wIndex`. -/
def wIndex (mem : Mem) (p : Nat) : Nat := read16 mem (p + 4)

/-- `p->wLength`. -/
def wLength (mem : Mem) (p : Nat) : Nat := read16 mem (p + 6)

/-- `p->bmRequestType = v`. -/
def set_bmRequestType (mem : Mem) (p v : Nat) : Mem := write8 mem p v

/-- `p->recipient = v`: bits 0-4 of the byte are replaced. -/
def set_recipient (mem : Mem) (p v : Nat) : Mem :=
  write8 mem p (read8 mem p / 32 * 32 + v % 32)

/-- `p->type = v`: bits 5-6 of the byte are replaced. -/
def set_type (mem : Mem) (p v : Nat) : Mem :=
  write8 mem p (read8 mem p / 128 * 128 + v % 4 * 32 + read8 mem p % 32)

/-- `p->direction = v`: bit 7 of the byte is replaced. -/
def set_direction (mem : Mem) (p v : Nat) : Mem :=
  write8 mem p (v % 2 * 128 + read8 mem p % 128)

/-- `p->wValue = v`. -/
def set_wValue (mem : Mem) (p v : Nat) : Mem := write16 mem (p + 2) (v % 65536)

/-- `p->descriptorIndex = v`. -/
def set_descriptorIndex (mem : Mem) (p v : Nat) : Mem := write8 mem (p + 2) v

/-- `p->descriptorType = v`. -/
def set_descriptorType (mem : Mem) (p v : Nat) : Mem := write8 mem (p + 3) v

end SetupPacket

/-! ## String descriptors and the string table -/

namespace Ptr

/-- `((const StringDescriptor*)p)->len`. -/
def len (mem : Mem) (p : Nat) : Nat := read8 mem p

/-- `((const StringDescriptor*)p)->type`. -/
def type (mem : Mem) (p : Nat) : Nat := read8 mem (p + 1)

end Ptr

namespace StringDescriptor

/-- `StringDescriptor::Next()`: `((uintptr_t)this + len + 2 + 3) & ~3`, where
`Nat.ldiff x 3` is the bitwise `x & ~3`. -/
def Next (mem : Mem) (this : Nat) : Nat := Nat.ldiff (this + Ptr.len mem this + 2 + 3) 3

/-- The record reached from `p` by `k` calls of `Next()`. -/
def advance (mem : Mem) : Nat → Nat → Nat
  | 0, p => p
  | k + 1, p => advance mem k (Next mem p)

/-- `sizeof(StringDescriptor)`: `len`, `type` and the flexible array member. -/
def sizeof : Nat := packedSize [1, 1, 0]

end StringDescriptor

/-- Modelled from the spec: the macro `countof` of `base/base.h`, a header that
is not among the sources: the number of elements of an array. For the
`char16_t` string literal with the code units `value` it counts the code units
and the terminating null that the literal carries (the build-time
representation keeps the terminator). -/
def countof (value : List Nat) : Nat := value.length + 1

/-- The bytes of an array of `char16_t`, each code unit low byte first. -/
def codeUnitBytes : List Nat → List Nat
  | [] => []
  | u :: us => u % 256 :: u / 256 % 256 :: codeUnitBytes us

/-- `_StringDescriptor<n>`, with `n` the number of elements of `value`. -/
structure _StringDescriptor where
  len : Nat
  type : Nat
  value : List Nat

namespace _StringDescriptor

/-- `sizeof(_StringDescriptor<n>)`. -/
def sizeof (d : _StringDescriptor) : Nat := packedSize [1, 1, 2 * d.value.length]

/-- The bytes of the packed struct. -/
def bytes (d : _StringDescriptor) : List Nat :=
  d.len % 256 :: d.type % 256 :: codeUnitBytes d.value

end _StringDescriptor

/-- The member `_languages` declared by `USB_STRING_TABLE_START(langs...)`:
`{ 2 + count * 2, DescriptorType::String, { langs..., 0 } }`. -/
def USB_STRING_TABLE_START (langs : List Nat) : _StringDescriptor :=
  ⟨(2 + langs.length * 2) % 256, DescriptorType.String, langs ++ [0]⟩

/-- The member `name_desc` declared by `USB_STRING(name, value)`:
`{ countof(value) * 2, DescriptorType::String, value }`, the array `value`
holding the literal's code units and its terminating null. -/
def USB_STRING (value : List Nat) : _StringDescriptor :=
  ⟨(countof value * 2) % 256, DescriptorType.String, value ++ [0]⟩

/-- The bytes of the member `_terminator` declared by `USB_STRING_TABLE_END`, a
value-initialised `StringDescriptor`. -/
def USB_STRING_TABLE_END : List Nat := List.replicate StringDescriptor.sizeof 0

/-- The offset of the next member declared `__attribute__((aligned(4)))` after
`n` bytes: the next multiple of 4. -/
def alignUp4 (n : Nat) : Nat := (n + 3) / 4 * 4

/-- Members declared `__attribute__((aligned(4)))` laid out in declaration order
from an aligned offset: each is followed by the zero padding up to the next
multiple of 4. -/
def placeAligned : List (List Nat) → List Nat
  | [] => []
  | r :: rs => r ++ (List.replicate (alignUp4 r.length - r.length) 0 ++ placeAligned rs)

namespace UsbStringTable

/-- The string records of the table in declaration order: the language table,
then one record for each `USB_STRING`. -/
def records (langs : List Nat) (strings : List (List Nat)) : List _StringDescriptor :=
  USB_STRING_TABLE_START langs :: strings.map USB_STRING

/-- The bytes of the struct built by `USB_STRING_TABLE_START(langs...)`,
`USB_STRING(name, value)`... and `USB_STRING_TABLE_END`. -/
def bytes (langs : List Nat) (strings : List (List Nat)) : List Nat :=
  placeAligned ((records langs strings).map _StringDescriptor.bytes ++ [USB_STRING_TABLE_END])

end UsbStringTable

/-- The `n` bytes of memory from address `p` on. -/
def readBytes (mem : Mem) : Nat → Nat → List Nat
  | _, 0 => []
  | p, n + 1 => mem p :: readBytes mem (p + 1) n

namespace Example

/-- The code units of `u"Device"`. -/
def deviceName : List Nat := [68, 101, 118, 105, 99, 101]

/-- The code units of `u"Serial123"`. -/
def serialName : List Nat := [83, 101, 114, 105, 97, 108, 49, 50, 51]

/-- Memory holding at address 0 the string table with the language id
`0x0409` and the strings `u"Device"` and `u"Serial123"`: the records start at
0, 8 and 24, the terminator at 48. -/
def stringTableMem : Mem := Mem.ofBytes (UsbStringTable.bytes [0x0409] [deviceName, serialName])

end Example

/-! ## Configurations as a header and a list of records -/

/-- The record `r` holds the fields that the scan reads from it: its type
byte, for an interface record the interface number and the alternate setting,
for an endpoint record the endpoint address. -/
def Contained (r : List Nat) : Prop :=
  2 ≤ r.length ∧ (r.getD 1 0 % 256 = DescriptorType.Interface → 4 ≤ r.length) ∧
    (r.getD 1 0 % 256 = DescriptorType.Endpoint → 3 ≤ r.length)

instance (r : List Nat) : Decidable (Framed r) :=
  inferInstanceAs (Decidable (0 < r.length ∧ r.length < 256 ∧ r.getD 0 0 = r.length))

instance (r : List Nat) : Decidable (Contained r) :=
  inferInstanceAs (Decidable (2 ≤ r.length ∧
    (r.getD 1 0 % 256 = DescriptorType.Interface → 4 ≤ r.length) ∧
    (r.getD 1 0 % 256 = DescriptorType.Endpoint → 3 ≤ r.length)))

/-- The bytes of a configuration whose header is followed by the records
`body`: the header is built by the constructor of `ConfigDescriptorHeader` for
the size of `body`, so that `wTotalLength` covers the header and the records. -/
def configBlob (numInterfaces index : Nat) (maxPower : Int) (strName attributes : Nat)
    (body : List (List Nat)) : List Nat :=
  (ConfigDescriptorHeader.ctor (concatBytes body).length numInterfaces index maxPower strName
    attributes).bytes ++ concatBytes body

namespace ConfigDescriptorHeader

/-- The value assigned to `active` at an interface record given by its bytes. -/
def runActive (interface alternate : Int) (r : List Nat) : Bool :=
  (decide (interface < 0) || decide (interface = ((r.getD 2 0 % 256 : Nat) : Int))) &&
    (decide (alternate < 0) || decide (alternate = ((r.getD 3 0 % 256 : Nat) : Int)))

/-- The loop of `FindEndpoint` over records given by their bytes and laid out
from the address `off` on. -/
def scanRuns (address : Nat) (interface alternate : Int) :
    List (List Nat) → Nat → Bool → Option Nat
  | [], _, _ => none
  | r :: rs, off, active =>
    if r.getD 1 0 % 256 = DescriptorType.Interface then
      scanRuns address interface alternate rs (off + r.length) (runActive interface alternate r)
    else if r.getD 1 0 % 256 = DescriptorType.Endpoint then
      if active && decide (r.getD 2 0 % 256 = address) then some off
      else scanRuns address interface alternate rs (off + r.length) active
    else scanRuns address interface alternate rs (off + r.length) active

end ConfigDescriptorHeader

namespace Example

/-- A record of three bytes tagged `Interface`, with interface number 0: its
alternate setting would be its fourth byte. -/
def shortInterface : List Nat :=
  (CustomDescriptor.ctor DescriptorType.Interface [Item.u8 0]).bytes

/-- The class-specific record `(6)` of three bytes. -/
def classSpecific : List Nat := (ClassSpecificInterfaceDescriptor 6 []).bytes

/-- Memory holding at address 0 a configuration with `shortInterface` at 9 and
the bulk IN endpoint 1 at 12; the configuration ends at 19. -/
def shortInterfaceMem : Mem :=
  Mem.ofBytes (configBlob 1 1 100 0 ConfigAttributes.BusPowered
    [shortInterface, (EndpointDescriptor.BulkIn .zeroed 1 64).bytes])

/-- The same configuration with `classSpecific` inserted at the record boundary
12: the endpoint is at 15 and the configuration ends at 22. -/
def shortInterfaceInsertedMem : Mem :=
  Mem.ofBytes (configBlob 1 1 100 0 ConfigAttributes.BusPowered
    [shortInterface, classSpecific, (EndpointDescriptor.BulkIn .zeroed 1 64).bytes])

/-- The bytes of the header of interface 0, alternate setting 0, with one
endpoint. -/
def interfaceRun : List Nat := (InterfaceDescriptorHeader.ctor 0 0 1 0xFF 0 0 0).bytes

/-- The bytes of the bulk IN endpoint 1. -/
def endpointRun : List Nat := (EndpointDescriptor.BulkIn .zeroed 1 64).bytes

end Example

/-! ## Configurations composed from interfaces, endpoints and custom descriptors -/

/-- The record reached from `p` by `k` calls of `DescriptorHeader::Next()`. -/
def DescriptorHeader.advance (mem : Mem) : Nat → Nat → Nat
  | 0, p => p
  | k + 1, p => DescriptorHeader.advance mem k (DescriptorHeader.Next mem p)

/-- The arguments of a descriptor nested directly in an interface: a call of
one of the two constructors of `EndpointDescriptor`, or a call
`CustomDescriptor(type, content...)`. -/
inductive ChildArgs where
  | endpointRaw (address attributes maxPacketSize interval : Nat)
  | endpoint (storage : EndpointDescriptor.Storage) (inp : Bool) (number : Nat)
      (type : EndpointType) (maxPacketSize interval : Nat) (sync : IsoSync) (usage : IsoUsage)
  | custom (type : Nat) (content : List Item)

/-- The descriptor built from the arguments, as a member of a child list. -/
def ChildArgs.toItem : ChildArgs → Item
  | .endpointRaw address attributes maxPacketSize interval =>
    .endpoint (EndpointDescriptor.ctorRaw address attributes maxPacketSize interval)
  | .endpoint storage inp number type maxPacketSize interval sync usage =>
    .endpoint
      (EndpointDescriptor.ctor storage inp number type maxPacketSize interval sync usage)
  | .custom type content => (CustomDescriptor.ctor type content).toItem

/-- The arguments of a call
`InterfaceDescriptor(index, alternate, cls, subCls, proto, strName, children...)`
whose nested descriptors are endpoints and custom descriptors. -/
structure InterfaceArgs where
  index : Nat
  alternate : Nat
  cls : Nat
  subCls : Nat
  proto : Nat
  strName : Nat
  children : List ChildArgs

namespace InterfaceArgs

/-- The interface built from the arguments. -/
def build (a : InterfaceArgs) : InterfaceDescriptorBlock :=
  InterfaceDescriptor a.index a.alternate a.cls a.subCls a.proto a.strName
    (a.children.map ChildArgs.toItem)

/-- The records of the interface in argument order: the bytes of its header,
then the bytes of each nested descriptor. -/
def records (a : InterfaceArgs) : List (List Nat) :=
  a.build.toInterfaceDescriptorHeader.bytes :: a.children.map (fun c => c.toItem.bytes)

end InterfaceArgs

/-- The records of a list of interfaces, in argument order. -/
def composedRecords : List InterfaceArgs → List (List Nat)
  | [] => []
  | a :: rest => a.records ++ composedRecords rest

/-- The configuration
`ConfigDescriptor(index, maxPower, strName, attributes, interfaces...)` composed
from interfaces given by their arguments. -/
def composedConfig (index : Nat) (maxPower : Int) (strName attributes : Nat)
    (interfaces : List InterfaceArgs) : ConfigDescriptorBlock :=
  ConfigDescriptor index maxPower strName attributes
    (interfaces.map (fun a => a.build.toItem))

namespace Example

/-- The arguments of the two interfaces of `twoAlternates`. -/
def twoAlternatesArgs : List InterfaceArgs :=
  [⟨0, 0, 0xFF, 0, 0, 0,
      [ChildArgs.endpoint .zeroed true 1 EndpointType.Bulk 64 1 IsoSync.None IsoUsage.Data]⟩,
    ⟨0, 1, 0xFF, 0, 0, 0,
      [ChildArgs.endpoint .zeroed true 2 EndpointType.Bulk 64 1 IsoSync.None IsoUsage.Data,
        ChildArgs.custom DescriptorType.ClassSpecificInterface
          [Item.u8 6, Item.u8 0, Item.u8 1]]⟩]

end Example

/-! ## Lemmas on the scan -/

namespace ConfigDescriptorHeader

open DescriptorHeader

theorem endpoint_ne_interface : DescriptorType.Endpoint ≠ DescriptorType.Interface := by
  decide

theorem loop_eq_some_some_iff (mem : Mem) (endPtr address : Nat) (interface alternate : Int)
    (e : Nat) : ∀ (fuel hdr : Nat) (active : Bool),
    FindEndpointLoop mem endPtr address interface alternate fuel hdr active = some (some e) ↔
      scanRecords mem address interface alternate (walk mem endPtr fuel hdr) active = some e := by
  intro fuel
  induction fuel with
  | zero =>
    intro hdr active
    by_cases h : hdr < endPtr <;> simp [FindEndpointLoop, walk, scanRecords, h]
  | succ n ih =>
    intro hdr active
    by_cases h : hdr < endPtr
    · by_cases h4 : Ptr.bDescriptorType mem hdr = DescriptorType.Interface
      · simp [FindEndpointLoop, walk, scanRecords, h, h4, ih]
      · by_cases h5 : Ptr.bDescriptorType mem hdr = DescriptorType.Endpoint
        · by_cases hm : (active && decide (Ptr.bEndpointAddress mem hdr = address)) = true
          · simp [FindEndpointLoop, walk, scanRecords, h, h5, hm, endpoint_ne_interface]
          · simp only [FindEndpointLoop, walk, scanRecords, h, h4, h5, hm, if_true, if_false]
            exact ih _ _
        · simp [FindEndpointLoop, walk, scanRecords, h, h4, h5, ih]
    · simp [FindEndpointLoop, walk, scanRecords, h]

theorem loop_eq_some_imp (mem : Mem) (endPtr address : Nat) (interface alternate : Int) :
    ∀ (fuel hdr : Nat) (active : Bool) (r : Option Nat),
    FindEndpointLoop mem endPtr address interface alternate fuel hdr active = some r →
      r = scanRecords mem address interface alternate (walk mem endPtr fuel hdr) active := by
  intro fuel
  induction fuel with
  | zero =>
    intro hdr active r
    by_cases h : hdr < endPtr <;> simp [FindEndpointLoop, walk, scanRecords, h]
    intro hr; exact hr.symm
  | succ n ih =>
    intro hdr active r
    by_cases h : hdr < endPtr
    · by_cases h4 : Ptr.bDescriptorType mem hdr = DescriptorType.Interface
      · simp only [FindEndpointLoop, walk, scanRecords, h, h4, if_true]
        exact ih _ _ r
      · by_cases h5 : Ptr.bDescriptorType mem hdr = DescriptorType.Endpoint
        · by_cases hm : (active && decide (Ptr.bEndpointAddress mem hdr = address)) = true
          · simp only [FindEndpointLoop, walk, scanRecords, h, h4, h5, hm, if_true, if_false]
            intro hr; exact (Option.some.inj hr).symm
          · simp only [FindEndpointLoop, walk, scanRecords, h, h4, h5, hm, if_true, if_false]
            exact ih _ _ r
        · simp only [FindEndpointLoop, walk, scanRecords, h, h4, h5, if_true, if_false]
          exact ih _ _ r
    · simp only [FindEndpointLoop, walk, scanRecords, h, if_false]
      intro hr; exact (Option.some.inj hr).symm

/-- Every step over a record of non-zero length moves the cursor forward, so a
budget that covers the distance to the end lets the loop leave. -/
theorem loop_ne_none (mem : Mem) (endPtr address : Nat) (interface alternate : Int) :
    ∀ (fuel hdr : Nat) (active : Bool),
    (∀ h ∈ walk mem endPtr fuel hdr, Ptr.bLength mem h ≠ 0) → endPtr ≤ hdr + fuel →
      FindEndpointLoop mem endPtr address interface alternate fuel hdr active ≠ none := by
  intro fuel
  induction fuel with
  | zero =>
    intro hdr active _ hle
    have h : ¬ hdr < endPtr := by omega
    simp [FindEndpointLoop, h]
  | succ n ih =>
    intro hdr active hwf hle
    by_cases h : hdr < endPtr
    · have hw : walk mem endPtr (n + 1) hdr = hdr :: walk mem endPtr n (Next mem hdr) := by
        simp [walk, h]
      have h0 : Ptr.bLength mem hdr ≠ 0 := hwf hdr (by simp [hw])
      have hrest : ∀ h ∈ walk mem endPtr n (Next mem hdr), Ptr.bLength mem h ≠ 0 := by
        intro x hx; exact hwf x (by simp [hw, hx])
      have hle2 : endPtr ≤ Next mem hdr + n := by
        unfold DescriptorHeader.Next; omega
      by_cases h4 : Ptr.bDescriptorType mem hdr = DescriptorType.Interface
      · simp only [FindEndpointLoop, h, h4, if_true]
        exact ih _ _ hrest hle2
      · by_cases h5 : Ptr.bDescriptorType mem hdr = DescriptorType.Endpoint
        · by_cases hm : (active && decide (Ptr.bEndpointAddress mem hdr = address)) = true
          · simp [FindEndpointLoop, h, h5, hm, endpoint_ne_interface]
          · simp only [FindEndpointLoop, h, h4, h5, hm, if_true, if_false]
            exact ih _ _ hrest hle2
        · simp only [FindEndpointLoop, h, h4, h5, if_true, if_false]
          exact ih _ _ hrest hle2
    · simp [FindEndpointLoop, h]

/-- Once the walk has reached the end, more budget does not change it. -/
theorem walk_fuel_mono (mem : Mem) (endPtr : Nat) :
    ∀ (fuel hdr : Nat),
    (∀ h ∈ walk mem endPtr fuel hdr, Ptr.bLength mem h ≠ 0) → endPtr ≤ hdr + fuel →
      ∀ g, fuel ≤ g → walk mem endPtr g hdr = walk mem endPtr fuel hdr := by
  intro fuel
  induction fuel with
  | zero =>
    intro hdr _ hle g _
    have h : ¬ hdr < endPtr := by omega
    cases g <;> simp [walk, h]
  | succ n ih =>
    intro hdr hwf hle g hg
    obtain ⟨g', rfl⟩ : ∃ g', g = g' + 1 := ⟨g - 1, by omega⟩
    by_cases h : hdr < endPtr
    · have hw : walk mem endPtr (n + 1) hdr = hdr :: walk mem endPtr n (Next mem hdr) := by
        simp [walk, h]
      have h0 : Ptr.bLength mem hdr ≠ 0 := hwf hdr (by simp [hw])
      have hrest : ∀ h ∈ walk mem endPtr n (Next mem hdr), Ptr.bLength mem h ≠ 0 := by
        intro x hx; exact hwf x (by simp [hw, hx])
      have hle2 : endPtr ≤ Next mem hdr + n := by
        unfold DescriptorHeader.Next; omega
      simp only [walk, h, if_true]
      rw [ih _ hrest hle2 g' (by omega)]
    · simp [walk, h]

theorem scanRecords_cons (mem : Mem) (address : Nat) (interface alternate : Int)
    (hdr : Nat) (rest : List Nat) (active : Bool) :
    scanRecords mem address interface alternate (hdr :: rest) active =
      if hitAt mem address active hdr = true then some hdr
      else scanRecords mem address interface alternate rest
        (nextActive mem interface alternate active hdr) := by
  by_cases h4 : Ptr.bDescriptorType mem hdr = DescriptorType.Interface
  · have h5 : DescriptorType.Interface ≠ DescriptorType.Endpoint :=
      fun h => endpoint_ne_interface h.symm
    simp [scanRecords, hitAt, nextActive, h4, h5]
  · by_cases h5 : Ptr.bDescriptorType mem hdr = DescriptorType.Endpoint
    · simp [scanRecords, hitAt, nextActive, h5, endpoint_ne_interface]
    · simp [scanRecords, hitAt, nextActive, h4, h5]

theorem activeAfter_cons (mem : Mem) (interface alternate : Int) (active : Bool)
    (hdr : Nat) (rest : List Nat) :
    activeAfter mem interface alternate active (hdr :: rest) =
      activeAfter mem interface alternate (nextActive mem interface alternate active hdr)
        rest := by
  by_cases h4 : Ptr.bDescriptorType mem hdr = DescriptorType.Interface <;>
    simp [activeAfter, nextActive, h4]

/-- A found record is a hit, and no record before it is. -/
theorem scanRecords_some (mem : Mem) (address : Nat) (interface alternate : Int) (e : Nat) :
    ∀ (w : List Nat) (active : Bool),
    scanRecords mem address interface alternate w active = some e →
      ∃ pre post, w = pre ++ e :: post ∧
        hitAt mem address (activeAfter mem interface alternate active pre) e = true ∧
        ∀ p m q, pre = p ++ m :: q →
          hitAt mem address (activeAfter mem interface alternate active p) m = false := by
  intro w
  induction w with
  | nil => intro active h; simp [scanRecords] at h
  | cons hdr rest ih =>
    intro active h
    rw [scanRecords_cons] at h
    by_cases hh : hitAt mem address active hdr = true
    · rw [if_pos hh] at h
      have he : hdr = e := Option.some.inj h
      subst he
      refine ⟨[], rest, rfl, by simpa [activeAfter] using hh, ?_⟩
      intro p m q hp
      simp at hp
    · rw [if_neg hh] at h
      obtain ⟨pre, post, hw, hhit, hfirst⟩ := ih _ h
      refine ⟨hdr :: pre, post, by simp [hw], by rw [activeAfter_cons]; exact hhit, ?_⟩
      intro p m q hp
      cases p with
      | nil =>
        simp only [List.nil_append, List.cons.injEq] at hp
        rw [← hp.1]
        simpa [activeAfter] using hh
      | cons x p' =>
        simp only [List.cons_append, List.cons.injEq] at hp
        rw [← hp.1, activeAfter_cons]
        exact hfirst p' m q hp.2

/-- The first hit is found. -/
theorem scanRecords_of_first (mem : Mem) (address : Nat) (interface alternate : Int)
    (e : Nat) (post : List Nat) :
    ∀ (pre : List Nat) (active : Bool),
    hitAt mem address (activeAfter mem interface alternate active pre) e = true →
    (∀ p m q, pre = p ++ m :: q →
      hitAt mem address (activeAfter mem interface alternate active p) m = false) →
    scanRecords mem address interface alternate (pre ++ e :: post) active = some e := by
  intro pre
  induction pre with
  | nil =>
    intro active hhit _
    rw [List.nil_append, scanRecords_cons, if_pos (by simpa [activeAfter] using hhit)]
  | cons hdr pre ih =>
    intro active hhit hfirst
    have h0 : hitAt mem address active hdr = false := by
      simpa [activeAfter] using hfirst [] hdr pre rfl
    rw [List.cons_append, scanRecords_cons, h0]
    simp only [Bool.false_eq_true, if_false]
    apply ih
    · rw [activeAfter_cons] at hhit; exact hhit
    · intro p m q hp
      have := hfirst (hdr :: p) m q (by simp [hp])
      rw [activeAfter_cons] at this
      exact this

/-- When nothing is found, no record is a hit. -/
theorem scanRecords_none (mem : Mem) (address : Nat) (interface alternate : Int) :
    ∀ (w : List Nat) (active : Bool),
    scanRecords mem address interface alternate w active = none →
      ∀ pre e post, w = pre ++ e :: post →
        hitAt mem address (activeAfter mem interface alternate active pre) e = false := by
  intro w
  induction w with
  | nil => intro active _ pre e post hw; simp at hw
  | cons hdr rest ih =>
    intro active h pre e post hw
    rw [scanRecords_cons] at h
    by_cases hh : hitAt mem address active hdr = true
    · rw [if_pos hh] at h; exact absurd h (by simp)
    · rw [if_neg hh] at h
      cases pre with
      | nil =>
        simp only [List.nil_append, List.cons.injEq] at hw
        rw [← hw.1]
        simpa [activeAfter] using hh
      | cons x pre' =>
        simp only [List.cons_append, List.cons.injEq] at hw
        rw [← hw.1, activeAfter_cons]
        exact ih _ h pre' e post hw.2

theorem lastInterface?_eq_none_iff (mem : Mem) : ∀ (pre : List Nat),
    lastInterface? mem pre = none ↔
      ∀ m ∈ pre, Ptr.bDescriptorType mem m ≠ DescriptorType.Interface := by
  intro pre
  induction pre with
  | nil => simp [lastInterface?]
  | cons hdr rest ih =>
    cases hr : lastInterface? mem rest with
    | some j =>
      have hne : ¬ ∀ m ∈ rest, Ptr.bDescriptorType mem m ≠ DescriptorType.Interface := by
        intro hall; rw [ih.mpr hall] at hr; exact absurd hr (by simp)
      simp only [lastInterface?, hr, List.mem_cons, forall_eq_or_imp]
      constructor
      · intro h; exact absurd h (by simp)
      · intro h; exact absurd h.2 hne
    | none =>
      have hall := ih.mp hr
      by_cases h4 : Ptr.bDescriptorType mem hdr = DescriptorType.Interface
      · simp [lastInterface?, hr, h4]
      · simp only [lastInterface?, hr, h4, if_false, List.mem_cons, forall_eq_or_imp, true_iff]
        exact ⟨h4, hall⟩

theorem lastInterface?_eq_some_iff (mem : Mem) (i : Nat) : ∀ (pre : List Nat),
    lastInterface? mem pre = some i ↔
      ∃ p mid, pre = p ++ i :: mid ∧ Ptr.bDescriptorType mem i = DescriptorType.Interface ∧
        ∀ m ∈ mid, Ptr.bDescriptorType mem m ≠ DescriptorType.Interface := by
  intro pre
  induction pre with
  | nil => simp [lastInterface?]
  | cons hdr rest ih =>
    constructor
    · intro h
      cases hr : lastInterface? mem rest with
      | some j =>
        simp only [lastInterface?, hr] at h
        have hj : j = i := Option.some.inj h
        subst hj
        obtain ⟨p, mid, hp, h4, hmid⟩ := ih.mp hr
        exact ⟨hdr :: p, mid, by simp [hp], h4, hmid⟩
      | none =>
        simp only [lastInterface?, hr] at h
        by_cases h4 : Ptr.bDescriptorType mem hdr = DescriptorType.Interface
        · rw [if_pos h4] at h
          have hj : hdr = i := Option.some.inj h
          subst hj
          exact ⟨[], rest, rfl, h4, (lastInterface?_eq_none_iff mem rest).mp hr⟩
        · rw [if_neg h4] at h; exact absurd h (by simp)
    · rintro ⟨p, mid, hp, h4, hmid⟩
      cases p with
      | nil =>
        simp only [List.nil_append, List.cons.injEq] at hp
        obtain ⟨rfl, rfl⟩ := hp
        have hnone := (lastInterface?_eq_none_iff mem _).mpr hmid
        simp [lastInterface?, hnone, h4]
      | cons x p' =>
        simp only [List.cons_append, List.cons.injEq] at hp
        obtain ⟨rfl, hrest⟩ := hp
        have := ih.mpr ⟨p', mid, hrest, h4, hmid⟩
        simp [lastInterface?, this]

/-- The flag `active` is the value computed at the last interface record
passed, or its initial value when no interface record has been passed. -/
theorem activeAfter_eq (mem : Mem) (interface alternate : Int) :
    ∀ (pre : List Nat) (active : Bool),
    activeAfter mem interface alternate active pre =
      match lastInterface? mem pre with
      | some i => scopeActive mem interface alternate i
      | none => active := by
  intro pre
  induction pre with
  | nil => intro active; simp [activeAfter, lastInterface?]
  | cons hdr rest ih =>
    intro active
    rw [activeAfter_cons, ih]
    cases hr : lastInterface? mem rest with
    | some j => simp [lastInterface?, hr]
    | none =>
      by_cases h4 : Ptr.bDescriptorType mem hdr = DescriptorType.Interface <;>
        simp [lastInterface?, hr, nextActive, h4]

theorem activeAfter_false_iff (mem : Mem) (interface alternate : Int) (pre : List Nat) :
    activeAfter mem interface alternate false pre = true ↔
      ∃ i, lastInterface? mem pre = some i ∧ scopeActive mem interface alternate i = true := by
  rw [activeAfter_eq]
  cases lastInterface? mem pre with
  | some j => simp
  | none => simp

theorem scopeActive_iff (mem : Mem) (interface alternate : Int) (i : Nat) :
    scopeActive mem interface alternate i = true ↔
      (interface < 0 ∨ interface = (Ptr.bInterfaceNumber mem i : Int)) ∧
        (alternate < 0 ∨ alternate = (Ptr.bAlternateSetting mem i : Int)) := by
  simp [scopeActive]

theorem hitAt_iff (mem : Mem) (address : Nat) (active : Bool) (e : Nat) :
    hitAt mem address active e = true ↔
      Ptr.bDescriptorType mem e = DescriptorType.Endpoint ∧ active = true ∧
        Ptr.bEndpointAddress mem e = address := by
  simp [hitAt]

theorem walk_bounds (mem : Mem) (endPtr : Nat) : ∀ (fuel hdr : Nat),
    ∀ h ∈ walk mem endPtr fuel hdr, hdr ≤ h ∧ h < endPtr := by
  intro fuel
  induction fuel with
  | zero => intro hdr h hh; simp [walk] at hh
  | succ n ih =>
    intro hdr h hh
    by_cases hlt : hdr < endPtr
    · simp only [walk, hlt, if_true, List.mem_cons] at hh
      rcases hh with rfl | hh
      · exact ⟨le_refl _, hlt⟩
      · have := ih _ h hh
        unfold DescriptorHeader.Next at this
        omega
    · simp [walk, hlt] at hh

/-- What follows a record in the walk is the walk from its successor: the
later records lie at or after it. -/
theorem walk_le_of_later (mem : Mem) (endPtr : Nat) : ∀ (fuel hdr : Nat) (pre : List Nat)
    (i : Nat) (rest : List Nat), walk mem endPtr fuel hdr = pre ++ i :: rest →
    ∀ h ∈ rest, i ≤ h := by
  intro fuel
  induction fuel with
  | zero => intro hdr pre i rest hw; simp [walk] at hw
  | succ n ih =>
    intro hdr pre i rest hw h hh
    by_cases hlt : hdr < endPtr
    · simp only [walk, hlt, if_true] at hw
      cases pre with
      | nil =>
        simp only [List.nil_append, List.cons.injEq] at hw
        obtain ⟨rfl, hrest⟩ := hw
        rw [← hrest] at hh
        have := (walk_bounds mem endPtr n _ h hh).1
        unfold DescriptorHeader.Next at this
        omega
      | cons x pre' =>
        simp only [List.cons_append, List.cons.injEq] at hw
        exact ih _ pre' i rest hw.2 h hh
    · simp [walk, hlt] at hw

/-- `FindEndpoint` returns the record `e` exactly when `e` is the first hit
among the records of the scan. -/
theorem FindEndpoint_eq_some_some_iff (fuel : Nat) (mem : Mem) (this address : Nat)
    (interface alternate : Int) (e : Nat) :
    FindEndpoint fuel mem this address interface alternate = some (some e) ↔
      ∃ pre post, records fuel mem this = pre ++ e :: post ∧
        hitAt mem (address % 256) (activeAfter mem interface alternate false pre) e = true ∧
        ∀ p m q, pre = p ++ m :: q →
          hitAt mem (address % 256) (activeAfter mem interface alternate false p) m = false := by
  unfold FindEndpoint records
  rw [loop_eq_some_some_iff]
  constructor
  · intro h; exact scanRecords_some mem _ interface alternate e _ _ h
  · rintro ⟨pre, post, hw, hhit, hfirst⟩
    rw [hw]
    exact scanRecords_of_first mem _ interface alternate e post pre false hhit hfirst

/-- When `FindEndpoint` returns `NULL`, no record of the scan is a hit. -/
theorem FindEndpoint_eq_some_none_imp (fuel : Nat) (mem : Mem) (this address : Nat)
    (interface alternate : Int)
    (h : FindEndpoint fuel mem this address interface alternate = some none) :
    ∀ pre e post, records fuel mem this = pre ++ e :: post →
      hitAt mem (address % 256) (activeAfter mem interface alternate false pre) e = false := by
  unfold FindEndpoint at h
  have := loop_eq_some_imp mem _ _ interface alternate fuel this false none h
  exact scanRecords_none mem _ interface alternate _ false this.symm

/-- On a well-formed configuration a budget of `wTotalLength` iterations is
enough for `FindEndpoint` to return. -/
theorem FindEndpoint_returns (fuel : Nat) (mem : Mem) (this address : Nat)
    (interface alternate : Int) (hwf : WellFormed mem this)
    (hfuel : Ptr.wTotalLength mem this ≤ fuel) :
    ∃ r, FindEndpoint fuel mem this address interface alternate = some r := by
  have hw : records fuel mem this = records (Ptr.wTotalLength mem this) mem this :=
    walk_fuel_mono mem _ _ _ hwf (le_refl _) fuel hfuel
  have hne : FindEndpoint fuel mem this address interface alternate ≠ none := by
    unfold FindEndpoint
    apply loop_ne_none
    · intro h hh
      exact hwf h (by rw [← hw]; exact hh)
    · unfold End; omega
  cases hr : FindEndpoint fuel mem this address interface alternate with
  | none => exact absurd hr hne
  | some r => exact ⟨r, rfl⟩

theorem scanRecords_wildcard_true (mem : Mem) (address : Nat) (interface alternate : Int)
    (hi : interface < 0) (ha : alternate < 0) : ∀ (w : List Nat),
    scanRecords mem address interface alternate w true =
      w.find? (fun h => decide (Ptr.bDescriptorType mem h = DescriptorType.Endpoint) &&
        decide (Ptr.bEndpointAddress mem h = address)) := by
  intro w
  induction w with
  | nil => simp [scanRecords]
  | cons hdr rest ih =>
    have hn : nextActive mem interface alternate true hdr = true := by
      by_cases h4 : Ptr.bDescriptorType mem hdr = DescriptorType.Interface <;>
        simp [nextActive, scopeActive, h4, hi, ha]
    rw [scanRecords_cons, hn, ih]
    by_cases hh : hitAt mem address true hdr = true
    · have hh2 := hh
      simp only [hitAt, Bool.true_and] at hh2
      rw [if_pos hh, List.find?_cons]
      simp only [hh2]
    · have hh2 := hh
      simp only [hitAt, Bool.true_and] at hh2
      rw [if_neg hh, List.find?_cons]
      simp only [hh2]

theorem scanRecords_wildcard_false (mem : Mem) (address : Nat) (interface alternate : Int)
    (hi : interface < 0) (ha : alternate < 0) : ∀ (w : List Nat),
    scanRecords mem address interface alternate w false =
      (w.dropWhile
          (fun h => decide (Ptr.bDescriptorType mem h ≠ DescriptorType.Interface))).find?
        (fun h => decide (Ptr.bDescriptorType mem h = DescriptorType.Endpoint) &&
          decide (Ptr.bEndpointAddress mem h = address)) := by
  intro w
  induction w with
  | nil => simp [scanRecords]
  | cons hdr rest ih =>
    have hh : ¬ hitAt mem address false hdr = true := by simp [hitAt]
    rw [scanRecords_cons, if_neg hh]
    by_cases h4 : Ptr.bDescriptorType mem hdr = DescriptorType.Interface
    · have hn : nextActive mem interface alternate false hdr = true := by
        simp [nextActive, scopeActive, h4, hi, ha]
      have h5 : DescriptorType.Interface ≠ DescriptorType.Endpoint :=
        fun h => endpoint_ne_interface h.symm
      rw [hn, scanRecords_wildcard_true mem address interface alternate hi ha]
      simp [List.dropWhile, h4, h5]
    · have hn : nextActive mem interface alternate false hdr = false := by
        simp [nextActive, h4]
      rw [hn, ih]
      simp [List.dropWhile, h4]

/-! ## Properties of `FindEndpoint` -/

/-- C1: when `FindEndpoint(address, I, A)` with non-negative filters returns an
endpoint record `e`, the scan has met an interface record `i` with
`bInterfaceNumber == I` and `bAlternateSetting == A` before `e`, no other
interface record lies between `i` and `e`, and `e` lies after `i` and before
the configuration end. -/
theorem FindEndpoint_filtered_enclosed (fuel : Nat) (mem : Mem) (this address : Nat)
    (I A : Int) (hI : 0 ≤ I) (hA : 0 ≤ A) (e : Nat)
    (h : FindEndpoint fuel mem this address I A = some (some e)) :
    ∃ pre i mid post, records fuel mem this = pre ++ i :: (mid ++ e :: post) ∧
      Ptr.bDescriptorType mem i = DescriptorType.Interface ∧
      (Ptr.bInterfaceNumber mem i : Int) = I ∧
      (Ptr.bAlternateSetting mem i : Int) = A ∧
      (∀ m ∈ mid, Ptr.bDescriptorType mem m ≠ DescriptorType.Interface) ∧
      Ptr.bDescriptorType mem e = DescriptorType.Endpoint ∧
      i < e ∧ e < End mem this := by
  obtain ⟨pre, post, hrec, hhit, -⟩ := (FindEndpoint_eq_some_some_iff _ _ _ _ _ _ _).mp h
  obtain ⟨h5, hact, -⟩ := (hitAt_iff _ _ _ _).mp hhit
  obtain ⟨i, hlast, hsc⟩ := (activeAfter_false_iff _ _ _ _).mp hact
  obtain ⟨hfI, hfA⟩ := (scopeActive_iff _ _ _ _).mp hsc
  obtain ⟨p, mid, hpre, h4, hmid⟩ := (lastInterface?_eq_some_iff _ _ _).mp hlast
  have hdec : records fuel mem this = p ++ i :: (mid ++ e :: post) := by
    rw [hrec, hpre]; simp
  have hle : i ≤ e := walk_le_of_later mem _ fuel this p i _ hdec e (by simp)
  have hne : i ≠ e := by
    intro hie
    rw [hie, h5] at h4
    exact endpoint_ne_interface h4
  have hmem : e ∈ records fuel mem this := by rw [hrec]; simp
  have hend : e < End mem this := (walk_bounds mem _ fuel this e hmem).2
  refine ⟨p, i, mid, post, hdec, h4, ?_, ?_, hmid, h5, by omega, hend⟩
  · rcases hfI with hneg | heq
    · omega
    · exact heq.symm
  · rcases hfA with hneg | heq
    · omega
    · exact heq.symm

/-- Witness of C1: in `twoAlternates` the call `FindEndpoint(0x82, 0, 1)`
returns the endpoint record at 34, enclosed by the interface record at 25. -/
theorem FindEndpoint_filtered_enclosed_witness :
    FindEndpoint 46 Example.twoAlternatesMem 0 0x82 0 1 = some (some 34) ∧
    ∃ pre i mid post,
      records 46 Example.twoAlternatesMem 0 = pre ++ i :: (mid ++ 34 :: post) ∧
      Ptr.bDescriptorType Example.twoAlternatesMem i = DescriptorType.Interface ∧
      (Ptr.bInterfaceNumber Example.twoAlternatesMem i : Int) = 0 ∧
      (Ptr.bAlternateSetting Example.twoAlternatesMem i : Int) = 1 ∧
      (∀ m ∈ mid,
        Ptr.bDescriptorType Example.twoAlternatesMem m ≠ DescriptorType.Interface) ∧
      Ptr.bDescriptorType Example.twoAlternatesMem 34 = DescriptorType.Endpoint ∧
      i < 34 ∧ 34 < End Example.twoAlternatesMem 0 :=
  ⟨by decide,
    FindEndpoint_filtered_enclosed 46 Example.twoAlternatesMem 0 0x82 0 1 (by decide)
      (by decide) 34 (by decide)⟩

/-- C2, as stated, fails: in `endpointOnly` the scan meets the records at 0 and
9, the record at 9 is the first (and only) endpoint record with address `0x81`,
and `FindEndpoint(0x81, -1, -1)` returns `NULL`. -/
theorem FindEndpoint_wildcard_misses_leading_endpoint :
    records 16 Example.endpointOnlyMem 0 = [0, 9] ∧
    Ptr.bDescriptorType Example.endpointOnlyMem 9 = DescriptorType.Endpoint ∧
    Ptr.bEndpointAddress Example.endpointOnlyMem 9 = 0x81 ∧
    FindEndpoint 16 Example.endpointOnlyMem 0 0x81 (-1) (-1) = some none := by
  decide

/-- C2, amended: with wildcard filters `FindEndpoint` looks at the records from
the first interface record on, and returns the first endpoint record among
them whose `bEndpointAddress` is the target address: it returns that record
whenever the scan reaches one, and whatever it returns is that first record
(`NULL` when there is none). -/
theorem FindEndpoint_wildcard_first_after_interface (fuel : Nat) (mem : Mem)
    (this address : Nat) (interface alternate : Int)
    (hi : interface < 0) (ha : alternate < 0) :
    (∀ e,
      ((records fuel mem this).dropWhile
          (fun h => decide (Ptr.bDescriptorType mem h ≠ DescriptorType.Interface))).find?
        (fun h => decide (Ptr.bDescriptorType mem h = DescriptorType.Endpoint) &&
          decide (Ptr.bEndpointAddress mem h = address % 256)) = some e →
      FindEndpoint fuel mem this address interface alternate = some (some e)) ∧
    (∀ r, FindEndpoint fuel mem this address interface alternate = some r →
      r = ((records fuel mem this).dropWhile
          (fun h => decide (Ptr.bDescriptorType mem h ≠ DescriptorType.Interface))).find?
        (fun h => decide (Ptr.bDescriptorType mem h = DescriptorType.Endpoint) &&
          decide (Ptr.bEndpointAddress mem h = address % 256))) := by
  constructor
  · intro e he
    unfold FindEndpoint
    rw [loop_eq_some_some_iff, scanRecords_wildcard_false mem _ interface alternate hi ha]
    exact he
  · intro r hr
    unfold FindEndpoint at hr
    have := loop_eq_some_imp mem _ _ interface alternate fuel this false r hr
    rw [scanRecords_wildcard_false mem _ interface alternate hi ha] at this
    exact this

/-- Witness of amended C2: in `twoAlternates` the wildcard call for `0x82`
returns the record at 34, the first endpoint record with that address. -/
theorem FindEndpoint_wildcard_first_after_interface_witness :
    ((-1 : Int) < 0) ∧
    FindEndpoint 46 Example.twoAlternatesMem 0 0x82 (-1) (-1) = some (some 34) :=
  ⟨by decide,
    (FindEndpoint_wildcard_first_after_interface 46 Example.twoAlternatesMem 0 0x82 (-1) (-1)
      (by decide) (by decide)).1 34 (by decide)⟩

/-- C3: on a well-formed configuration (every record length met by the scan is
non-zero) `FindEndpoint` returns; it returns `NULL` if and only if the scan from
the root to `End()` holds no endpoint record with the target address whose last
preceding interface record satisfies both filters; a returned record has type
`Endpoint`, has the target address and starts before `End()`. -/
theorem FindEndpoint_null_iff_no_active_match (fuel : Nat) (mem : Mem) (this address : Nat)
    (interface alternate : Int) (hwf : WellFormed mem this)
    (hfuel : Ptr.wTotalLength mem this ≤ fuel) :
    ∃ r, FindEndpoint fuel mem this address interface alternate = some r ∧
      (r = none ↔
        ¬ ∃ pre e post i, records fuel mem this = pre ++ e :: post ∧
          lastInterface? mem pre = some i ∧
          (interface < 0 ∨ interface = (Ptr.bInterfaceNumber mem i : Int)) ∧
          (alternate < 0 ∨ alternate = (Ptr.bAlternateSetting mem i : Int)) ∧
          Ptr.bDescriptorType mem e = DescriptorType.Endpoint ∧
          Ptr.bEndpointAddress mem e = address % 256) ∧
      (∀ e, r = some e →
        Ptr.bDescriptorType mem e = DescriptorType.Endpoint ∧
        Ptr.bEndpointAddress mem e = address % 256 ∧ e < End mem this) := by
  obtain ⟨r, hr⟩ := FindEndpoint_returns fuel mem this address interface alternate hwf hfuel
  refine ⟨r, hr, ⟨?_, ?_⟩, ?_⟩
  · intro hnone
    subst hnone
    rintro ⟨pre, e, post, i, hrec, hlast, hfI, hfA, h5, haddr⟩
    have hmiss := FindEndpoint_eq_some_none_imp fuel mem this address interface alternate hr
      pre e post hrec
    have hact : activeAfter mem interface alternate false pre = true :=
      (activeAfter_false_iff _ _ _ _).mpr
        ⟨i, hlast, (scopeActive_iff _ _ _ _).mpr ⟨hfI, hfA⟩⟩
    have hhit : hitAt mem (address % 256) (activeAfter mem interface alternate false pre) e
        = true := (hitAt_iff _ _ _ _).mpr ⟨h5, hact, haddr⟩
    rw [hmiss] at hhit
    exact absurd hhit (by simp)
  · intro hno
    cases r with
    | none => rfl
    | some e =>
      exfalso
      apply hno
      obtain ⟨pre, post, hrec, hhit, -⟩ := (FindEndpoint_eq_some_some_iff _ _ _ _ _ _ _).mp hr
      obtain ⟨h5, hact, haddr⟩ := (hitAt_iff _ _ _ _).mp hhit
      obtain ⟨i, hlast, hsc⟩ := (activeAfter_false_iff _ _ _ _).mp hact
      obtain ⟨hfI, hfA⟩ := (scopeActive_iff _ _ _ _).mp hsc
      exact ⟨pre, e, post, i, hrec, hlast, hfI, hfA, h5, haddr⟩
  · intro e he
    subst he
    obtain ⟨pre, post, hrec, hhit, -⟩ := (FindEndpoint_eq_some_some_iff _ _ _ _ _ _ _).mp hr
    obtain ⟨h5, -, haddr⟩ := (hitAt_iff _ _ _ _).mp hhit
    have hmem : e ∈ records fuel mem this := by rw [hrec]; simp
    exact ⟨h5, haddr, (walk_bounds mem _ fuel this e hmem).2⟩

/-- Witness of C3: `twoAlternates` is well-formed, and the statement holds for
the call `FindEndpoint(0x82, 0, 0)`. -/
theorem FindEndpoint_null_iff_no_active_match_witness :
    WellFormed Example.twoAlternatesMem 0 ∧
    Ptr.wTotalLength Example.twoAlternatesMem 0 ≤ 46 ∧
    ∃ r, FindEndpoint 46 Example.twoAlternatesMem 0 0x82 0 0 = some r ∧
      (r = none ↔
        ¬ ∃ pre e post i, records 46 Example.twoAlternatesMem 0 = pre ++ e :: post ∧
          lastInterface? Example.twoAlternatesMem pre = some i ∧
          ((0 : Int) < 0 ∨
            (0 : Int) = (Ptr.bInterfaceNumber Example.twoAlternatesMem i : Int)) ∧
          ((0 : Int) < 0 ∨
            (0 : Int) = (Ptr.bAlternateSetting Example.twoAlternatesMem i : Int)) ∧
          Ptr.bDescriptorType Example.twoAlternatesMem e = DescriptorType.Endpoint ∧
          Ptr.bEndpointAddress Example.twoAlternatesMem e = 0x82 % 256) ∧
      (∀ e, r = some e →
        Ptr.bDescriptorType Example.twoAlternatesMem e = DescriptorType.Endpoint ∧
        Ptr.bEndpointAddress Example.twoAlternatesMem e = 0x82 % 256 ∧
        e < End Example.twoAlternatesMem 0) :=
  ⟨by decide, by decide,
    FindEndpoint_null_iff_no_active_match 46 Example.twoAlternatesMem 0 0x82 0 0 (by decide)
      (by decide)⟩

/-- C4, as stated, fails: in `alternateOne` the endpoint `0x81` sits under an
interface record with alternate setting 1; the call with wildcard filters
returns it, the call with only the address returns `NULL`. -/
theorem FindEndpoint_addressOnly_misses_alternate_one :
    Ptr.bAlternateSetting Example.alternateOneMem 9 = 1 ∧
    FindEndpoint 25 Example.alternateOneMem 0 0x81 (-1) (-1) = some (some 18) ∧
    FindEndpoint_addressOnly 25 Example.alternateOneMem 0 0x81 = some none := by
  decide

/-- C4, amended: the call with only the address runs with the interface filter
`-1` (any) and the alternate filter `0`: it returns `e` exactly when `e` is the
first endpoint record with the target address whose last preceding interface
record, of whatever interface number, has `bAlternateSetting == 0`. -/
theorem FindEndpoint_addressOnly_alternate_zero (fuel : Nat) (mem : Mem)
    (this address e : Nat) :
    FindEndpoint_addressOnly fuel mem this address = some (some e) ↔
      ∃ pre post i, records fuel mem this = pre ++ e :: post ∧
        lastInterface? mem pre = some i ∧ Ptr.bAlternateSetting mem i = 0 ∧
        Ptr.bDescriptorType mem e = DescriptorType.Endpoint ∧
        Ptr.bEndpointAddress mem e = address % 256 ∧
        ∀ p m q j, pre = p ++ m :: q → lastInterface? mem p = some j →
          Ptr.bAlternateSetting mem j = 0 →
          ¬ (Ptr.bDescriptorType mem m = DescriptorType.Endpoint ∧
            Ptr.bEndpointAddress mem m = address % 256) := by
  have hsc : ∀ j, scopeActive mem (-1) 0 j = true ↔ Ptr.bAlternateSetting mem j = 0 := by
    intro j
    rw [scopeActive_iff]
    constructor
    · rintro ⟨-, h | h⟩
      · omega
      · omega
    · intro h
      exact ⟨Or.inl (by decide), Or.inr (by omega)⟩
  unfold FindEndpoint_addressOnly
  rw [FindEndpoint_eq_some_some_iff]
  constructor
  · rintro ⟨pre, post, hrec, hhit, hfirst⟩
    obtain ⟨h5, hact, haddr⟩ := (hitAt_iff _ _ _ _).mp hhit
    obtain ⟨i, hlast, hsi⟩ := (activeAfter_false_iff _ _ _ _).mp hact
    refine ⟨pre, post, i, hrec, hlast, (hsc i).mp hsi, h5, haddr, ?_⟩
    rintro p m q j hp hj hj0 ⟨hm5, hmaddr⟩
    have hact' : activeAfter mem (-1) 0 false p = true :=
      (activeAfter_false_iff _ _ _ _).mpr ⟨j, hj, (hsc j).mpr hj0⟩
    have hhit' : hitAt mem (address % 256) (activeAfter mem (-1) 0 false p) m = true :=
      (hitAt_iff _ _ _ _).mpr ⟨hm5, hact', hmaddr⟩
    rw [hfirst p m q hp] at hhit'
    exact absurd hhit' (by simp)
  · rintro ⟨pre, post, i, hrec, hlast, hi0, h5, haddr, hfirst⟩
    refine ⟨pre, post, hrec, ?_, ?_⟩
    · exact (hitAt_iff _ _ _ _).mpr
        ⟨h5, (activeAfter_false_iff _ _ _ _).mpr ⟨i, hlast, (hsc i).mpr hi0⟩, haddr⟩
    · intro p m q hp
      cases hh : hitAt mem (address % 256) (activeAfter mem (-1) 0 false p) m with
      | false => rfl
      | true =>
        exfalso
        obtain ⟨hm5, hact, hmaddr⟩ := (hitAt_iff _ _ _ _).mp hh
        obtain ⟨j, hj, hsj⟩ := (activeAfter_false_iff _ _ _ _).mp hact
        exact hfirst p m q j hp hj ((hsc j).mp hsj) ⟨hm5, hmaddr⟩

end ConfigDescriptorHeader

/-! ## Lemmas on the composition -/

theorem packedSize_pair (a b : Nat) : packedSize [a, b] = a + b := by
  simp [packedSize]

theorem packedSize_custom (c : Nat) : packedSize [1, 1, c] = 2 + c := by
  simp only [packedSize, List.sum_cons, List.sum_nil]; omega

theorem EndpointDescriptor_sizeof_eq : EndpointDescriptor.sizeof = 7 := rfl

theorem InterfaceDescriptorHeader_sizeof_eq : InterfaceDescriptorHeader.sizeof = 9 := rfl

theorem ConfigDescriptorHeader_sizeof_eq : ConfigDescriptorHeader.sizeof = 9 := rfl

theorem Item_sizeof_custom (bLength bDescriptorType : Nat) (content : List Item) :
    (Item.custom bLength bDescriptorType content).sizeof = 2 + ConfigChildren.sizeof content := by
  rw [Item.sizeof, packedSize_custom]

theorem Item_sizeof_interface (h : InterfaceDescriptorHeader) (endpoints : List Item) :
    (Item.interface h endpoints).sizeof = 9 + ConfigChildren.sizeof endpoints := by
  rw [Item.sizeof, packedSize_pair, InterfaceDescriptorHeader_sizeof_eq]

theorem ConfigChildren_sizeof_cons (first : Item) (rest : List Item) :
    ConfigChildren.sizeof (first :: rest) = first.sizeof + ConfigChildren.sizeof rest := by
  rw [ConfigChildren.sizeof, packedSize_pair]

theorem CustomDescriptor_bLength_ctor (type : Nat) (content : List Item) :
    (CustomDescriptor.ctor type content).bLength = (2 + ConfigChildren.sizeof content) % 256 := by
  rw [CustomDescriptor.ctor, packedSize_custom]

theorem EndpointDescriptor_length_bytes (e : EndpointDescriptor) : e.bytes.length = 7 := rfl

theorem InterfaceDescriptorHeader_length_bytes (h : InterfaceDescriptorHeader) :
    h.bytes.length = 9 := rfl

theorem ConfigDescriptorHeader_length_bytes (h : ConfigDescriptorHeader) :
    h.bytes.length = 9 := rfl

mutual
theorem Item_length_bytes : ∀ (t : Item), t.bytes.length = t.sizeof
  | .u8 _ => rfl
  | .u16 _ => rfl
  | .u32 _ => rfl
  | .endpoint _ => rfl
  | .custom _ _ content => by
    simp only [Item.bytes, Item_sizeof_custom, List.length_cons,
      ConfigChildren_length_bytes content]
    omega
  | .interface h endpoints => by
    simp only [Item.bytes, Item_sizeof_interface, List.length_append,
      ConfigChildren_length_bytes endpoints, InterfaceDescriptorHeader_length_bytes]
theorem ConfigChildren_length_bytes : ∀ (ts : List Item),
    (ConfigChildren.bytes ts).length = ConfigChildren.sizeof ts
  | [] => rfl
  | first :: rest => by
    simp only [ConfigChildren.bytes, ConfigChildren_sizeof_cons, List.length_append,
      Item_length_bytes first, ConfigChildren_length_bytes rest]
end

mutual
theorem Item_sum_recordSizes : ∀ (t : Item), t.recordSizes.sum = t.sizeof
  | .u8 _ => rfl
  | .u16 _ => rfl
  | .u32 _ => rfl
  | .endpoint _ => rfl
  | .custom _ _ content => by simp [Item.recordSizes, Item_sizeof_custom]
  | .interface _ endpoints => by
    simp only [Item.recordSizes, Item_sizeof_interface, List.sum_cons,
      ConfigChildren_sum_recordSizes endpoints]
theorem ConfigChildren_sum_recordSizes : ∀ (ts : List Item),
    (ConfigChildren.recordSizes ts).sum = ConfigChildren.sizeof ts
  | [] => rfl
  | first :: rest => by
    simp only [ConfigChildren.recordSizes, ConfigChildren_sizeof_cons, List.sum_append,
      Item_sum_recordSizes first, ConfigChildren_sum_recordSizes rest]
end

theorem ConfigDescriptor_eq (index : Nat) (maxPower : Int) (strName attributes : Nat)
    (interfaces : List Item) :
    ConfigDescriptor index maxPower strName attributes interfaces =
      ⟨ConfigDescriptorHeader.ctor (ConfigChildren.sizeof interfaces) interfaces.length index
        maxPower strName attributes, interfaces⟩ := by
  cases interfaces with
  | nil => rfl
  | cons first rest => rfl

theorem InterfaceDescriptor_eq (index alternate cls subCls proto strName : Nat)
    (endpoints : List Item) :
    InterfaceDescriptor index alternate cls subCls proto strName endpoints =
      ⟨InterfaceDescriptorHeader.ctor index alternate (endpoint_count endpoints) cls subCls
        proto strName, endpoints⟩ := by
  cases endpoints with
  | nil => rfl
  | cons first rest => rfl

theorem endpoint_count_eq_countP : ∀ (ts : List Item),
    endpoint_count ts = ts.countP Item.isEndpoint
  | [] => rfl
  | first :: rest => by
    rw [endpoint_count, endpoint_count_eq_countP rest, List.countP_cons]
    cases first <;> simp [is_endpoint, Item.isEndpoint, Nat.add_comm]

theorem endpoint_count_replicate (e : EndpointDescriptor) : ∀ (n : Nat),
    endpoint_count (List.replicate n (Item.endpoint e)) = n
  | 0 => rfl
  | n + 1 => by
    rw [List.replicate_succ, endpoint_count, endpoint_count_replicate e n, is_endpoint]
    omega

/-! ## Properties of the composition -/

/-- C5: for a composition whose flattened size fits the 16-bit field,
`ConfigDescriptor(index, maxPower, strName, attributes, interfaces...)` has
`wTotalLength` equal to the header size 9 plus the sizes of all nested records,
which is the length of the whole flattened byte run. -/
theorem ConfigDescriptor_wTotalLength (index : Nat) (maxPower : Int)
    (strName attributes : Nat) (interfaces : List Item)
    (hvalid : 9 + ConfigChildren.sizeof interfaces < 65536) :
    (ConfigDescriptor index maxPower strName attributes interfaces).wTotalLength =
        9 + (ConfigChildren.recordSizes interfaces).sum ∧
      (ConfigDescriptor index maxPower strName attributes interfaces).wTotalLength =
        9 + ConfigChildren.sizeof interfaces ∧
      (ConfigDescriptor index maxPower strName attributes interfaces).wTotalLength =
        (ConfigDescriptor index maxPower strName attributes interfaces).bytes.length := by
  have hw : (ConfigDescriptor index maxPower strName attributes interfaces).wTotalLength =
      9 + ConfigChildren.sizeof interfaces := by
    rw [ConfigDescriptor_eq]
    show (9 + ConfigChildren.sizeof interfaces % 65536) % 65536 = _
    omega
  refine ⟨?_, hw, ?_⟩
  · rw [hw, ConfigChildren_sum_recordSizes]
  · rw [hw, ConfigDescriptor_eq]
    simp only [ConfigDescriptorBlock.bytes, List.length_append,
      ConfigDescriptorHeader_length_bytes, ConfigChildren_length_bytes]

/-- Witness of C5: `twoAlternates` has `wTotalLength == 46`. -/
theorem ConfigDescriptor_wTotalLength_witness :
    9 + ConfigChildren.sizeof Example.twoAlternates.interfaces < 65536 ∧
    Example.twoAlternates.wTotalLength = 46 ∧
    Example.twoAlternates.wTotalLength = Example.twoAlternates.bytes.length :=
  ⟨by decide,
    (ConfigDescriptor_wTotalLength 1 100 0 ConfigAttributes.BusPowered
      Example.twoAlternates.interfaces (by decide)).2.1.trans (by decide),
    (ConfigDescriptor_wTotalLength 1 100 0 ConfigAttributes.BusPowered
      Example.twoAlternates.interfaces (by decide)).2.2⟩

/-- C6, as stated, fails for a container: an interface with one endpoint has
`bLength == 9` while the record with its descendant occupies 16 bytes. -/
theorem InterfaceDescriptor_bLength_excludes_descendants :
    (InterfaceDescriptor 0 0 0xFF 0 0 0
        [Item.endpoint (EndpointDescriptor.BulkIn .zeroed 1 64)]).bLength = 9 ∧
    (InterfaceDescriptor 0 0 0xFF 0 0 0
        [Item.endpoint (EndpointDescriptor.BulkIn .zeroed 1 64)]).bytes.length = 16 := by
  decide

/-- C6, amended: `bLength` is the size of the record's own struct. For an
endpoint it is 7, the whole record. For an interface and for a configuration it
is 9, the header alone, whatever is nested: the nested records follow the
header and are counted by the configuration's `wTotalLength` only. For a custom
descriptor of less than 256 bytes it is the header with all its content. -/
theorem bLength_eq_own_size (storage : EndpointDescriptor.Storage) (inp : Bool)
    (number : Nat) (type : EndpointType)
    (maxPacketSize interval : Nat) (sync : IsoSync) (usage : IsoUsage)
    (index alternate cls subCls proto strName : Nat) (children : List Item)
    (maxPower : Int) (attributes : Nat) (interfaces : List Item)
    (customType : Nat) (content : List Item)
    (hcustom : 2 + ConfigChildren.sizeof content < 256) :
    ((EndpointDescriptor.ctor storage inp number type maxPacketSize interval sync
        usage).bLength = 7 ∧
      (EndpointDescriptor.ctor storage inp number type maxPacketSize interval sync
        usage).bytes.length = 7) ∧
    ((InterfaceDescriptor index alternate cls subCls proto strName children).bLength = 9 ∧
      (InterfaceDescriptor index alternate cls subCls proto strName
        children).toInterfaceDescriptorHeader.bytes.length = 9 ∧
      (InterfaceDescriptor index alternate cls subCls proto strName children).bytes.length =
        9 + ConfigChildren.sizeof children) ∧
    ((ConfigDescriptor index maxPower strName attributes interfaces).bLength = 9 ∧
      (ConfigDescriptor index maxPower strName attributes
        interfaces).toConfigDescriptorHeader.bytes.length = 9 ∧
      (ConfigDescriptor index maxPower strName attributes interfaces).bytes.length =
        9 + ConfigChildren.sizeof interfaces) ∧
    ((CustomDescriptor.ctor customType content).bLength =
        2 + ConfigChildren.sizeof content ∧
      (CustomDescriptor.ctor customType content).bLength =
        (CustomDescriptor.ctor customType content).bytes.length) := by
  refine ⟨⟨rfl, rfl⟩, ⟨?_, rfl, ?_⟩, ⟨?_, rfl, ?_⟩, ?_⟩
  · rw [InterfaceDescriptor_eq]; rfl
  · rw [InterfaceDescriptor_eq]
    simp only [InterfaceDescriptorBlock.bytes, InterfaceDescriptorBlock.toItem, Item.bytes,
      List.length_append, InterfaceDescriptorHeader_length_bytes, ConfigChildren_length_bytes]
  · rw [ConfigDescriptor_eq]; rfl
  · rw [ConfigDescriptor_eq]
    simp only [ConfigDescriptorBlock.bytes, List.length_append,
      ConfigDescriptorHeader_length_bytes, ConfigChildren_length_bytes]
  · have hb : (CustomDescriptor.ctor customType content).bLength =
        2 + ConfigChildren.sizeof content := by
      rw [CustomDescriptor_bLength_ctor]
      omega
    refine ⟨hb, ?_⟩
    rw [hb]
    simp only [CustomDescriptor.bytes, CustomDescriptor.toItem, Item.bytes, List.length_cons,
      ConfigChildren_length_bytes, CustomDescriptor.ctor]
    omega

/-- Witness of amended C6: the class-specific descriptor with content
`(6, 0, 1)` has `bLength == 5`, its whole size. -/
theorem bLength_eq_own_size_witness :
    2 + ConfigChildren.sizeof [Item.u8 6, Item.u8 0, Item.u8 1] < 256 ∧
    (CustomDescriptor.ctor DescriptorType.ClassSpecificInterface
      [Item.u8 6, Item.u8 0, Item.u8 1]).bLength =
      (CustomDescriptor.ctor DescriptorType.ClassSpecificInterface
        [Item.u8 6, Item.u8 0, Item.u8 1]).bytes.length :=
  ⟨by decide,
    (bLength_eq_own_size .zeroed true 1 EndpointType.Bulk 64 1 IsoSync.None IsoUsage.Data
      0 0 0xFF 0 0 0 [] 100 0 [] DescriptorType.ClassSpecificInterface
      [Item.u8 6, Item.u8 0, Item.u8 1] (by decide)).2.2.2.2⟩

/-- C7 at the failing input: `InterruptOut(1, 64, 1)` has the direction bit
set, `bEndpointAddress == 0x81` in a constant-initialised descriptor, the same
record as `InterruptIn(1, 64, 1)`, while `BulkOut(1, 64)` and `ControlOut()` have
it clear; the direction bits are these in whatever storage the endpoints are
built. -/
theorem InterruptOut_has_direction_bit_set :
    (EndpointDescriptor.InterruptOut .zeroed 1 64 1).bEndpointAddress = 0x81 ∧
    (EndpointDescriptor.InterruptOut .zeroed 1 64 1).in_ = 1 ∧
    EndpointDescriptor.InterruptOut .zeroed 1 64 1 =
      EndpointDescriptor.InterruptIn .zeroed 1 64 1 ∧
    (EndpointDescriptor.BulkOut .zeroed 1 64).bEndpointAddress = 0x01 ∧
    (EndpointDescriptor.ControlOut .zeroed).bEndpointAddress = 0x00 ∧
    (∀ storage : EndpointDescriptor.Storage,
      (EndpointDescriptor.InterruptOut storage 1 64 1).in_ = 1 ∧
      EndpointDescriptor.InterruptOut storage 1 64 1 =
        EndpointDescriptor.InterruptIn storage 1 64 1 ∧
      (EndpointDescriptor.BulkOut storage 1 64).in_ = 0 ∧
      (EndpointDescriptor.ControlOut storage).in_ = 0) := by
  refine ⟨by decide, by decide, by decide, by decide, by decide, ?_⟩
  intro storage
  refine ⟨?_, rfl, ?_, ?_⟩ <;>
    simp only [EndpointDescriptor.InterruptOut, EndpointDescriptor.BulkOut,
      EndpointDescriptor.ControlOut, EndpointDescriptor.ctor, EndpointDescriptor.in_] <;>
    simp <;> omega

/-- C8, as stated, fails: built in storage whose bytes are `0xFF`, the OUT
endpoint 1 has `bEndpointAddress == 0x71`, not `0x01`; bits 4-6, which the
constructor does not write, are those of the storage. -/
theorem EndpointDescriptor_address_keeps_storage_bits :
    (1 : Nat) < 16 ∧
    (EndpointDescriptor.ctor ⟨0xFF, 0xFF⟩ false 1 EndpointType.Bulk 64 1 IsoSync.None
      IsoUsage.Data).bEndpointAddress = 0x71 ∧
    (EndpointDescriptor.ctor ⟨0xFF, 0xFF⟩ false 1 EndpointType.Bulk 64 1 IsoSync.None
      IsoUsage.Data).bEndpointAddress ≠ 1 + (if false then 0x80 else 0) ∧
    (EndpointDescriptor.ctor ⟨0xFF, 0xFF⟩ false 1 EndpointType.Bulk 64 1 IsoSync.None
      IsoUsage.Data).bEndpointAddress / 16 % 8 = 7 := by
  decide

/-- C8, amended: for every direction flag and every endpoint number `n` in
0..15 the constructed endpoint has the number in bits 0-3 and the direction in
bit 7 of `bEndpointAddress`; bits 4-6 are not written and keep the bits of the
storage. Where these are zero, as in a constant-initialised descriptor,
`bEndpointAddress == n + (in ? 0x80 : 0)`, and `BulkIn(3, size)` yields `0x83`. -/
theorem EndpointDescriptor_address_packing (storage : EndpointDescriptor.Storage)
    (inp : Bool) (n : Nat) (hn : n < 16)
    (type : EndpointType) (maxPacketSize interval : Nat) (sync : IsoSync) (usage : IsoUsage) :
    (EndpointDescriptor.ctor storage inp n type maxPacketSize interval sync
        usage).bEndpointAddress =
      n + 16 * (storage.bEndpointAddress / 16 % 8) + (if inp then 0x80 else 0) ∧
    (EndpointDescriptor.ctor storage inp n type maxPacketSize interval sync usage).number = n ∧
    (EndpointDescriptor.ctor storage inp n type maxPacketSize interval sync
        usage).bEndpointAddress / 16 % 8 = storage.bEndpointAddress / 16 % 8 ∧
    (EndpointDescriptor.ctor storage inp n type maxPacketSize interval sync usage).in_ =
      (if inp then 1 else 0) ∧
    (storage.bEndpointAddress / 16 % 8 = 0 →
      (EndpointDescriptor.ctor storage inp n type maxPacketSize interval sync
          usage).bEndpointAddress = n + (if inp then 0x80 else 0) ∧
        (EndpointDescriptor.ctor storage inp n type maxPacketSize interval sync
          usage).bEndpointAddress / 16 % 8 = 0) ∧
    (EndpointDescriptor.ctor .zeroed inp n type maxPacketSize interval sync
        usage).bEndpointAddress = n + (if inp then 0x80 else 0) ∧
    (∀ size, (EndpointDescriptor.BulkIn .zeroed 3 size).bEndpointAddress = 0x83) := by
  have h16 : n % 256 % 16 = n := by omega
  cases inp <;>
    simp only [EndpointDescriptor.ctor, EndpointDescriptor.number, EndpointDescriptor.in_,
      EndpointDescriptor.BulkIn, EndpointDescriptor.Storage.zeroed, h16] <;>
    refine ⟨?_, ?_, ?_, ?_, ?_, ?_, ?_⟩ <;> (try intro _) <;> simp <;> omega

/-- Witness of amended C8: in zeroed storage `BulkIn(3, 64)` has
`bEndpointAddress == 0x83`, with bits 4-6 zero. -/
theorem EndpointDescriptor_address_packing_witness :
    (3 < 16 ∧ EndpointDescriptor.Storage.zeroed.bEndpointAddress / 16 % 8 = 0) ∧
    (EndpointDescriptor.BulkIn .zeroed 3 64).bEndpointAddress = 0x83 ∧
    (EndpointDescriptor.BulkIn .zeroed 3 64).bEndpointAddress / 16 % 8 = 0 :=
  ⟨by decide,
    ((EndpointDescriptor_address_packing .zeroed true 3 (by decide) EndpointType.Bulk 64 1
      IsoSync.None IsoUsage.Data).2.2.2.2.1 (by decide)).1,
    ((EndpointDescriptor_address_packing .zeroed true 3 (by decide) EndpointType.Bulk 64 1
      IsoSync.None IsoUsage.Data).2.2.2.2.1 (by decide)).2⟩

/-- C9, as stated, fails: built in storage whose bytes are `0xFF`, a control
endpoint without sync mode and usage has `bmAttributes == 0xC0`, not 0; bits
6-7, which the constructor does not write, are those of the storage. -/
theorem EndpointDescriptor_attributes_keep_storage_bits :
    EndpointType.Control.val = 0 ∧ IsoSync.None.val = 0 ∧ IsoUsage.Data.val = 0 ∧
    (EndpointDescriptor.ctor ⟨0xFF, 0xFF⟩ false 1 EndpointType.Control 64 1 IsoSync.None
      IsoUsage.Data).bmAttributes = 0xC0 ∧
    (EndpointDescriptor.ctor ⟨0xFF, 0xFF⟩ false 1 EndpointType.Control 64 1 IsoSync.None
      IsoUsage.Data).bmAttributes ≠
        EndpointType.Control.val + 4 * IsoSync.None.val + 16 * IsoUsage.Data.val ∧
    (EndpointDescriptor.ctor ⟨0xFF, 0xFF⟩ false 1 EndpointType.Control 64 1 IsoSync.None
      IsoUsage.Data).bmAttributes / 64 = 3 := by
  decide

/-- C9, amended: for every transfer type `t`, sync mode `s` and usage `u` the
constructed endpoint has `t` in bits 0-1, `s` in bits 2-3 and `u` in bits 4-5 of
`bmAttributes`, and the three bit-field views of the byte give back `t`, `s` and
`u`; bits 6-7 are not written and keep the bits of the storage. Where these are
zero, as in a constant-initialised descriptor, `bmAttributes == t + 4*s + 16*u`. -/
theorem EndpointDescriptor_attributes_packing (storage : EndpointDescriptor.Storage)
    (inp : Bool) (number : Nat)
    (t : EndpointType) (maxPacketSize interval : Nat) (s : IsoSync) (u : IsoUsage) :
    (EndpointDescriptor.ctor storage inp number t maxPacketSize interval s u).bmAttributes =
      t.val + 4 * s.val + 16 * u.val + 64 * (storage.bmAttributes / 64 % 4) ∧
    (EndpointDescriptor.ctor storage inp number t maxPacketSize interval s u).bmAttributes / 64 =
      storage.bmAttributes / 64 % 4 ∧
    (EndpointDescriptor.ctor storage inp number t maxPacketSize interval s u).type = t.val ∧
    (EndpointDescriptor.ctor storage inp number t maxPacketSize interval s u).isoSync = s.val ∧
    (EndpointDescriptor.ctor storage inp number t maxPacketSize interval s u).isoUsage =
      u.val ∧
    (t.val < 4 ∧ s.val < 4 ∧ u.val < 3) ∧
    (storage.bmAttributes / 64 % 4 = 0 →
      (EndpointDescriptor.ctor storage inp number t maxPacketSize interval s u).bmAttributes =
          t.val + 4 * s.val + 16 * u.val ∧
        (EndpointDescriptor.ctor storage inp number t maxPacketSize interval s
          u).bmAttributes / 64 = 0) ∧
    (EndpointDescriptor.ctor .zeroed inp number t maxPacketSize interval s u).bmAttributes =
      t.val + 4 * s.val + 16 * u.val := by
  have ht : t.val < 4 := by cases t <;> decide
  have hs : s.val < 4 := by cases s <;> decide
  have hu : u.val < 3 := by cases u <;> decide
  have hz : EndpointDescriptor.Storage.zeroed.bmAttributes = 0 := rfl
  simp only [EndpointDescriptor.ctor, EndpointDescriptor.type, EndpointDescriptor.isoSync,
    EndpointDescriptor.isoUsage, hz]
  refine ⟨?_, ?_, ?_, ?_, ?_, ⟨ht, hs, hu⟩, ?_, ?_⟩ <;> (try intro _) <;> omega

/-- Witness of amended C9: in zeroed storage an isochronous endpoint with
asynchronous sync mode and feedback usage has `bmAttributes == 1 + 4*1 + 16*1`,
with bits 6-7 zero. -/
theorem EndpointDescriptor_attributes_packing_witness :
    EndpointDescriptor.Storage.zeroed.bmAttributes / 64 % 4 = 0 ∧
    (EndpointDescriptor.ctor .zeroed true 1 EndpointType.Isochronous 64 1 IsoSync.Asynchronous
      IsoUsage.Feedback).bmAttributes = 21 ∧
    (EndpointDescriptor.ctor .zeroed true 1 EndpointType.Isochronous 64 1 IsoSync.Asynchronous
      IsoUsage.Feedback).bmAttributes / 64 = 0 :=
  ⟨by decide,
    ((EndpointDescriptor_attributes_packing .zeroed true 1 EndpointType.Isochronous 64 1
      IsoSync.Asynchronous IsoUsage.Feedback).2.2.2.2.2.2.1 (by decide)).1,
    ((EndpointDescriptor_attributes_packing .zeroed true 1 EndpointType.Isochronous 64 1
      IsoSync.Asynchronous IsoUsage.Feedback).2.2.2.2.2.2.1 (by decide)).2⟩

/-! ## The walk over composed records -/

theorem concatBytes_append : ∀ (a b : List (List Nat)),
    concatBytes (a ++ b) = concatBytes a ++ concatBytes b
  | [], b => rfl
  | r :: a, b => by
    show r ++ concatBytes (a ++ b) = (r ++ concatBytes a) ++ concatBytes b
    rw [concatBytes_append a b, List.append_assoc]

theorem ConfigChildren_bytes_eq_concatBytes : ∀ (ts : List Item),
    ConfigChildren.bytes ts = concatBytes (ts.map Item.bytes)
  | [] => rfl
  | first :: rest => by
    simp only [ConfigChildren.bytes, List.map_cons, concatBytes,
      ConfigChildren_bytes_eq_concatBytes rest]

/-- A byte of a run placed in memory after `pre`. -/
theorem Mem_ofBytes_append_at (pre r rest : List Nat) (k : Nat) (hk : k < r.length) :
    Mem.ofBytes (pre ++ (r ++ rest)) (pre.length + k) = r.getD k 0 := by
  unfold Mem.ofBytes
  rw [List.getD_append_right _ _ _ _ (Nat.le_add_right _ _), Nat.add_sub_cancel_left,
    List.getD_append _ _ _ _ hk]

theorem mem_recordOffsets : ∀ (rs : List (List Nat)) (start h : Nat),
    h ∈ recordOffsets start rs →
      ∃ a r b, rs = a ++ r :: b ∧ h = start + (concatBytes a).length
  | [], _, h, hh => by simp [recordOffsets] at hh
  | r :: rs, start, h, hh => by
    simp only [recordOffsets, List.mem_cons] at hh
    rcases hh with rfl | hh
    · exact ⟨[], r, rs, rfl, by simp [concatBytes]⟩
    · obtain ⟨a, r', b, hrs, hh'⟩ := mem_recordOffsets rs _ h hh
      refine ⟨r :: a, r', b, by simp [hrs], ?_⟩
      simp only [concatBytes, List.length_append]
      omega

/-- Over framed records laid out one after the other the loop
`hdr = hdr->Next()` visits exactly the starts of the records. -/
theorem walk_framed : ∀ (rs : List (List Nat)) (pre post : List Nat) (fuel : Nat),
    (∀ r ∈ rs, Framed r) →
      ConfigDescriptorHeader.walk (Mem.ofBytes (pre ++ (concatBytes rs ++ post)))
          (pre.length + (concatBytes rs).length) fuel pre.length =
        (recordOffsets pre.length rs).take fuel
  | [], pre, post, fuel, _ => by
    cases fuel <;> simp [ConfigDescriptorHeader.walk, concatBytes, recordOffsets]
  | r :: rs, pre, post, 0, _ => by
    simp [ConfigDescriptorHeader.walk]
  | r :: rs, pre, post, fuel + 1, hf => by
    obtain ⟨hpos, hlt, hhead⟩ := hf r (List.mem_cons_self _ _)
    have hlt' : pre.length < pre.length + (concatBytes (r :: rs)).length := by
      simp only [concatBytes, List.length_append]; omega
    have hlen : Ptr.bLength (Mem.ofBytes (pre ++ (concatBytes (r :: rs) ++ post)))
        pre.length = r.length := by
      have := Mem_ofBytes_append_at pre r (concatBytes rs ++ post) 0 hpos
      simp only [concatBytes, List.append_assoc, Ptr.bLength, read8]
      rw [Nat.add_zero] at this
      rw [this, hhead]
      omega
    have hmem : pre ++ (concatBytes (r :: rs) ++ post) =
        (pre ++ r) ++ (concatBytes rs ++ post) := by
      simp only [concatBytes, List.append_assoc]
    have hend : pre.length + (concatBytes (r :: rs)).length =
        (pre ++ r).length + (concatBytes rs).length := by
      simp only [concatBytes, List.length_append]; omega
    have ih := walk_framed rs (pre ++ r) post fuel
      (fun x hx => hf x (List.mem_cons_of_mem _ hx))
    simp only [ConfigDescriptorHeader.walk, hlt', if_true, recordOffsets, List.take_succ_cons,
      DescriptorHeader.Next, hlen]
    have hpr : pre.length + r.length = (pre ++ r).length := (List.length_append _ _).symm
    rw [hmem, hend, hpr, ih]

/-- The bytes of a record of a layout, read from memory. -/
theorem Mem_ofBytes_record_at (pre post : List Nat) (a : List (List Nat)) (r : List Nat)
    (b : List (List Nat)) (k : Nat) (hk : k < r.length) :
    Mem.ofBytes (pre ++ (concatBytes (a ++ r :: b) ++ post))
      (pre.length + (concatBytes a).length + k) = r.getD k 0 := by
  have h1 : pre ++ (concatBytes (a ++ r :: b) ++ post) =
      (pre ++ concatBytes a) ++ (r ++ (concatBytes b ++ post)) := by
    simp only [concatBytes_append, concatBytes, List.append_assoc]
  have h2 : pre.length + (concatBytes a).length = (pre ++ concatBytes a).length := by
    simp only [List.length_append]
  rw [h1, h2]
  exact Mem_ofBytes_append_at _ _ _ _ hk

/-- Every record met by the walk over a layout of framed records is one of the
records laid out, and its type byte is that record's second byte. -/
theorem walk_layout_type (rs : List (List Nat)) (fuel h : Nat)
    (hf : ∀ r ∈ rs, Framed r ∧ 1 < r.length)
    (hh : h ∈ ConfigDescriptorHeader.walk (Mem.ofBytes (concatBytes rs))
      (concatBytes rs).length fuel 0) :
    ∃ r ∈ rs, Ptr.bDescriptorType (Mem.ofBytes (concatBytes rs)) h = r.getD 1 0 % 256 := by
  have hw := walk_framed rs [] [] fuel (fun r hr => (hf r hr).1)
  simp only [List.nil_append, List.append_nil, List.length_nil, Nat.zero_add] at hw
  rw [hw] at hh
  obtain ⟨a, r, b, hrs, hoff⟩ := mem_recordOffsets rs 0 h (List.mem_of_mem_take hh)
  have hr : r ∈ rs := by rw [hrs]; simp
  refine ⟨r, hr, ?_⟩
  have hat := Mem_ofBytes_record_at [] [] a r b 1 (hf r hr).2
  simp only [List.nil_append, List.append_nil, List.length_nil, Nat.zero_add] at hat
  rw [Nat.zero_add] at hoff
  simp only [Ptr.bDescriptorType, read8]
  rw [hrs, hoff, hat]

/-- C10, as stated, fails: an interface with 256 endpoint children has
`bNumEndpoints == 0`. -/
theorem InterfaceDescriptor_bNumEndpoints_wraps :
    (List.replicate 256 (Item.endpoint (EndpointDescriptor.BulkIn .zeroed 1 64))).countP
        Item.isEndpoint = 256 ∧
    (InterfaceDescriptor 0 0 0xFF 0 0 0
      (List.replicate 256 (Item.endpoint (EndpointDescriptor.BulkIn .zeroed 1 64)))).bNumEndpoints
        = 0 := by
  constructor
  · rw [← endpoint_count_eq_countP, endpoint_count_replicate]
  · rw [InterfaceDescriptor_eq]
    show endpoint_count _ % 256 = 0
    rw [endpoint_count_replicate]

/-- C10, amended: `bNumEndpoints` is the number of children of type
`EndpointDescriptor` reduced modulo 256, hence that number when it is below
256; children of other types are not counted. When all children are custom
descriptors, `bNumEndpoints == 0`, no child is an endpoint, and the bytes after
the header are the images of the custom descriptors; if moreover each of them
is under 256 bytes and not tagged `Endpoint`, the walk by `Next()` over the
interface's bytes meets no endpoint record. -/
theorem InterfaceDescriptor_bNumEndpoints (index alternate cls subCls proto strName : Nat)
    (children : List Item) :
    (InterfaceDescriptor index alternate cls subCls proto strName children).bNumEndpoints =
        children.countP Item.isEndpoint % 256 ∧
    (children.countP Item.isEndpoint < 256 →
      (InterfaceDescriptor index alternate cls subCls proto strName children).bNumEndpoints =
        children.countP Item.isEndpoint) ∧
    ((∀ c ∈ children, c.isCustom = true) →
      (InterfaceDescriptor index alternate cls subCls proto strName children).bNumEndpoints
          = 0 ∧
        (∀ c ∈ children, c.isEndpoint = false) ∧
        (InterfaceDescriptor index alternate cls subCls proto strName children).bytes =
          (InterfaceDescriptorHeader.ctor index alternate 0 cls subCls proto strName).bytes ++
            concatBytes (children.map Item.bytes)) ∧
    (∀ customs : List (Nat × List Item),
      children = customs.map (fun d => (CustomDescriptor.ctor d.1 d.2).toItem) →
      (∀ d ∈ customs,
        d.1 % 256 ≠ DescriptorType.Endpoint ∧ 2 + ConfigChildren.sizeof d.2 < 256) →
      ∀ fuel,
        ∀ h ∈ ConfigDescriptorHeader.walk
            (Mem.ofBytes
              (InterfaceDescriptor index alternate cls subCls proto strName children).bytes)
            (InterfaceDescriptor index alternate cls subCls proto strName
              children).bytes.length fuel 0,
          Ptr.bDescriptorType
            (Mem.ofBytes
              (InterfaceDescriptor index alternate cls subCls proto strName children).bytes)
            h ≠ DescriptorType.Endpoint) := by
  have hn : (InterfaceDescriptor index alternate cls subCls proto strName
      children).bNumEndpoints = children.countP Item.isEndpoint % 256 := by
    rw [InterfaceDescriptor_eq, ← endpoint_count_eq_countP]
    rfl
  have hbytes : ∀ n, (⟨InterfaceDescriptorHeader.ctor index alternate n cls subCls proto
      strName, children⟩ : InterfaceDescriptorBlock).bytes =
      concatBytes ((InterfaceDescriptorHeader.ctor index alternate n cls subCls proto
        strName).bytes :: children.map Item.bytes) := by
    intro n
    simp only [InterfaceDescriptorBlock.bytes, InterfaceDescriptorBlock.toItem, Item.bytes,
      concatBytes, ConfigChildren_bytes_eq_concatBytes]
  refine ⟨hn, ?_, ?_, ?_⟩
  · intro hlt
    rw [hn, Nat.mod_eq_of_lt hlt]
  · intro hall
    have hne : ∀ c ∈ children, c.isEndpoint = false := by
      intro c hc
      have := hall c hc
      cases c <;> simp_all [Item.isCustom, Item.isEndpoint]
    have hcount : children.countP Item.isEndpoint = 0 := by
      rw [List.countP_eq_zero]
      intro c hc
      rw [hne c hc]
      simp
    refine ⟨by rw [hn, hcount], hne, ?_⟩
    rw [InterfaceDescriptor_eq, hbytes, ← endpoint_count_eq_countP] at *
    rw [hcount]
    rfl
  · intro customs hchildren hcustoms fuel h hh
    rw [InterfaceDescriptor_eq, hbytes] at hh ⊢
    have hf : ∀ r ∈ (InterfaceDescriptorHeader.ctor index alternate (endpoint_count children)
        cls subCls proto strName).bytes :: children.map Item.bytes,
        (Framed r ∧ 1 < r.length) ∧ r.getD 1 0 % 256 ≠ DescriptorType.Endpoint := by
      intro r hr
      rcases List.mem_cons.mp hr with rfl | hr
      · refine ⟨⟨⟨by simp [InterfaceDescriptorHeader.bytes], by
          simp [InterfaceDescriptorHeader.bytes], ?_⟩, by
          simp [InterfaceDescriptorHeader.bytes]⟩, ?_⟩
        · simp [InterfaceDescriptorHeader.bytes, InterfaceDescriptorHeader.ctor,
            InterfaceDescriptorHeader_sizeof_eq]
        · simp [InterfaceDescriptorHeader.bytes, InterfaceDescriptorHeader.ctor,
            DescriptorType.Interface, DescriptorType.Endpoint]
      · rw [hchildren, List.map_map] at hr
        obtain ⟨d, hd, rfl⟩ := List.mem_map.mp hr
        obtain ⟨htag, hsize⟩ := hcustoms d hd
        have hlen : (Item.bytes (CustomDescriptor.ctor d.1 d.2).toItem).length =
            2 + ConfigChildren.sizeof d.2 := by
          simp only [CustomDescriptor.toItem, CustomDescriptor.ctor, Item.bytes,
            List.length_cons, ConfigChildren_length_bytes]
          omega
        refine ⟨⟨⟨?_, ?_, ?_⟩, ?_⟩, ?_⟩
        · simp only [Function.comp, hlen]; omega
        · simp only [Function.comp, hlen]; omega
        · simp only [Function.comp, hlen]
          simp only [CustomDescriptor.toItem, CustomDescriptor_bLength_ctor, Item.bytes,
            List.getD_cons_zero]
          omega
        · simp only [Function.comp, hlen]; omega
        · simp only [Function.comp, CustomDescriptor.toItem, CustomDescriptor.ctor, Item.bytes,
            List.getD_cons_succ, List.getD_cons_zero]
          omega
    obtain ⟨r, hr, htype⟩ := walk_layout_type _ fuel h (fun r hr => (hf r hr).1) hh
    rw [htype]
    exact (hf r hr).2

/-- Witness of amended C10: an interface whose only child is the class-specific
descriptor `(6, 0, 1)` has `bNumEndpoints == 0` and its walk meets no endpoint
record. -/
theorem InterfaceDescriptor_bNumEndpoints_witness :
    (InterfaceDescriptor 0 1 0xFF 0 0 0
      [(ClassSpecificInterfaceDescriptor 6 [Item.u8 0, Item.u8 1]).toItem]).bNumEndpoints = 0 ∧
    ∀ h ∈ ConfigDescriptorHeader.walk
        (Mem.ofBytes (InterfaceDescriptor 0 1 0xFF 0 0 0
          [(ClassSpecificInterfaceDescriptor 6 [Item.u8 0, Item.u8 1]).toItem]).bytes)
        (InterfaceDescriptor 0 1 0xFF 0 0 0
          [(ClassSpecificInterfaceDescriptor 6 [Item.u8 0, Item.u8 1]).toItem]).bytes.length
        14 0,
      Ptr.bDescriptorType
        (Mem.ofBytes (InterfaceDescriptor 0 1 0xFF 0 0 0
          [(ClassSpecificInterfaceDescriptor 6 [Item.u8 0, Item.u8 1]).toItem]).bytes)
        h ≠ DescriptorType.Endpoint :=
  ⟨((InterfaceDescriptor_bNumEndpoints 0 1 0xFF 0 0 0
      [(ClassSpecificInterfaceDescriptor 6 [Item.u8 0, Item.u8 1]).toItem]).2.2.1
      (by decide)).1,
    (InterfaceDescriptor_bNumEndpoints 0 1 0xFF 0 0 0
      [(ClassSpecificInterfaceDescriptor 6 [Item.u8 0, Item.u8 1]).toItem]).2.2.2
      [(DescriptorType.ClassSpecificInterface, [Item.u8 6, Item.u8 0, Item.u8 1])]
      rfl (by decide) 14⟩

/-! ## Header-only containers, fixed shapes and counts -/

/-- C11: a container composed with zero children is its 9-byte header and
nothing else: the interface has `bLength == 9` and `bNumEndpoints == 0`, the
configuration has `bLength == 9`, `wTotalLength == 9` and
`bNumInterfaces == 0`. -/
theorem zero_children_header_only (index alternate cls subCls proto strName : Nat)
    (maxPower : Int) (attributes : Nat) :
    ((InterfaceDescriptor index alternate cls subCls proto strName []).bytes.length = 9 ∧
      (InterfaceDescriptor index alternate cls subCls proto strName []).bytes =
        (InterfaceDescriptorHeader.ctor index alternate 0 cls subCls proto strName).bytes ∧
      (InterfaceDescriptor index alternate cls subCls proto strName []).bLength = 9 ∧
      (InterfaceDescriptor index alternate cls subCls proto strName []).bNumEndpoints = 0 ∧
      (InterfaceDescriptor index alternate cls subCls proto strName []).endpoints = []) ∧
    ((ConfigDescriptor index maxPower strName attributes []).bytes.length = 9 ∧
      (ConfigDescriptor index maxPower strName attributes []).bytes =
        (ConfigDescriptorHeader.ctor 0 0 index maxPower strName attributes).bytes ∧
      (ConfigDescriptor index maxPower strName attributes []).bLength = 9 ∧
      (ConfigDescriptor index maxPower strName attributes []).wTotalLength = 9 ∧
      (ConfigDescriptor index maxPower strName attributes []).bNumInterfaces = 0 ∧
      (ConfigDescriptor index maxPower strName attributes []).interfaces = []) := by
  refine ⟨⟨rfl, ?_, rfl, rfl, rfl⟩, ⟨rfl, ?_, rfl, rfl, rfl, rfl⟩⟩
  · simp [InterfaceDescriptor, InterfaceDescriptorBlock.bytes, InterfaceDescriptorBlock.toItem,
      Item.bytes, ConfigChildren.bytes]
  · simp [ConfigDescriptor, ConfigDescriptorBlock.bytes, ConfigChildren.bytes]

/-- C17: the fixed-shape descriptors in the wire layout. A device descriptor is
18 bytes with tag 1, `bcdUSB == 0x0200` and `bMaxPacketSize0 == 64`; a
configuration header is 9 bytes with tag 2; an interface header is 9 bytes with
tag 4; an endpoint descriptor is 7 bytes with tag 5. In each, `bLength` is the
number of bytes, the fields follow in declaration order and the 16-bit fields
are stored low byte first. -/
theorem fixed_shape_wire_layout
    (cls subCls proto vid pid ver strMfg strProduct strSerial numConfig : Nat)
    (interfacesSize numInterfaces index : Nat) (maxPower : Int) (strName attributes : Nat)
    (alternate numEndpoints icls isubCls iproto istrName : Nat)
    (address epAttributes maxPacketSize interval : Nat) :
    ((DeviceDescriptor.ctor cls subCls proto vid pid ver strMfg strProduct strSerial
        numConfig).bytes =
        [18, 1, 0x00, 0x02, cls % 256, subCls % 256, proto % 256, 64, vid % 256,
          vid / 256 % 256, pid % 256, pid / 256 % 256, ver % 256, ver / 256 % 256,
          strMfg % 256, strProduct % 256, strSerial % 256, numConfig % 256] ∧
      (DeviceDescriptor.ctor cls subCls proto vid pid ver strMfg strProduct strSerial
        numConfig).bLength = 18 ∧
      (DeviceDescriptor.ctor cls subCls proto vid pid ver strMfg strProduct strSerial
        numConfig).bytes.length = 18 ∧
      (DeviceDescriptor.ctor cls subCls proto vid pid ver strMfg strProduct strSerial
        numConfig).bcdUSB = 0x0200 ∧
      (DeviceDescriptor.ctor cls subCls proto vid pid ver strMfg strProduct strSerial
        numConfig).bMaxPacketSize0 = 64) ∧
    ((ConfigDescriptorHeader.ctor interfacesSize numInterfaces index maxPower strName
        attributes).bytes =
        [9, 2,
          (ConfigDescriptorHeader.ctor interfacesSize numInterfaces index maxPower strName
            attributes).wTotalLength % 256,
          (ConfigDescriptorHeader.ctor interfacesSize numInterfaces index maxPower strName
            attributes).wTotalLength / 256,
          numInterfaces % 256, index % 256, strName % 256,
          (attributes % 256) ||| 0x80, (Int.tdiv maxPower 2 % 256).toNat] ∧
      (ConfigDescriptorHeader.ctor interfacesSize numInterfaces index maxPower strName
        attributes).bLength = 9 ∧
      (ConfigDescriptorHeader.ctor interfacesSize numInterfaces index maxPower strName
        attributes).bytes.length = 9) ∧
    ((InterfaceDescriptorHeader.ctor index alternate numEndpoints icls isubCls iproto
        istrName).bytes =
        [9, 4, index % 256, alternate % 256, numEndpoints % 256, icls % 256, isubCls % 256,
          iproto % 256, istrName % 256] ∧
      (InterfaceDescriptorHeader.ctor index alternate numEndpoints icls isubCls iproto
        istrName).bLength = 9 ∧
      (InterfaceDescriptorHeader.ctor index alternate numEndpoints icls isubCls iproto
        istrName).bytes.length = 9) ∧
    ((EndpointDescriptor.ctorRaw address epAttributes maxPacketSize interval).bytes =
        [7, 5, address % 256, epAttributes % 256, maxPacketSize % 256,
          maxPacketSize / 256 % 256, interval % 256] ∧
      (EndpointDescriptor.ctorRaw address epAttributes maxPacketSize interval).bLength = 7 ∧
      (EndpointDescriptor.ctorRaw address epAttributes maxPacketSize interval).bytes.length
        = 7) := by
  have hattr : (attributes % 256 ||| 128) % 256 = attributes % 256 ||| 128 := by
    apply Nat.mod_eq_of_lt
    have h1 : attributes % 256 < 2 ^ 8 := Nat.mod_lt _ (by norm_num)
    have h2 : (128 : Nat) < 2 ^ 8 := by norm_num
    exact Nat.or_lt_two_pow h1 h2
  have hpow : ((Int.tdiv maxPower 2 % 256).toNat) % 256 = (Int.tdiv maxPower 2 % 256).toNat := by
    apply Nat.mod_eq_of_lt
    omega
  refine ⟨⟨?_, rfl, rfl, rfl, rfl⟩, ⟨?_, rfl, rfl⟩, ⟨?_, rfl, rfl⟩, ⟨?_, rfl, rfl⟩⟩
  · simp only [DeviceDescriptor.bytes, DeviceDescriptor.ctor, DescriptorType.Device]
    have : DeviceDescriptor.sizeof = 18 := rfl
    rw [this]
    simp only [List.cons.injEq, and_true]
    refine ⟨by norm_num, by norm_num, by norm_num, by norm_num, ?_, ?_, ?_, by norm_num,
      ?_, ?_, ?_, ?_, ?_, ?_, ?_, ?_, ?_, ?_⟩ <;> omega
  · simp only [ConfigDescriptorHeader.bytes, ConfigDescriptorHeader.ctor,
      DescriptorType.Config, ConfigAttributes.or, ConfigAttributes._Reserved1, BIT]
    have : ConfigDescriptorHeader.sizeof = 9 := rfl
    rw [this]
    simp only [List.cons.injEq, and_true]
    refine ⟨by norm_num, by norm_num, trivial, ?_, ?_, ?_, ?_, ?_, hpow⟩
    · omega
    · omega
    · omega
    · omega
    · have : (2 : Nat) ^ 7 % 256 = 128 := by norm_num
      rw [this]
      exact hattr
  · simp only [InterfaceDescriptorHeader.bytes, InterfaceDescriptorHeader.ctor,
      DescriptorType.Interface]
    have : InterfaceDescriptorHeader.sizeof = 9 := rfl
    rw [this]
    simp only [List.cons.injEq, and_true]
    refine ⟨by norm_num, by norm_num, ?_, ?_, ?_, ?_, ?_, ?_, ?_⟩ <;> omega
  · simp only [EndpointDescriptor.bytes, EndpointDescriptor.ctorRaw, DescriptorType.Endpoint]
    have : EndpointDescriptor.sizeof = 7 := rfl
    rw [this]
    simp only [List.cons.injEq, and_true]
    refine ⟨by norm_num, by norm_num, ?_, ?_, ?_, ?_, ?_⟩ <;> omega

/-- C18, as stated, fails: a configuration with 256 top-level children has
`bNumInterfaces == 0`. -/
theorem ConfigDescriptor_bNumInterfaces_wraps :
    (List.replicate 256 (InterfaceDescriptor 0 0 0xFF 0 0 0 []).toItem).length = 256 ∧
    (ConfigDescriptor 1 100 0 ConfigAttributes.BusPowered
      (List.replicate 256 (InterfaceDescriptor 0 0 0xFF 0 0 0 []).toItem)).bNumInterfaces
        = 0 := by
  constructor
  · exact List.length_replicate _ _
  · rw [ConfigDescriptor_eq]
    show (List.replicate 256 _).length % 256 = 0
    rw [List.length_replicate]

/-- C18, amended: `bNumInterfaces` is the number of top-level children supplied,
each counted once, reduced modulo 256; it is that number when fewer than 256
children are supplied. -/
theorem ConfigDescriptor_bNumInterfaces (index : Nat) (maxPower : Int)
    (strName attributes : Nat) (interfaces : List Item) :
    (ConfigDescriptor index maxPower strName attributes interfaces).bNumInterfaces =
        interfaces.length % 256 ∧
    (interfaces.length < 256 →
      (ConfigDescriptor index maxPower strName attributes interfaces).bNumInterfaces =
        interfaces.length) ∧
    (ConfigDescriptor index maxPower strName attributes interfaces).interfaces = interfaces := by
  have h : (ConfigDescriptor index maxPower strName attributes interfaces).bNumInterfaces =
      interfaces.length % 256 := by
    rw [ConfigDescriptor_eq]; rfl
  refine ⟨h, ?_, ?_⟩
  · intro hlt
    rw [h, Nat.mod_eq_of_lt hlt]
  · rw [ConfigDescriptor_eq]

/-- Witness of amended C18: `twoAlternates`, built from two alternate settings
of interface 0, has `bNumInterfaces == 2`. -/
theorem ConfigDescriptor_bNumInterfaces_witness :
    Example.twoAlternates.interfaces.length < 256 ∧
    Example.twoAlternates.bNumInterfaces = 2 :=
  ⟨by decide,
    ((ConfigDescriptor_bNumInterfaces 1 100 0 ConfigAttributes.BusPowered
      Example.twoAlternates.interfaces).2.1 (by decide)).trans (by decide)⟩

/-! ## Setup packet views -/

theorem read8_write8_same (mem : Mem) (a v : Nat) : read8 (write8 mem a v) a = v % 256 := by
  simp [read8, write8]

theorem read8_write8_other (mem : Mem) (a b v : Nat) (h : b ≠ a) :
    read8 (write8 mem a v) b = read8 mem b := by
  simp [read8, write8, h]

/-- C12: for every 16-bit `wValue`, after `wValue = v` the aliased members read
`descriptorIndex == v mod 256` and `descriptorType == v div 256`; storing a pair
`(i, t)` through the two members makes `wValue == i + 256 * t`, so storing the
pair read back reproduces `v`; `0x0301` reads as index 1 and type 3
(`String`). -/
theorem SetupPacket_wValue_aliasing (mem : Mem) (p v : Nat) (hv : v < 65536) :
    SetupPacket.descriptorIndex (SetupPacket.set_wValue mem p v) p = v % 256 ∧
    SetupPacket.descriptorType (SetupPacket.set_wValue mem p v) p = v / 256 ∧
    SetupPacket.wValue (SetupPacket.set_wValue mem p v) p = v ∧
    (∀ i t, i < 256 → t < 256 →
      SetupPacket.wValue
        (SetupPacket.set_descriptorType (SetupPacket.set_descriptorIndex mem p i) p t) p =
        i + 256 * t) ∧
    SetupPacket.wValue
      (SetupPacket.set_descriptorType
        (SetupPacket.set_descriptorIndex mem p
          (SetupPacket.descriptorIndex (SetupPacket.set_wValue mem p v) p)) p
        (SetupPacket.descriptorType (SetupPacket.set_wValue mem p v) p)) p = v ∧
    (SetupPacket.descriptorIndex (SetupPacket.set_wValue mem p 0x0301) p = 1 ∧
      SetupPacket.descriptorType (SetupPacket.set_wValue mem p 0x0301) p =
        DescriptorType.String) := by
  have hne : p + 2 ≠ p + 2 + 1 := by omega
  have hidx : ∀ w, SetupPacket.descriptorIndex (SetupPacket.set_wValue mem p w) p =
      w % 65536 % 256 := by
    intro w
    simp only [SetupPacket.descriptorIndex, SetupPacket.set_wValue, write16]
    rw [read8_write8_other _ _ _ _ hne, read8_write8_same]
    omega
  have htyp : ∀ w, SetupPacket.descriptorType (SetupPacket.set_wValue mem p w) p =
      w % 65536 / 256 % 256 := by
    intro w
    simp only [SetupPacket.descriptorType, SetupPacket.set_wValue, write16]
    have : p + 3 = p + 2 + 1 := by omega
    rw [this, read8_write8_same]
  have hpair : ∀ m i t, SetupPacket.wValue
      (SetupPacket.set_descriptorType (SetupPacket.set_descriptorIndex m p i) p t) p =
      i % 256 + 256 * (t % 256) := by
    intro m i t
    simp only [SetupPacket.wValue, SetupPacket.set_descriptorType,
      SetupPacket.set_descriptorIndex, read16]
    have h23 : p + 2 ≠ p + 3 := by omega
    have : p + 2 + 1 = p + 3 := by omega
    rw [this, read8_write8_same, read8_write8_other _ _ _ _ h23, read8_write8_same]
  refine ⟨?_, ?_, ?_, ?_, ?_, ?_, ?_⟩
  · rw [hidx]; omega
  · rw [htyp]; omega
  · simp only [SetupPacket.wValue, SetupPacket.set_wValue, write16, read16]
    rw [read8_write8_same, read8_write8_other _ _ _ _ hne, read8_write8_same]
    omega
  · intro i t hi ht
    rw [hpair]; omega
  · rw [hpair, hidx, htyp]; omega
  · rw [hidx]
  · rw [htyp]; rfl

/-- Witness of C12: `wValue = 0x0301` reads as `descriptorIndex == 1` and
`descriptorType == 3`. -/
theorem SetupPacket_wValue_aliasing_witness :
    0x0301 < 65536 ∧
    SetupPacket.descriptorIndex (SetupPacket.set_wValue (Mem.ofBytes []) 0 0x0301) 0 =
      0x0301 % 256 ∧
    SetupPacket.descriptorType (SetupPacket.set_wValue (Mem.ofBytes []) 0 0x0301) 0 =
      0x0301 / 256 :=
  ⟨by decide,
    (SetupPacket_wValue_aliasing (Mem.ofBytes []) 0 0x0301 (by decide)).1,
    (SetupPacket_wValue_aliasing (Mem.ofBytes []) 0 0x0301 (by decide)).2.1⟩

/-- C13: for every request-type byte `b`, after `bmRequestType = b` the three
bit-field views read `recipient == b mod 32`, `type == (b div 32) mod 4` and
`direction == b div 128`; they repack to `b`, and storing them through the
three bit-fields of any packet makes `bmRequestType == b`. -/
theorem SetupPacket_bmRequestType_round_trip (mem : Mem) (p b : Nat) (hb : b < 256) :
    SetupPacket.recipient (SetupPacket.set_bmRequestType mem p b) p = b % 32 ∧
    SetupPacket.type (SetupPacket.set_bmRequestType mem p b) p = b / 32 % 4 ∧
    SetupPacket.direction (SetupPacket.set_bmRequestType mem p b) p = b / 128 ∧
    SetupPacket.recipient (SetupPacket.set_bmRequestType mem p b) p +
        32 * SetupPacket.type (SetupPacket.set_bmRequestType mem p b) p +
        128 * SetupPacket.direction (SetupPacket.set_bmRequestType mem p b) p = b ∧
    SetupPacket.bmRequestType
      (SetupPacket.set_direction
        (SetupPacket.set_type
          (SetupPacket.set_recipient mem p
            (SetupPacket.recipient (SetupPacket.set_bmRequestType mem p b) p)) p
          (SetupPacket.type (SetupPacket.set_bmRequestType mem p b) p)) p
        (SetupPacket.direction (SetupPacket.set_bmRequestType mem p b) p)) p = b := by
  have hr : read8 (SetupPacket.set_bmRequestType mem p b) p = b := by
    simp only [SetupPacket.set_bmRequestType]
    rw [read8_write8_same]; omega
  simp only [SetupPacket.recipient, SetupPacket.type, SetupPacket.direction, hr,
    SetupPacket.bmRequestType, SetupPacket.set_direction, SetupPacket.set_type,
    SetupPacket.set_recipient, read8_write8_same]
  refine ⟨trivial, trivial, ?_, ?_, ?_⟩ <;> omega

/-- Witness of C13: the byte `0xA1` (class request to an interface, device to
host) reads as recipient 1, type 1, direction 1. -/
theorem SetupPacket_bmRequestType_round_trip_witness :
    0xA1 < 256 ∧
    SetupPacket.recipient (SetupPacket.set_bmRequestType (Mem.ofBytes []) 0 0xA1) 0 = 1 ∧
    SetupPacket.type (SetupPacket.set_bmRequestType (Mem.ofBytes []) 0 0xA1) 0 = 1 ∧
    SetupPacket.direction (SetupPacket.set_bmRequestType (Mem.ofBytes []) 0 0xA1) 0 = 1 :=
  ⟨by decide,
    (SetupPacket_bmRequestType_round_trip (Mem.ofBytes []) 0 0xA1 (by decide)).1,
    (SetupPacket_bmRequestType_round_trip (Mem.ofBytes []) 0 0xA1 (by decide)).2.1,
    (SetupPacket_bmRequestType_round_trip (Mem.ofBytes []) 0 0xA1 (by decide)).2.2.1⟩

/-! ## String descriptors -/

/-- Clearing bits 0 and 1 rounds down to a multiple of 4. -/
theorem ldiff_three (x : Nat) : Nat.ldiff x 3 = x / 4 * 4 := by
  apply Nat.eq_of_testBit_eq
  intro i
  have h3 : (3 : Nat) = 2 ^ 2 - 1 := by norm_num
  have h4 : x / 4 * 4 = (x >>> 2) <<< 2 := by
    rw [Nat.shiftRight_eq_div_pow, Nat.shiftLeft_eq]
  rw [Nat.testBit_ldiff, h4, Nat.testBit_shiftLeft, Nat.testBit_shiftRight, h3,
    Nat.testBit_two_pow_sub_one]
  by_cases hi : i < 2
  · simp [hi]
  · have : 2 + (i - 2) = i := by omega
    simp [hi, this]
    omega

theorem StringDescriptor_Next_eq (mem : Mem) (this : Nat) :
    StringDescriptor.Next mem this = (this + Ptr.len mem this + 2 + 3) / 4 * 4 := by
  rw [StringDescriptor.Next, ldiff_three]

/-- C14: `StringDescriptor::Next()` returns `this + len + 2` rounded up to a
4-byte boundary: the result is a multiple of 4, is at least `this + len + 2`, is
less than `this + len + 6`, and no multiple of 4 from `this + len + 2` on is
smaller. -/
theorem StringDescriptor_Next_rounds_up (mem : Mem) (this : Nat) :
    StringDescriptor.Next mem this % 4 = 0 ∧
    this + Ptr.len mem this + 2 ≤ StringDescriptor.Next mem this ∧
    StringDescriptor.Next mem this < this + Ptr.len mem this + 6 ∧
    (∀ q, q % 4 = 0 → this + Ptr.len mem this + 2 ≤ q → StringDescriptor.Next mem this ≤ q) := by
  rw [StringDescriptor_Next_eq]
  refine ⟨by omega, by omega, by omega, ?_⟩
  intro q hq hle
  omega

theorem length_codeUnitBytes : ∀ (us : List Nat), (codeUnitBytes us).length = 2 * us.length
  | [] => rfl
  | u :: us => by
    simp only [codeUnitBytes, List.length_cons, length_codeUnitBytes us]
    omega

theorem readBytes_append_at : ∀ (r pre rest : List Nat),
    readBytes (Mem.ofBytes (pre ++ (r ++ rest))) pre.length r.length = r
  | [], _, _ => rfl
  | x :: r, pre, rest => by
    have h0 := Mem_ofBytes_append_at pre (x :: r) rest 0 (by simp)
    have ih := readBytes_append_at r (pre ++ [x]) rest
    have hm : pre ++ (x :: r ++ rest) = pre ++ [x] ++ (r ++ rest) := by simp
    simp only [List.length_cons, readBytes]
    rw [Nat.add_zero] at h0
    rw [h0, hm]
    simp only [List.length_append, List.length_singleton] at ih
    rw [ih]
    simp

theorem length_placeAligned_mod : ∀ (rs : List (List Nat)), (placeAligned rs).length % 4 = 0
  | [] => rfl
  | r :: rs => by
    have ih := length_placeAligned_mod rs
    simp only [placeAligned, List.length_append, List.length_replicate, alignUp4]
    omega

theorem placeAligned_append : ∀ (a b : List (List Nat)),
    placeAligned (a ++ b) = placeAligned a ++ placeAligned b
  | [], b => rfl
  | r :: a, b => by
    show r ++ (_ ++ placeAligned (a ++ b)) = (r ++ (_ ++ placeAligned a)) ++ placeAligned b
    rw [placeAligned_append a b]
    simp only [List.append_assoc]

/-- Over string records laid out at aligned offsets, each storing in its first
byte its size less 2, `Next()` steps from one record to the next. -/
theorem advance_placeAligned : ∀ (a : List (List Nat)) (pre rest : List Nat),
    pre.length % 4 = 0 →
    (∀ r ∈ a, 2 ≤ r.length ∧ r.getD 0 0 % 256 + 2 = r.length) →
    StringDescriptor.advance (Mem.ofBytes (pre ++ (placeAligned a ++ rest))) a.length
      pre.length = pre.length + (placeAligned a).length
  | [], pre, rest, _, _ => by simp [StringDescriptor.advance, placeAligned]
  | r :: a, pre, rest, hpre, hf => by
    obtain ⟨h2, hlen⟩ := hf r (List.mem_cons_self _ _)
    have hmem : pre ++ (placeAligned (r :: a) ++ rest) =
        (pre ++ (r ++ List.replicate (alignUp4 r.length - r.length) 0)) ++
          (placeAligned a ++ rest) := by
      simp only [placeAligned, List.append_assoc]
    have hread : Ptr.len (Mem.ofBytes (pre ++ (placeAligned (r :: a) ++ rest))) pre.length =
        r.getD 0 0 % 256 := by
      have := Mem_ofBytes_append_at pre r
        (List.replicate (alignUp4 r.length - r.length) 0 ++ placeAligned a ++ rest) 0
        (by omega)
      rw [Nat.add_zero] at this
      simp only [placeAligned, List.append_assoc, Ptr.len, read8] at this ⊢
      rw [this]
    have hnext : StringDescriptor.Next (Mem.ofBytes (pre ++ (placeAligned (r :: a) ++ rest)))
        pre.length = (pre ++ (r ++ List.replicate (alignUp4 r.length - r.length) 0)).length := by
      rw [StringDescriptor_Next_eq, hread]
      simp only [List.length_append, List.length_replicate, alignUp4]
      omega
    have hpre' : (pre ++ (r ++ List.replicate (alignUp4 r.length - r.length) 0)).length % 4
        = 0 := by
      simp only [List.length_append, List.length_replicate, alignUp4]
      omega
    have ih := advance_placeAligned a
      (pre ++ (r ++ List.replicate (alignUp4 r.length - r.length) 0)) rest hpre'
      (fun x hx => hf x (List.mem_cons_of_mem _ hx))
    simp only [List.length_cons, StringDescriptor.advance]
    rw [hnext, hmem, ih]
    simp only [placeAligned, List.length_append, List.length_replicate]
    omega

/-- In a table of string records, `k` calls of `Next()` from the start reach
the `k`-th record, and the bytes found there are that record's. -/
theorem advance_table_at (a : List (List Nat)) (r : List Nat) (b : List (List Nat))
    (pre post : List Nat) (hpre : pre.length % 4 = 0)
    (hf : ∀ x ∈ a, 2 ≤ x.length ∧ x.getD 0 0 % 256 + 2 = x.length) :
    StringDescriptor.advance (Mem.ofBytes (pre ++ (placeAligned (a ++ r :: b) ++ post)))
        a.length pre.length = pre.length + (placeAligned a).length ∧
    readBytes (Mem.ofBytes (pre ++ (placeAligned (a ++ r :: b) ++ post)))
        (pre.length + (placeAligned a).length) r.length = r := by
  have hsplit : pre ++ (placeAligned (a ++ r :: b) ++ post) =
      pre ++ (placeAligned a ++ (placeAligned (r :: b) ++ post)) := by
    rw [placeAligned_append, List.append_assoc]
  constructor
  · rw [hsplit]
    exact advance_placeAligned a pre _ hpre hf
  · have hsplit2 : pre ++ (placeAligned (a ++ r :: b) ++ post) =
        (pre ++ placeAligned a) ++
          (r ++ (List.replicate (alignUp4 r.length - r.length) 0 ++ placeAligned b ++ post)) := by
      rw [hsplit]
      simp only [placeAligned, List.append_assoc]
    have hlen : pre.length + (placeAligned a).length = (pre ++ placeAligned a).length := by
      rw [List.length_append]
    rw [hsplit2, hlen]
    exact readBytes_append_at r _ _

theorem readBytes_head2 (mem : Mem) (p n x y : Nat) (t : List Nat)
    (h : readBytes mem p n = x :: y :: t) : mem p = x ∧ mem (p + 1) = y := by
  cases n with
  | zero => simp [readBytes] at h
  | succ n =>
    cases n with
    | zero => simp [readBytes] at h
    | succ n =>
      simp only [readBytes, List.cons.injEq] at h
      exact ⟨h.1, h.2.1⟩

theorem _StringDescriptor_length_bytes (d : _StringDescriptor) :
    d.bytes.length = 2 + 2 * d.value.length := by
  simp only [_StringDescriptor.bytes, List.length_cons, length_codeUnitBytes]
  omega

/-- C15: in the table built by `USB_STRING_TABLE_START(langs...)`,
`USB_STRING(name, value)`... and `USB_STRING_TABLE_END` and placed at an aligned
address, `k` calls of `Next()` from the language table reach the `k`-th
declared record: the address is a multiple of 4, the bytes there are the
record's, with `len == 2 + 2 *` (code units without the terminator) and type
`String`, the record occupying `len + 2` bytes; after the last string `Next()`
reaches the terminator, whose `len` is 0. -/
theorem UsbStringTable_round_trip (langs : List Nat) (strings : List (List Nat))
    (pre post : List Nat) (halign : pre.length % 4 = 0)
    (hlangs : 2 + langs.length * 2 < 256)
    (hstrings : ∀ v ∈ strings, countof v * 2 < 256) :
    (∀ a r b, UsbStringTable.records langs strings = a ++ r :: b →
      StringDescriptor.advance
          (Mem.ofBytes (pre ++ (UsbStringTable.bytes langs strings ++ post)))
          a.length pre.length % 4 = 0 ∧
      readBytes (Mem.ofBytes (pre ++ (UsbStringTable.bytes langs strings ++ post)))
          (StringDescriptor.advance
            (Mem.ofBytes (pre ++ (UsbStringTable.bytes langs strings ++ post)))
            a.length pre.length) r.bytes.length = r.bytes ∧
      Ptr.len (Mem.ofBytes (pre ++ (UsbStringTable.bytes langs strings ++ post)))
          (StringDescriptor.advance
            (Mem.ofBytes (pre ++ (UsbStringTable.bytes langs strings ++ post)))
            a.length pre.length) = r.len ∧
      Ptr.type (Mem.ofBytes (pre ++ (UsbStringTable.bytes langs strings ++ post)))
          (StringDescriptor.advance
            (Mem.ofBytes (pre ++ (UsbStringTable.bytes langs strings ++ post)))
            a.length pre.length) = DescriptorType.String ∧
      r.len = 2 + 2 * (r.value.length - 1) ∧
      r.bytes.length = r.len + 2) ∧
    (StringDescriptor.advance
        (Mem.ofBytes (pre ++ (UsbStringTable.bytes langs strings ++ post)))
        (UsbStringTable.records langs strings).length pre.length % 4 = 0 ∧
      Ptr.len (Mem.ofBytes (pre ++ (UsbStringTable.bytes langs strings ++ post)))
        (StringDescriptor.advance
          (Mem.ofBytes (pre ++ (UsbStringTable.bytes langs strings ++ post)))
          (UsbStringTable.records langs strings).length pre.length) = 0) ∧
    ((USB_STRING_TABLE_START langs).len = 2 + 2 * langs.length ∧
      ∀ v ∈ strings, (USB_STRING v).len = 2 + 2 * v.length) := by
  -- every declared record stores its size less 2 and has type `String`
  have hrec : ∀ r ∈ UsbStringTable.records langs strings,
      r.len < 256 ∧ r.len = 2 + 2 * (r.value.length - 1) ∧ r.bytes.length = r.len + 2 ∧
        r.type = DescriptorType.String := by
    intro r hr
    simp only [UsbStringTable.records, List.mem_cons, List.mem_map] at hr
    rcases hr with rfl | ⟨v, hv, rfl⟩
    · have h1 : (USB_STRING_TABLE_START langs).len = 2 + langs.length * 2 := by
        simp only [USB_STRING_TABLE_START]; exact Nat.mod_eq_of_lt hlangs
      have h2 : (USB_STRING_TABLE_START langs).value.length = langs.length + 1 := by
        simp [USB_STRING_TABLE_START]
      refine ⟨by omega, by omega, ?_, rfl⟩
      rw [_StringDescriptor_length_bytes]; omega
    · have hfit := hstrings v hv
      have h1 : (USB_STRING v).len = countof v * 2 := by
        simp only [USB_STRING]; exact Nat.mod_eq_of_lt hfit
      have h2 : (USB_STRING v).value.length = v.length + 1 := by
        simp [USB_STRING]
      have h3 : countof v = v.length + 1 := rfl
      refine ⟨by omega, by omega, ?_, rfl⟩
      rw [_StringDescriptor_length_bytes]; omega
  have hframed : ∀ x ∈ (UsbStringTable.records langs strings).map _StringDescriptor.bytes,
      2 ≤ x.length ∧ x.getD 0 0 % 256 + 2 = x.length := by
    intro x hx
    obtain ⟨r, hr, rfl⟩ := List.mem_map.mp hx
    obtain ⟨hlt, -, hsize, -⟩ := hrec r hr
    refine ⟨by omega, ?_⟩
    rw [hsize]
    simp only [_StringDescriptor.bytes, List.getD_cons_zero]
    omega
  refine ⟨?_, ?_, ?_⟩
  · intro a r b hab
    have hr : r ∈ UsbStringTable.records langs strings := by rw [hab]; simp
    obtain ⟨hlt, hlen, hsize, htype⟩ := hrec r hr
    have hruns : (UsbStringTable.records langs strings).map _StringDescriptor.bytes ++
        [USB_STRING_TABLE_END] =
        a.map _StringDescriptor.bytes ++
          r.bytes :: (b.map _StringDescriptor.bytes ++ [USB_STRING_TABLE_END]) := by
      rw [hab]; simp
    have hfa : ∀ x ∈ a.map _StringDescriptor.bytes,
        2 ≤ x.length ∧ x.getD 0 0 % 256 + 2 = x.length := by
      intro x hx
      apply hframed
      rw [hab]
      simp only [List.map_append, List.mem_append]
      exact Or.inl hx
    obtain ⟨hadv, hread⟩ := advance_table_at (a.map _StringDescriptor.bytes) r.bytes
      (b.map _StringDescriptor.bytes ++ [USB_STRING_TABLE_END]) pre post halign hfa
    rw [← hruns] at hadv hread
    rw [List.length_map] at hadv
    have hbytes : UsbStringTable.bytes langs strings = placeAligned
        ((UsbStringTable.records langs strings).map _StringDescriptor.bytes ++
          [USB_STRING_TABLE_END]) := rfl
    rw [hbytes, hadv]
    have hmod := length_placeAligned_mod (a.map _StringDescriptor.bytes)
    obtain ⟨hb0, hb1⟩ := readBytes_head2 _ _ _ _ _ _ hread
    refine ⟨by omega, hread, ?_, ?_, hlen, hsize⟩
    · simp only [Ptr.len, read8]
      rw [hb0]; omega
    · simp only [Ptr.type, read8]
      rw [hb1, htype]
      decide
  · obtain ⟨hadv, hread⟩ := advance_table_at
      ((UsbStringTable.records langs strings).map _StringDescriptor.bytes)
      USB_STRING_TABLE_END [] pre post halign hframed
    rw [List.length_map] at hadv
    have hbytes : UsbStringTable.bytes langs strings = placeAligned
        ((UsbStringTable.records langs strings).map _StringDescriptor.bytes ++
          [USB_STRING_TABLE_END]) := rfl
    rw [hbytes, hadv]
    have hmod := length_placeAligned_mod
      ((UsbStringTable.records langs strings).map _StringDescriptor.bytes)
    refine ⟨by omega, ?_⟩
    have hend : USB_STRING_TABLE_END = [0, 0] := rfl
    rw [hend] at hread
    obtain ⟨hb0, -⟩ := readBytes_head2 _ _ _ _ _ _ hread
    rw [hend]
    simp only [Ptr.len, read8]
    rw [hb0]
  · constructor
    · simp only [USB_STRING_TABLE_START]
      rw [Nat.mod_eq_of_lt hlangs]; omega
    · intro v hv
      have hfit := hstrings v hv
      have h3 : countof v = v.length + 1 := rfl
      simp only [USB_STRING]
      rw [Nat.mod_eq_of_lt hfit]; omega

/-- Witness of C15: in the table with the language id `0x0409` and the strings
`u"Device"` and `u"Serial123"`, two calls of `Next()` reach the record of
`u"Serial123"` at an aligned address, and three calls reach the terminator. -/
theorem UsbStringTable_round_trip_witness :
    (([] : List Nat).length % 4 = 0 ∧ 2 + [0x0409].length * 2 < 256 ∧
      ∀ v ∈ [Example.deviceName, Example.serialName], countof v * 2 < 256) ∧
    (StringDescriptor.advance
        (Mem.ofBytes ([] ++
          (UsbStringTable.bytes [0x0409] [Example.deviceName, Example.serialName] ++ [])))
        [USB_STRING_TABLE_START [0x0409], USB_STRING Example.deviceName].length
        ([] : List Nat).length % 4 = 0 ∧
      readBytes
        (Mem.ofBytes ([] ++
          (UsbStringTable.bytes [0x0409] [Example.deviceName, Example.serialName] ++ [])))
        (StringDescriptor.advance
          (Mem.ofBytes ([] ++
            (UsbStringTable.bytes [0x0409] [Example.deviceName, Example.serialName] ++ [])))
          [USB_STRING_TABLE_START [0x0409], USB_STRING Example.deviceName].length
          ([] : List Nat).length)
        (USB_STRING Example.serialName).bytes.length = (USB_STRING Example.serialName).bytes) ∧
    Ptr.len
      (Mem.ofBytes ([] ++
        (UsbStringTable.bytes [0x0409] [Example.deviceName, Example.serialName] ++ [])))
      (StringDescriptor.advance
        (Mem.ofBytes ([] ++
          (UsbStringTable.bytes [0x0409] [Example.deviceName, Example.serialName] ++ [])))
        (UsbStringTable.records [0x0409] [Example.deviceName, Example.serialName]).length
        ([] : List Nat).length) = 0 :=
  ⟨⟨by decide, by decide, by decide⟩,
    ⟨((UsbStringTable_round_trip [0x0409] [Example.deviceName, Example.serialName] [] []
        (by decide) (by decide) (by decide)).1
        [USB_STRING_TABLE_START [0x0409], USB_STRING Example.deviceName]
        (USB_STRING Example.serialName) [] rfl).1,
      ((UsbStringTable_round_trip [0x0409] [Example.deviceName, Example.serialName] [] []
        (by decide) (by decide) (by decide)).1
        [USB_STRING_TABLE_START [0x0409], USB_STRING Example.deviceName]
        (USB_STRING Example.serialName) [] rfl).2.1⟩,
    (UsbStringTable_round_trip [0x0409] [Example.deviceName, Example.serialName] [] []
      (by decide) (by decide) (by decide)).2.1.2⟩

/-! ## The initial state and the bound of the scan -/

namespace ConfigDescriptorHeader

open DescriptorHeader

theorem length_walk_le (mem : Mem) (endPtr : Nat) : ∀ (fuel hdr : Nat),
    (walk mem endPtr fuel hdr).length ≤ fuel := by
  intro fuel
  induction fuel with
  | zero => intro hdr; simp [walk]
  | succ n ih =>
    intro hdr
    by_cases h : hdr < endPtr
    · simp only [walk, h, if_true, List.length_cons]
      have := ih (Next mem hdr)
      omega
    · simp [walk, h]

theorem walk_subset (mem : Mem) (endPtr : Nat) : ∀ (fuel g hdr : Nat), fuel ≤ g →
    ∀ h ∈ walk mem endPtr fuel hdr, h ∈ walk mem endPtr g hdr := by
  intro fuel
  induction fuel with
  | zero => intro g hdr _ h hh; simp [walk] at hh
  | succ n ih =>
    intro g hdr hg h hh
    obtain ⟨g', rfl⟩ : ∃ g', g = g' + 1 := ⟨g - 1, by omega⟩
    by_cases hlt : hdr < endPtr
    · simp only [walk, hlt, if_true, List.mem_cons] at hh ⊢
      rcases hh with rfl | hh
      · exact Or.inl rfl
      · exact Or.inr (ih g' _ (by omega) h hh)
    · simp [walk, hlt] at hh

/-- At a record of length zero that is not returned the loop stays forever. -/
theorem loop_stuck (mem : Mem) (endPtr address : Nat) (interface alternate : Int)
    (hdr : Nat) (hlt : hdr < endPtr) (h0 : Ptr.bLength mem hdr = 0) :
    ∀ (fuel : Nat) (active : Bool),
    ¬ (Ptr.bDescriptorType mem hdr = DescriptorType.Endpoint ∧ active = true ∧
      Ptr.bEndpointAddress mem hdr = address) →
    FindEndpointLoop mem endPtr address interface alternate fuel hdr active = none := by
  have hnext : Next mem hdr = hdr := by unfold DescriptorHeader.Next; omega
  intro fuel
  induction fuel with
  | zero => intro active _; simp [FindEndpointLoop, hlt]
  | succ n ih =>
    intro active hno
    by_cases h4 : Ptr.bDescriptorType mem hdr = DescriptorType.Interface
    · simp only [FindEndpointLoop, hlt, h4, if_true, hnext]
      apply ih
      rintro ⟨h5, -, -⟩
      rw [h4] at h5
      exact endpoint_ne_interface h5.symm
    · by_cases h5 : Ptr.bDescriptorType mem hdr = DescriptorType.Endpoint
      · have hm : ¬ (active && decide (Ptr.bEndpointAddress mem hdr = address)) = true := by
          intro hm
          simp only [Bool.and_eq_true, decide_eq_true_eq] at hm
          exact hno ⟨h5, hm.1, hm.2⟩
        simp only [FindEndpointLoop, hlt, h4, h5, hm, if_true, if_false, hnext]
        exact ih active hno
      · simp only [FindEndpointLoop, hlt, h4, h5, if_true, if_false, hnext]
        exact ih active hno

/-- C19: the scan starts inactive. An endpoint record returned by
`FindEndpoint`, whatever the filters, comes after an interface record of the
scan; on a configuration without interface record no endpoint is ever returned,
and the call returns `NULL` when every record length met is non-zero. -/
theorem FindEndpoint_never_before_first_interface (fuel : Nat) (mem : Mem)
    (this address : Nat) (interface alternate : Int) :
    (∀ e, FindEndpoint fuel mem this address interface alternate = some (some e) →
      ∃ pre post i, records fuel mem this = pre ++ e :: post ∧ i ∈ pre ∧
        Ptr.bDescriptorType mem i = DescriptorType.Interface ∧ i < e) ∧
    ((∀ h ∈ records fuel mem this, Ptr.bDescriptorType mem h ≠ DescriptorType.Interface) →
      (∀ e, FindEndpoint fuel mem this address interface alternate ≠ some (some e)) ∧
      (WellFormed mem this → Ptr.wTotalLength mem this ≤ fuel →
        FindEndpoint fuel mem this address interface alternate = some none)) := by
  have hsafe : ∀ e, FindEndpoint fuel mem this address interface alternate = some (some e) →
      ∃ pre post i, records fuel mem this = pre ++ e :: post ∧ i ∈ pre ∧
        Ptr.bDescriptorType mem i = DescriptorType.Interface ∧ i < e := by
    intro e h
    obtain ⟨pre, post, hrec, hhit, -⟩ := (FindEndpoint_eq_some_some_iff _ _ _ _ _ _ _).mp h
    obtain ⟨h5, hact, -⟩ := (hitAt_iff _ _ _ _).mp hhit
    obtain ⟨i, hlast, -⟩ := (activeAfter_false_iff _ _ _ _).mp hact
    obtain ⟨p, mid, hpre, h4, -⟩ := (lastInterface?_eq_some_iff _ _ _).mp hlast
    have hdec : records fuel mem this = p ++ i :: (mid ++ e :: post) := by
      rw [hrec, hpre]; simp
    have hle : i ≤ e := walk_le_of_later mem _ fuel this p i _ hdec e (by simp)
    have hne : i ≠ e := by
      intro hie
      rw [hie, h5] at h4
      exact endpoint_ne_interface h4
    exact ⟨pre, post, i, hrec, by rw [hpre]; simp, h4, by omega⟩
  refine ⟨hsafe, ?_⟩
  intro hno
  have hnever : ∀ e, FindEndpoint fuel mem this address interface alternate ≠ some (some e) := by
    intro e h
    obtain ⟨pre, post, i, hrec, hi, h4, -⟩ := hsafe e h
    exact hno i (by rw [hrec]; simp [hi]) h4
  refine ⟨hnever, ?_⟩
  intro hwf hfuel
  obtain ⟨r, hr⟩ := FindEndpoint_returns fuel mem this address interface alternate hwf hfuel
  cases r with
  | none => exact hr
  | some e => exact absurd hr (hnever e)

/-- Witness of C19: `endpointOnly` has no interface record, and the call for
the address `0x81` of its endpoint returns `NULL`. -/
theorem FindEndpoint_never_before_first_interface_witness :
    (∀ h ∈ records 16 Example.endpointOnlyMem 0,
      Ptr.bDescriptorType Example.endpointOnlyMem h ≠ DescriptorType.Interface) ∧
    WellFormed Example.endpointOnlyMem 0 ∧
    Ptr.wTotalLength Example.endpointOnlyMem 0 ≤ 16 ∧
    FindEndpoint 16 Example.endpointOnlyMem 0 0x81 0 0 = some none :=
  ⟨by decide, by decide, by decide,
    ((FindEndpoint_never_before_first_interface 16 Example.endpointOnlyMem 0 0x81 0 0).2
      (by decide)).2 (by decide) (by decide)⟩

/-- C20: on a configuration in which every record length met is at least 1,
`FindEndpoint` returns within `wTotalLength` iterations of its loop, and a
larger budget gives the same result; the scan meets at most `wTotalLength`
records, and the cursor strictly increases at each of them. At a record of
length zero the cursor does not advance, and the loop stays there unless it
returns that record. -/
theorem FindEndpoint_bounded (mem : Mem) (this address : Nat) (interface alternate : Int)
    (hwf : WellFormed mem this) :
    (∃ r, FindEndpoint (Ptr.wTotalLength mem this) mem this address interface alternate
      = some r) ∧
    (∀ fuel, Ptr.wTotalLength mem this ≤ fuel →
      FindEndpoint fuel mem this address interface alternate =
        FindEndpoint (Ptr.wTotalLength mem this) mem this address interface alternate) ∧
    (∀ fuel, (records fuel mem this).length ≤ Ptr.wTotalLength mem this) ∧
    (∀ fuel, ∀ h ∈ records fuel mem this, h < Next mem h ∧ h < End mem this) ∧
    (∀ hdr, Ptr.bLength mem hdr = 0 → Next mem hdr = hdr) ∧
    (∀ fuel hdr active, hdr < End mem this → Ptr.bLength mem hdr = 0 →
      ¬ (Ptr.bDescriptorType mem hdr = DescriptorType.Endpoint ∧ active = true ∧
        Ptr.bEndpointAddress mem hdr = address % 256) →
      FindEndpointLoop mem (End mem this) (address % 256) interface alternate fuel hdr active
        = none) := by
  have hsame : ∀ fuel, Ptr.wTotalLength mem this ≤ fuel →
      records fuel mem this = records (Ptr.wTotalLength mem this) mem this :=
    fun fuel hfuel => walk_fuel_mono mem _ _ _ hwf (le_refl _) fuel hfuel
  have hret := FindEndpoint_returns (Ptr.wTotalLength mem this) mem this address interface
    alternate hwf (le_refl _)
  have hin : ∀ fuel, ∀ h ∈ records fuel mem this,
      h ∈ records (Ptr.wTotalLength mem this) mem this := by
    intro fuel h hh
    by_cases hf : Ptr.wTotalLength mem this ≤ fuel
    · rw [← hsame fuel hf]; exact hh
    · exact walk_subset mem _ fuel _ this (by omega) h hh
  refine ⟨hret, ?_, ?_, ?_, ?_, ?_⟩
  · intro fuel hfuel
    obtain ⟨r, hr⟩ := hret
    obtain ⟨r', hr'⟩ := FindEndpoint_returns fuel mem this address interface alternate hwf hfuel
    have h1 := loop_eq_some_imp mem _ _ interface alternate _ this false r hr
    have h2 := loop_eq_some_imp mem _ _ interface alternate _ this false r' hr'
    have hw := hsame fuel hfuel
    unfold records at hw
    rw [hw] at h2
    rw [hr, hr', h1, h2]
  · intro fuel
    by_cases hf : Ptr.wTotalLength mem this ≤ fuel
    · rw [hsame fuel hf]
      exact length_walk_le mem _ _ _
    · have := length_walk_le mem (End mem this) fuel this
      unfold records
      omega
  · intro fuel h hh
    have h0 := hwf h (hin fuel h hh)
    refine ⟨?_, (walk_bounds mem _ fuel this h hh).2⟩
    unfold DescriptorHeader.Next
    omega
  · intro hdr h0
    unfold DescriptorHeader.Next
    omega
  · intro fuel hdr active hlt h0 hno
    exact loop_stuck mem _ _ interface alternate hdr hlt h0 fuel active hno

/-- Witness of C20: `twoAlternates` is well-formed, and the call
`FindEndpoint(0x82, 0, 1)` returns within its 46 iterations. -/
theorem FindEndpoint_bounded_witness :
    WellFormed Example.twoAlternatesMem 0 ∧
    ∃ r, FindEndpoint (Ptr.wTotalLength Example.twoAlternatesMem 0) Example.twoAlternatesMem
      0 0x82 0 1 = some r :=
  ⟨by decide, (FindEndpoint_bounded Example.twoAlternatesMem 0 0x82 0 1 (by decide)).1⟩

end ConfigDescriptorHeader

/-! ## Records of other types are skipped -/

namespace ConfigDescriptorHeader

open DescriptorHeader

theorem length_le_length_concatBytes : ∀ (rs : List (List Nat)),
    (∀ r ∈ rs, 0 < r.length) → rs.length ≤ (concatBytes rs).length
  | [], _ => by simp [concatBytes]
  | r :: rs, h => by
    have h1 := h r (List.mem_cons_self _ _)
    have h2 := length_le_length_concatBytes rs (fun x hx => h x (List.mem_cons_of_mem _ hx))
    simp only [concatBytes, List.length_cons, List.length_append]
    omega

/-- Over framed records that hold the fields read from them, the loop of
`FindEndpoint` is the scan of the list of records. -/
theorem loop_layout (address : Nat) (interface alternate : Int) :
    ∀ (rs : List (List Nat)) (pre post : List Nat) (fuel : Nat) (active : Bool),
    (∀ r ∈ rs, Framed r ∧ Contained r) → rs.length ≤ fuel →
    FindEndpointLoop (Mem.ofBytes (pre ++ (concatBytes rs ++ post)))
        (pre.length + (concatBytes rs).length) address interface alternate fuel pre.length
        active =
      some (scanRuns address interface alternate rs pre.length active)
  | [], pre, post, fuel, active, _, _ => by
    cases fuel <;> simp [FindEndpointLoop, concatBytes, scanRuns]
  | r :: rs, pre, post, 0, active, _, hfuel => by
    simp at hfuel
  | r :: rs, pre, post, fuel + 1, active, hf, hfuel => by
    obtain ⟨⟨hpos, hlt, hhead⟩, h2, hc4, hc5⟩ := hf r (List.mem_cons_self _ _)
    have hlt' : pre.length < pre.length + (concatBytes (r :: rs)).length := by
      simp only [concatBytes, List.length_append]; omega
    have hat : ∀ k, k < r.length →
        Mem.ofBytes (pre ++ (concatBytes (r :: rs) ++ post)) (pre.length + k) = r.getD k 0 := by
      intro k hk
      have := Mem_ofBytes_append_at pre r (concatBytes rs ++ post) k hk
      simp only [concatBytes, List.append_assoc]
      exact this
    have hlen : Ptr.bLength (Mem.ofBytes (pre ++ (concatBytes (r :: rs) ++ post)))
        pre.length = r.length := by
      have := hat 0 hpos
      rw [Nat.add_zero] at this
      simp only [Ptr.bLength, read8]
      rw [this, hhead]
      omega
    have htype : Ptr.bDescriptorType (Mem.ofBytes (pre ++ (concatBytes (r :: rs) ++ post)))
        pre.length = r.getD 1 0 % 256 := by
      simp only [Ptr.bDescriptorType, read8]
      rw [hat 1 (by omega)]
    have hmem : pre ++ (concatBytes (r :: rs) ++ post) =
        (pre ++ r) ++ (concatBytes rs ++ post) := by
      simp only [concatBytes, List.append_assoc]
    have hend : pre.length + (concatBytes (r :: rs)).length =
        (pre ++ r).length + (concatBytes rs).length := by
      simp only [concatBytes, List.length_append]; omega
    have hpr : pre.length + r.length = (pre ++ r).length := (List.length_append _ _).symm
    have ih := fun act => loop_layout address interface alternate rs (pre ++ r) post fuel act
      (fun x hx => hf x (List.mem_cons_of_mem _ hx)) (by simp at hfuel; omega)
    have hnext : Next (Mem.ofBytes (pre ++ (concatBytes (r :: rs) ++ post))) pre.length =
        (pre ++ r).length := by
      unfold DescriptorHeader.Next
      rw [hlen, hpr]
    by_cases h4 : r.getD 1 0 % 256 = DescriptorType.Interface
    · have hr4 := hc4 h4
      have hact : scopeActive (Mem.ofBytes (pre ++ (concatBytes (r :: rs) ++ post)))
          interface alternate pre.length = runActive interface alternate r := by
        simp only [scopeActive, runActive, Ptr.bInterfaceNumber, Ptr.bAlternateSetting, read8,
          hat 2 (by omega), hat 3 (by omega)]
      simp only [FindEndpointLoop, hlt', if_true, htype, h4, scanRuns, hnext, hact]
      rw [hmem, hend, hpr, ih]
    · by_cases h5 : r.getD 1 0 % 256 = DescriptorType.Endpoint
      · have hr5 := hc5 h5
        have haddr : Ptr.bEndpointAddress
            (Mem.ofBytes (pre ++ (concatBytes (r :: rs) ++ post))) pre.length =
            r.getD 2 0 % 256 := by
          simp only [Ptr.bEndpointAddress, read8]
          rw [hat 2 (by omega)]
        by_cases hm : (active && decide (r.getD 2 0 % 256 = address)) = true
        · simp only [FindEndpointLoop, hlt', if_true, htype, h5, endpoint_ne_interface,
            scanRuns, haddr, hm, if_false]
        · simp only [FindEndpointLoop, hlt', if_true, htype, h5, endpoint_ne_interface,
            scanRuns, hnext, haddr, hm, if_false, Bool.false_eq_true]
          rw [hmem, hend, hpr, ih]
      · simp only [FindEndpointLoop, hlt', if_true, htype, h4, h5, scanRuns, hnext, if_false]
        rw [hmem, hend, hpr, ih]

theorem scanRuns_le (address : Nat) (interface alternate : Int) :
    ∀ (rs : List (List Nat)) (off : Nat) (active : Bool) (e : Nat),
    scanRuns address interface alternate rs off active = some e → off ≤ e
  | [], _, _, _, h => by simp [scanRuns] at h
  | r :: rs, off, active, e, h => by
    simp only [scanRuns] at h
    split at h
    · have := scanRuns_le address interface alternate rs _ _ e h; omega
    · split at h
      · split at h
        · have := Option.some.inj h; omega
        · have := scanRuns_le address interface alternate rs _ _ e h; omega
      · have := scanRuns_le address interface alternate rs _ _ e h; omega

theorem scanRuns_shift (address : Nat) (interface alternate : Int) (d : Nat) :
    ∀ (rs : List (List Nat)) (off : Nat) (active : Bool),
    scanRuns address interface alternate rs (off + d) active =
      (scanRuns address interface alternate rs off active).map (fun e => e + d)
  | [], _, _ => by simp [scanRuns]
  | r :: rs, off, active => by
    have hoff : off + d + r.length = off + r.length + d := by omega
    simp only [scanRuns, hoff]
    split
    · exact scanRuns_shift address interface alternate d rs _ _
    · split
      · split
        · simp
        · exact scanRuns_shift address interface alternate d rs _ _
      · exact scanRuns_shift address interface alternate d rs _ _

/-- A record that is neither an interface nor an endpoint record, inserted
after the records `a`, moves the later records and changes nothing else. -/
theorem scanRuns_insert (address : Nat) (interface alternate : Int) (R : List Nat)
    (b : List (List Nat)) (h4 : R.getD 1 0 % 256 ≠ DescriptorType.Interface)
    (h5 : R.getD 1 0 % 256 ≠ DescriptorType.Endpoint) :
    ∀ (a : List (List Nat)) (off : Nat) (active : Bool), (∀ r ∈ a, 0 < r.length) →
    scanRuns address interface alternate (a ++ R :: b) off active =
      (scanRuns address interface alternate (a ++ b) off active).map
        (fun e => if e < off + (concatBytes a).length then e else e + R.length)
  | [], off, active, _ => by
    simp only [List.nil_append, scanRuns, h4, h5, if_false, concatBytes, List.length_nil,
      Nat.add_zero]
    rw [scanRuns_shift]
    cases hs : scanRuns address interface alternate b off active with
    | none => rfl
    | some e =>
      have := scanRuns_le address interface alternate b off active e hs
      have hnot : ¬ e < off := by omega
      simp [hnot]
  | r :: a, off, active, hpos => by
    have hr := hpos r (List.mem_cons_self _ _)
    have ih := fun act => scanRuns_insert address interface alternate R b h4 h5 a
      (off + r.length) act (fun x hx => hpos x (List.mem_cons_of_mem _ hx))
    have hthr : off + (concatBytes (r :: a)).length =
        off + r.length + (concatBytes a).length := by
      simp only [concatBytes, List.length_append]; omega
    simp only [List.cons_append, scanRuns, hthr]
    split
    · exact ih _
    · split
      · split
        · have hlt : off < off + r.length + (concatBytes a).length := by omega
          simp [hlt]
        · exact ih _
      · exact ih _

end ConfigDescriptorHeader

namespace ConfigDescriptorHeader

/-- On a configuration made of its header and framed records that hold the
fields read from them, `FindEndpoint` returns the result of the scan of the
list of records. -/
theorem FindEndpoint_configBlob (numInterfaces index : Nat) (maxPower : Int)
    (strName attributes : Nat) (body : List (List Nat)) (pre post : List Nat)
    (address : Nat) (interface alternate : Int) (fuel : Nat)
    (hbody : ∀ r ∈ body, Framed r ∧ Contained r)
    (hfit : 9 + (concatBytes body).length < 65536)
    (hfuel : 9 + (concatBytes body).length ≤ fuel) :
    Ptr.wTotalLength
        (Mem.ofBytes (pre ++
          (configBlob numInterfaces index maxPower strName attributes body ++ post)))
        pre.length = 9 + (concatBytes body).length ∧
    FindEndpoint fuel
        (Mem.ofBytes (pre ++
          (configBlob numInterfaces index maxPower strName attributes body ++ post)))
        pre.length address interface alternate =
      some (scanRuns (address % 256) interface alternate body (pre.length + 9) false) := by
  have hblob : configBlob numInterfaces index maxPower strName attributes body =
      concatBytes ((ConfigDescriptorHeader.ctor (concatBytes body).length numInterfaces index
        maxPower strName attributes).bytes :: body) := rfl
  have hhl : (ConfigDescriptorHeader.ctor (concatBytes body).length numInterfaces index
      maxPower strName attributes).bytes.length = 9 := rfl
  have hat : ∀ k, k < 9 →
      Mem.ofBytes (pre ++
        (configBlob numInterfaces index maxPower strName attributes body ++ post))
        (pre.length + k) =
      (ConfigDescriptorHeader.ctor (concatBytes body).length numInterfaces index
        maxPower strName attributes).bytes.getD k 0 := by
    intro k hk
    have := Mem_ofBytes_append_at pre (ConfigDescriptorHeader.ctor (concatBytes body).length
      numInterfaces index maxPower strName attributes).bytes (concatBytes body ++ post) k
      (by rw [hhl]; exact hk)
    simp only [configBlob, List.append_assoc]
    exact this
  have hsize : ConfigDescriptorHeader.sizeof = 9 := rfl
  have hwtl : Ptr.wTotalLength
      (Mem.ofBytes (pre ++
        (configBlob numInterfaces index maxPower strName attributes body ++ post)))
      pre.length = 9 + (concatBytes body).length := by
    have h3 : pre.length + 2 + 1 = pre.length + 3 := by omega
    simp only [Ptr.wTotalLength, read16, read8]
    rw [h3, hat 2 (by omega), hat 3 (by omega)]
    simp only [ConfigDescriptorHeader.bytes, ConfigDescriptorHeader.ctor, hsize,
      List.getD_cons_succ, List.getD_cons_zero]
    omega
  refine ⟨hwtl, ?_⟩
  have hframed : ∀ r ∈ (ConfigDescriptorHeader.ctor (concatBytes body).length numInterfaces
      index maxPower strName attributes).bytes :: body, Framed r ∧ Contained r := by
    intro r hr
    rcases List.mem_cons.mp hr with rfl | hr
    · refine ⟨⟨by rw [hhl]; omega, by rw [hhl]; omega, ?_⟩, by rw [hhl]; omega, ?_, ?_⟩
      · rw [hhl]
        simp [ConfigDescriptorHeader.bytes, ConfigDescriptorHeader.ctor, hsize]
      · intro h
        simp [ConfigDescriptorHeader.bytes, ConfigDescriptorHeader.ctor, DescriptorType.Config,
          DescriptorType.Interface] at h
      · intro h
        simp [ConfigDescriptorHeader.bytes, ConfigDescriptorHeader.ctor, DescriptorType.Config,
          DescriptorType.Endpoint] at h
    · exact hbody r hr
  have hcount : ((ConfigDescriptorHeader.ctor (concatBytes body).length numInterfaces
      index maxPower strName attributes).bytes :: body).length ≤ fuel := by
    have := length_le_length_concatBytes body (fun r hr => (hbody r hr).1.1)
    simp only [List.length_cons]
    omega
  have hend : End (Mem.ofBytes (pre ++
      (configBlob numInterfaces index maxPower strName attributes body ++ post))) pre.length =
      pre.length + (concatBytes ((ConfigDescriptorHeader.ctor (concatBytes body).length
        numInterfaces index maxPower strName attributes).bytes :: body)).length := by
    unfold End
    rw [hwtl]
    simp only [concatBytes, List.length_append, hhl]
  unfold FindEndpoint
  rw [hend, hblob, loop_layout (address % 256) interface alternate _ pre post fuel false
    hframed hcount]
  have h4 : ¬ (ConfigDescriptorHeader.ctor (concatBytes body).length numInterfaces
      index maxPower strName attributes).bytes.getD 1 0 % 256 = DescriptorType.Interface := by
    simp [ConfigDescriptorHeader.bytes, ConfigDescriptorHeader.ctor, DescriptorType.Config,
      DescriptorType.Interface]
  have h5 : ¬ (ConfigDescriptorHeader.ctor (concatBytes body).length numInterfaces
      index maxPower strName attributes).bytes.getD 1 0 % 256 = DescriptorType.Endpoint := by
    simp [ConfigDescriptorHeader.bytes, ConfigDescriptorHeader.ctor, DescriptorType.Config,
      DescriptorType.Endpoint]
  simp only [scanRuns, h4, h5, if_false, hhl]

/-- C16, as stated, fails: both configurations have only non-zero record
lengths, the second is the first with the class-specific record
`classSpecific` inserted at the record boundary 12 and the total length raised
by 3, and `FindEndpoint(0x81, 0, 7)` returns the endpoint in the first and
`NULL` in the second. -/
theorem FindEndpoint_insert_changes_short_interface :
    WellFormed Example.shortInterfaceMem 0 ∧
    WellFormed Example.shortInterfaceInsertedMem 0 ∧
    records 19 Example.shortInterfaceMem 0 = [0, 9, 12] ∧
    records 22 Example.shortInterfaceInsertedMem 0 = [0, 9, 12, 15] ∧
    Ptr.bDescriptorType Example.shortInterfaceInsertedMem 12 =
      DescriptorType.ClassSpecificInterface ∧
    FindEndpoint 19 Example.shortInterfaceMem 0 0x81 0 7 = some (some 12) ∧
    FindEndpoint 22 Example.shortInterfaceInsertedMem 0 0x81 0 7 = some none := by
  decide

/-- C16, amended: in a configuration made of its header and records that each
hold the fields the scan reads from them (at least 2 bytes, 4 for an interface
record, 3 for an endpoint record), inserting after the records `a` a record `R`
that is neither an interface nor an endpoint record, `wTotalLength` being
raised by the length of `R`, does not change the result of `FindEndpoint`: both
calls return, `NULL` in both cases or the same record, which has moved by the
length of `R` when it lies after the insertion point. Read from the second
configuration to the first, this is the removal of `R`. -/
theorem FindEndpoint_insert_other_record (numInterfaces index : Nat) (maxPower : Int)
    (strName attributes : Nat) (pre post : List Nat) (a b : List (List Nat)) (R : List Nat)
    (address : Nat) (interface alternate : Int) (fuel fuel' : Nat)
    (hab : ∀ r ∈ a ++ b, Framed r ∧ Contained r)
    (hR : Framed R ∧ 2 ≤ R.length)
    (hR4 : R.getD 1 0 % 256 ≠ DescriptorType.Interface)
    (hR5 : R.getD 1 0 % 256 ≠ DescriptorType.Endpoint)
    (hfit : 9 + (concatBytes (a ++ R :: b)).length < 65536)
    (hfuel : 9 + (concatBytes (a ++ b)).length ≤ fuel)
    (hfuel' : 9 + (concatBytes (a ++ R :: b)).length ≤ fuel') :
    Ptr.wTotalLength
        (Mem.ofBytes (pre ++
          (configBlob numInterfaces index maxPower strName attributes (a ++ R :: b) ++ post)))
        pre.length =
      Ptr.wTotalLength
        (Mem.ofBytes (pre ++
          (configBlob numInterfaces index maxPower strName attributes (a ++ b) ++ post)))
        pre.length + R.length ∧
    ∃ r,
      FindEndpoint fuel
          (Mem.ofBytes (pre ++
            (configBlob numInterfaces index maxPower strName attributes (a ++ b) ++ post)))
          pre.length address interface alternate = some r ∧
      FindEndpoint fuel'
          (Mem.ofBytes (pre ++
            (configBlob numInterfaces index maxPower strName attributes (a ++ R :: b) ++
              post)))
          pre.length address interface alternate =
        some (r.map
          (fun e => if e < pre.length + 9 + (concatBytes a).length then e else e + R.length)) := by
  have hlenR : (concatBytes (a ++ R :: b)).length = (concatBytes (a ++ b)).length + R.length := by
    simp only [concatBytes_append, concatBytes, List.length_append]
    omega
  have hab' : ∀ r ∈ a ++ R :: b, Framed r ∧ Contained r := by
    intro r hr
    simp only [List.mem_append, List.mem_cons] at hr
    rcases hr with hr | rfl | hr
    · exact hab r (List.mem_append_left _ hr)
    · exact ⟨hR.1, hR.2, fun h => absurd h hR4, fun h => absurd h hR5⟩
    · exact hab r (List.mem_append_right _ hr)
  obtain ⟨hw, hf⟩ := FindEndpoint_configBlob numInterfaces index maxPower strName attributes
    (a ++ b) pre post address interface alternate fuel hab (by omega) hfuel
  obtain ⟨hw', hf'⟩ := FindEndpoint_configBlob numInterfaces index maxPower strName attributes
    (a ++ R :: b) pre post address interface alternate fuel' hab' hfit hfuel'
  refine ⟨by rw [hw, hw', hlenR]; omega, _, hf, ?_⟩
  rw [hf', scanRuns_insert (address % 256) interface alternate R b hR4 hR5 a (pre.length + 9)
    false (fun r hr => (hab r (List.mem_append_left _ hr)).1.1)]

/-- Witness of amended C16: a configuration with one interface and its
endpoint, and the same with `classSpecific` inserted between the two. -/
theorem FindEndpoint_insert_other_record_witness :
    ((∀ r ∈ [Example.interfaceRun] ++ [Example.endpointRun], Framed r ∧ Contained r) ∧
      (Framed Example.classSpecific ∧ 2 ≤ Example.classSpecific.length) ∧
      Example.classSpecific.getD 1 0 % 256 ≠ DescriptorType.Interface ∧
      Example.classSpecific.getD 1 0 % 256 ≠ DescriptorType.Endpoint) ∧
    ∃ r,
      FindEndpoint 25
          (Mem.ofBytes ([] ++
            (configBlob 1 1 100 0 ConfigAttributes.BusPowered
              ([Example.interfaceRun] ++ [Example.endpointRun]) ++ [])))
          ([] : List Nat).length 0x81 0 0 = some r ∧
      FindEndpoint 28
          (Mem.ofBytes ([] ++
            (configBlob 1 1 100 0 ConfigAttributes.BusPowered
              ([Example.interfaceRun] ++ Example.classSpecific :: [Example.endpointRun]) ++
              [])))
          ([] : List Nat).length 0x81 0 0 =
        some (r.map
          (fun e =>
            if e < ([] : List Nat).length + 9 + (concatBytes [Example.interfaceRun]).length
            then e else e + Example.classSpecific.length)) :=
  ⟨⟨by decide, by decide, by decide, by decide⟩,
    (FindEndpoint_insert_other_record 1 1 100 0 ConfigAttributes.BusPowered [] []
      [Example.interfaceRun] [Example.endpointRun] Example.classSpecific 0x81 0 0 25 28
      (by decide) (by decide) (by decide) (by decide) (by decide) (by decide) (by decide)).2⟩

end ConfigDescriptorHeader

/-! ## Configuration attributes and class-specific descriptors -/

/-- Setting bit 7 of a byte keeps its seven low bits. -/
theorem or_reserved_bit (x : Nat) (hx : x < 256) : x ||| 128 = x % 128 + 128 := by
  have hpow : (128 : Nat) = 2 ^ 7 * 1 := by norm_num
  by_cases h : x < 128
  · have hlt : x < 2 ^ 7 := by omega
    have := Nat.mul_add_lt_is_or hlt 1
    rw [Nat.or_comm, hpow, ← this]
    omega
  · have hlt : x - 128 < 2 ^ 7 := by omega
    have := Nat.mul_add_lt_is_or hlt 1
    have hx' : x = 2 ^ 7 * 1 + (x - 128) := by omega
    have hor : x ||| 128 = x := by
      rw [hpow]
      nth_rewrite 1 [hx']
      rw [this, Nat.or_comm, ← Nat.or_assoc, Nat.or_self, ← this, ← hx']
    rw [hor]
    omega

/-- C22: the configuration constructors store `attributes | 0x80`: bit 7 of
`bmAttributes` is set and bits 0-6 are those of the attribute value passed; an
attribute value that already has bit 7 set is stored unchanged, so storing the
stored value again changes nothing. -/
theorem ConfigDescriptor_bmAttributes (interfacesSize numInterfaces index : Nat)
    (maxPower : Int) (strName attributes : Nat) (interfaces : List Item) :
    ((ConfigDescriptorHeader.ctor interfacesSize numInterfaces index maxPower strName
        attributes).bmAttributes = (attributes % 256) ||| 0x80 ∧
      (ConfigDescriptorHeader.ctor interfacesSize numInterfaces index maxPower strName
        attributes).bmAttributes / 128 % 2 = 1 ∧
      (ConfigDescriptorHeader.ctor interfacesSize numInterfaces index maxPower strName
        attributes).bmAttributes % 128 = attributes % 128 ∧
      (ConfigDescriptorHeader.ctor interfacesSize numInterfaces index maxPower strName
        attributes).bmAttributes < 256) ∧
    (ConfigDescriptor index maxPower strName attributes interfaces).bmAttributes =
      (attributes % 256) ||| 0x80 ∧
    (attributes < 256 → attributes / 128 % 2 = 1 →
      (ConfigDescriptorHeader.ctor interfacesSize numInterfaces index maxPower strName
        attributes).bmAttributes = attributes ∧
      (ConfigDescriptor index maxPower strName attributes interfaces).bmAttributes =
        attributes) ∧
    (ConfigDescriptorHeader.ctor interfacesSize numInterfaces index maxPower strName
      (ConfigDescriptorHeader.ctor interfacesSize numInterfaces index maxPower strName
        attributes).bmAttributes).bmAttributes =
      (ConfigDescriptorHeader.ctor interfacesSize numInterfaces index maxPower strName
        attributes).bmAttributes := by
  have hval : ∀ (sz n : Nat) (a : Nat), (ConfigDescriptorHeader.ctor sz n index maxPower strName
      a).bmAttributes = (a % 256) ||| 128 := by
    intro sz n a
    show (a % 256) ||| (BIT 7 % 256) = _
    rfl
  have hlt : attributes % 256 < 256 := Nat.mod_lt _ (by norm_num)
  have hor := or_reserved_bit (attributes % 256) hlt
  have hcfg : (ConfigDescriptor index maxPower strName attributes interfaces).bmAttributes =
      (attributes % 256) ||| 128 := by
    rw [ConfigDescriptor_eq]
    exact hval _ _ _
  refine ⟨⟨hval _ _ _, ?_, ?_, ?_⟩, hcfg, ?_, ?_⟩
  · rw [hval, hor]; omega
  · rw [hval, hor]; omega
  · rw [hval, hor]; omega
  · intro h256 hbit
    have hmod : attributes % 256 = attributes := Nat.mod_eq_of_lt h256
    constructor
    · rw [hval, hor]; omega
    · rw [hcfg, hor]; omega
  · rw [hval, hval, hor]
    have h2 := or_reserved_bit ((attributes % 256 % 128 + 128) % 256)
      (Nat.mod_lt _ (by norm_num))
    rw [h2]
    omega

/-- Witness of C22: `SelfPowered | _Reserved1`, the byte `0xC0`, is stored
unchanged. -/
theorem ConfigDescriptor_bmAttributes_witness :
    (0xC0 < 256 ∧ 0xC0 / 128 % 2 = 1) ∧
    (ConfigDescriptorHeader.ctor 0 0 1 100 0 0xC0).bmAttributes = 0xC0 :=
  ⟨by decide,
    ((ConfigDescriptor_bmAttributes 0 0 1 100 0 0xC0 []).2.2.1 (by decide) (by decide)).1⟩

/-- C23: for a content list of flattened size `c` with `3 + c < 256`,
`ClassSpecificInterfaceDescriptor(subType, content...)` serialises to the
`3 + c` bytes `3 + c`, `0x24`, the subtype, then the content items in argument
order without padding; `bLength == 3 + c` and
`bDescriptorType == ClassSpecific | Interface == 0x24`. -/
theorem ClassSpecificInterfaceDescriptor_layout (subType : Nat) (content : List Item)
    (hsize : 3 + ConfigChildren.sizeof content < 256) :
    (ClassSpecificInterfaceDescriptor subType content).bytes =
        (3 + ConfigChildren.sizeof content) :: 0x24 :: subType % 256 ::
          concatBytes (content.map Item.bytes) ∧
    (ClassSpecificInterfaceDescriptor subType content).bytes.length =
        3 + ConfigChildren.sizeof content ∧
    (ClassSpecificInterfaceDescriptor subType content).bLength =
        3 + ConfigChildren.sizeof content ∧
    (ClassSpecificInterfaceDescriptor subType content).bDescriptorType = 0x24 ∧
    DescriptorType.ClassSpecificInterface = 0x24 ∧
    (concatBytes (content.map Item.bytes)).length = ConfigChildren.sizeof content := by
  have hsz : ConfigChildren.sizeof (Item.u8 subType :: content) =
      1 + ConfigChildren.sizeof content := by
    rw [ConfigChildren_sizeof_cons]; rfl
  have hlen : (ClassSpecificInterfaceDescriptor subType content).bLength =
      3 + ConfigChildren.sizeof content := by
    rw [ClassSpecificInterfaceDescriptor, CustomDescriptor_bLength_ctor, hsz]
    omega
  have htype : (ClassSpecificInterfaceDescriptor subType content).bDescriptorType = 0x24 := by
    show DescriptorType.ClassSpecificInterface % 256 = 0x24
    decide
  have hcontent : (concatBytes (content.map Item.bytes)).length =
      ConfigChildren.sizeof content := by
    rw [← ConfigChildren_bytes_eq_concatBytes, ConfigChildren_length_bytes]
  have hbytes : (ClassSpecificInterfaceDescriptor subType content).bytes =
      (3 + ConfigChildren.sizeof content) :: 0x24 :: subType % 256 ::
        concatBytes (content.map Item.bytes) := by
    have h1 : (ClassSpecificInterfaceDescriptor subType content).bytes =
        (ClassSpecificInterfaceDescriptor subType content).bLength % 256 ::
          (ClassSpecificInterfaceDescriptor subType content).bDescriptorType % 256 ::
            ConfigChildren.bytes (Item.u8 subType :: content) := rfl
    rw [h1, hlen, htype, ConfigChildren_bytes_eq_concatBytes]
    have h2 : (3 + ConfigChildren.sizeof content) % 256 = 3 + ConfigChildren.sizeof content :=
      Nat.mod_eq_of_lt hsize
    rw [h2]
    rfl
  refine ⟨hbytes, ?_, hlen, htype, by decide, hcontent⟩
  rw [hbytes]
  simp only [List.length_cons, hcontent]
  omega

/-- Witness of C23: the union functional descriptor
`ClassSpecificInterfaceDescriptor(CdcUnion, (uint8_t)0, (uint8_t)1)` is the five
bytes `05 24 06 00 01`. -/
theorem ClassSpecificInterfaceDescriptor_layout_witness :
    3 + ConfigChildren.sizeof [Item.u8 0, Item.u8 1] < 256 ∧
    (ClassSpecificInterfaceDescriptor 6 [Item.u8 0, Item.u8 1]).bytes =
      (3 + ConfigChildren.sizeof [Item.u8 0, Item.u8 1]) :: 0x24 :: 6 % 256 ::
        concatBytes ([Item.u8 0, Item.u8 1].map Item.bytes) ∧
    (ClassSpecificInterfaceDescriptor 6 [Item.u8 0, Item.u8 1]).bytes = [5, 0x24, 6, 0, 1] :=
  ⟨by decide,
    (ClassSpecificInterfaceDescriptor_layout 6 [Item.u8 0, Item.u8 1] (by decide)).1,
    by decide⟩

/-! ## The walk over a composed configuration -/

/-- At the start of a framed record `Next()` steps to the end of the record. -/
theorem Next_framed (pre r rest : List Nat) (hf : Framed r) :
    Ptr.bLength (Mem.ofBytes (pre ++ (r ++ rest))) pre.length = r.length ∧
    DescriptorHeader.Next (Mem.ofBytes (pre ++ (r ++ rest))) pre.length = (pre ++ r).length := by
  obtain ⟨hpos, hlt, hhead⟩ := hf
  have hlen : Ptr.bLength (Mem.ofBytes (pre ++ (r ++ rest))) pre.length = r.length := by
    have := Mem_ofBytes_append_at pre r rest 0 hpos
    rw [Nat.add_zero] at this
    simp only [Ptr.bLength, read8]
    rw [this, hhead]
    omega
  refine ⟨hlen, ?_⟩
  rw [DescriptorHeader.Next, hlen, List.length_append]

theorem layout_cons (pre r : List Nat) (rs : List (List Nat)) (post : List Nat) :
    pre ++ (concatBytes (r :: rs) ++ post) = (pre ++ r) ++ (concatBytes rs ++ post) ∧
    pre ++ (concatBytes (r :: rs) ++ post) = pre ++ (r ++ (concatBytes rs ++ post)) := by
  simp only [concatBytes, List.append_assoc, and_self]

/-- Over framed records laid out one after the other, `k` calls of `Next()`
reach the start of the `k`-th record. -/
theorem map_advance_framed : ∀ (rs : List (List Nat)) (pre post : List Nat),
    (∀ r ∈ rs, Framed r) →
      (List.range rs.length).map
          (fun k => DescriptorHeader.advance (Mem.ofBytes (pre ++ (concatBytes rs ++ post))) k
            pre.length) =
        recordOffsets pre.length rs
  | [], pre, post, _ => rfl
  | r :: rs, pre, post, hf => by
    have hnext := (Next_framed pre r (concatBytes rs ++ post) (hf r (List.mem_cons_self _ _))).2
    have ih := map_advance_framed rs (pre ++ r) post
      (fun x hx => hf x (List.mem_cons_of_mem _ hx))
    rw [List.length_cons, List.range_succ_eq_map, List.map_cons, List.map_map, recordOffsets,
      ← List.length_append, ← ih]
    refine congrArg₂ List.cons rfl (List.map_congr_left ?_)
    intro k _
    simp only [Function.comp, DescriptorHeader.advance]
    rw [(layout_cons pre r rs post).2, hnext, ← (layout_cons pre r rs post).2,
      (layout_cons pre r rs post).1]

/-- Over framed records laid out one after the other, as many calls of `Next()`
as there are records reach the end of the layout. -/
theorem advance_framed : ∀ (rs : List (List Nat)) (pre post : List Nat),
    (∀ r ∈ rs, Framed r) →
      DescriptorHeader.advance (Mem.ofBytes (pre ++ (concatBytes rs ++ post))) rs.length
          pre.length = pre.length + (concatBytes rs).length
  | [], pre, post, _ => rfl
  | r :: rs, pre, post, hf => by
    have hnext := (Next_framed pre r (concatBytes rs ++ post) (hf r (List.mem_cons_self _ _))).2
    have ih := advance_framed rs (pre ++ r) post
      (fun x hx => hf x (List.mem_cons_of_mem _ hx))
    simp only [List.length_cons, DescriptorHeader.advance]
    rw [(layout_cons pre r rs post).2, hnext, ← (layout_cons pre r rs post).2,
      (layout_cons pre r rs post).1, ih]
    simp only [concatBytes, List.length_append]
    omega

/-- Over framed records laid out one after the other, the `bLength` bytes read
at the start of each record are exactly that record. -/
theorem map_readBytes_framed : ∀ (rs : List (List Nat)) (pre post : List Nat),
    (∀ r ∈ rs, Framed r) →
      (recordOffsets pre.length rs).map
          (fun h => readBytes (Mem.ofBytes (pre ++ (concatBytes rs ++ post))) h
            (Ptr.bLength (Mem.ofBytes (pre ++ (concatBytes rs ++ post))) h)) = rs
  | [], pre, post, _ => rfl
  | r :: rs, pre, post, hf => by
    have hlen := (Next_framed pre r (concatBytes rs ++ post) (hf r (List.mem_cons_self _ _))).1
    have ih := map_readBytes_framed rs (pre ++ r) post
      (fun x hx => hf x (List.mem_cons_of_mem _ hx))
    rw [recordOffsets, List.map_cons, ← List.length_append, ← (layout_cons pre r rs post).1] at *
    rw [ih]
    refine congrArg₂ List.cons ?_ rfl
    rw [(layout_cons pre r rs post).2, hlen]
    exact readBytes_append_at r pre _

/-- Over framed records laid out one after the other, the `bLength` read at the
start of each record is the size of that record. -/
theorem map_bLength_framed : ∀ (rs : List (List Nat)) (pre post : List Nat),
    (∀ r ∈ rs, Framed r) →
      (recordOffsets pre.length rs).map
          (Ptr.bLength (Mem.ofBytes (pre ++ (concatBytes rs ++ post)))) = rs.map List.length
  | [], pre, post, _ => rfl
  | r :: rs, pre, post, hf => by
    have hlen := (Next_framed pre r (concatBytes rs ++ post) (hf r (List.mem_cons_self _ _))).1
    have ih := map_bLength_framed rs (pre ++ r) post
      (fun x hx => hf x (List.mem_cons_of_mem _ hx))
    rw [recordOffsets, List.map_cons, List.map_cons, ← List.length_append,
      ← (layout_cons pre r rs post).1] at *
    rw [ih]
    refine congrArg₂ List.cons ?_ rfl
    rw [(layout_cons pre r rs post).2, hlen]

theorem sum_length_eq_length_concatBytes : ∀ (rs : List (List Nat)),
    (rs.map List.length).sum = (concatBytes rs).length
  | [] => rfl
  | r :: rs => by
    simp only [List.map_cons, List.sum_cons, concatBytes, List.length_append,
      sum_length_eq_length_concatBytes rs]

theorem length_recordOffsets : ∀ (rs : List (List Nat)) (start : Nat),
    (recordOffsets start rs).length = rs.length
  | [], _ => rfl
  | r :: rs, start => by
    simp only [recordOffsets, List.length_cons, length_recordOffsets rs]

/-- An endpoint built by a constructor, and a custom descriptor of less than
256 bytes, start with their own size. -/
theorem ChildArgs_framed (c : ChildArgs) (hc : c.toItem.sizeof < 256) :
    Framed c.toItem.bytes := by
  cases c with
  | endpointRaw address attributes maxPacketSize interval =>
    have hl : (ChildArgs.endpointRaw address attributes maxPacketSize
        interval).toItem.bytes.length = 7 := rfl
    exact ⟨by rw [hl]; omega, by rw [hl]; omega, rfl⟩
  | endpoint storage inp number type maxPacketSize interval sync usage =>
    have hl : (ChildArgs.endpoint storage inp number type maxPacketSize interval sync
        usage).toItem.bytes.length = 7 := rfl
    exact ⟨by rw [hl]; omega, by rw [hl]; omega, rfl⟩
  | custom type content =>
    have hsz : (ChildArgs.custom type content).toItem.sizeof =
        2 + ConfigChildren.sizeof content :=
      Item_sizeof_custom _ _ content
    have hlen : (ChildArgs.custom type content).toItem.bytes.length =
        2 + ConfigChildren.sizeof content := by
      rw [Item_length_bytes, hsz]
    rw [hsz] at hc
    refine ⟨by omega, by omega, ?_⟩
    rw [hlen]
    show (CustomDescriptor.ctor type content).bLength % 256 = _
    rw [CustomDescriptor_bLength_ctor]
    omega

/-- The header of an interface built by `InterfaceDescriptor` starts with its
own size. -/
theorem InterfaceArgs_header_framed (a : InterfaceArgs) :
    Framed a.build.toInterfaceDescriptorHeader.bytes := by
  have hl := InterfaceDescriptorHeader_length_bytes a.build.toInterfaceDescriptorHeader
  have hb : a.build.toInterfaceDescriptorHeader.bLength = 9 := by
    unfold InterfaceArgs.build
    rw [InterfaceDescriptor_eq]
    rfl
  refine ⟨by rw [hl]; omega, by rw [hl]; omega, ?_⟩
  rw [hl]
  show a.build.toInterfaceDescriptorHeader.bLength % 256 = 9
  rw [hb]

theorem InterfaceArgs_records_framed (a : InterfaceArgs)
    (ha : ∀ c ∈ a.children, c.toItem.sizeof < 256) : ∀ r ∈ a.records, Framed r := by
  intro r hr
  rcases List.mem_cons.mp hr with rfl | hr
  · exact InterfaceArgs_header_framed a
  · obtain ⟨c, hc, rfl⟩ := List.mem_map.mp hr
    exact ChildArgs_framed c (ha c hc)

theorem composedRecords_framed : ∀ (interfaces : List InterfaceArgs),
    (∀ a ∈ interfaces, ∀ c ∈ a.children, c.toItem.sizeof < 256) →
      ∀ r ∈ composedRecords interfaces, Framed r
  | [], _, r, hr => by simp [composedRecords] at hr
  | a :: rest, h, r, hr => by
    rcases List.mem_append.mp hr with hr | hr
    · exact InterfaceArgs_records_framed a (h a (List.mem_cons_self _ _)) r hr
    · exact composedRecords_framed rest (fun b hb => h b (List.mem_cons_of_mem _ hb)) r hr

/-- The bytes of an interface are its records one after the other. -/
theorem InterfaceArgs_bytes (a : InterfaceArgs) :
    a.build.toItem.bytes = concatBytes a.records := by
  have hend : a.build.endpoints = a.children.map ChildArgs.toItem := by
    unfold InterfaceArgs.build
    rw [InterfaceDescriptor_eq]
  show a.build.toInterfaceDescriptorHeader.bytes ++ ConfigChildren.bytes a.build.endpoints =
    a.build.toInterfaceDescriptorHeader.bytes ++
      concatBytes (a.children.map (fun c => c.toItem.bytes))
  rw [hend, ConfigChildren_bytes_eq_concatBytes, List.map_map]
  rfl

/-- The bytes of the interfaces of a composed configuration are their records
one after the other. -/
theorem ConfigChildren_bytes_composed : ∀ (interfaces : List InterfaceArgs),
    ConfigChildren.bytes (interfaces.map (fun a => a.build.toItem)) =
      concatBytes (composedRecords interfaces)
  | [] => rfl
  | a :: rest => by
    simp only [List.map_cons, ConfigChildren.bytes, composedRecords, concatBytes_append,
      InterfaceArgs_bytes, ConfigChildren_bytes_composed rest]

/-- The `wTotalLength` read from a header laid out in memory by the constructor
of `ConfigDescriptorHeader`. -/
theorem wTotalLength_layout (interfacesSize numInterfaces index : Nat) (maxPower : Int)
    (strName attributes : Nat) (pre rest : List Nat) :
    Ptr.wTotalLength
        (Mem.ofBytes (pre ++ ((ConfigDescriptorHeader.ctor interfacesSize numInterfaces index
          maxPower strName attributes).bytes ++ rest))) pre.length =
      (9 + interfacesSize % 65536) % 65536 := by
  have hat : ∀ k, k < 9 →
      Mem.ofBytes (pre ++ ((ConfigDescriptorHeader.ctor interfacesSize numInterfaces index
        maxPower strName attributes).bytes ++ rest)) (pre.length + k) =
      (ConfigDescriptorHeader.ctor interfacesSize numInterfaces index
        maxPower strName attributes).bytes.getD k 0 :=
    fun k hk => Mem_ofBytes_append_at pre _ rest k hk
  have hsize : ConfigDescriptorHeader.sizeof = 9 := rfl
  have h3 : pre.length + 2 + 1 = pre.length + 3 := by omega
  simp only [Ptr.wTotalLength, read16, read8]
  rw [h3, hat 2 (by omega), hat 3 (by omega)]
  simp only [ConfigDescriptorHeader.bytes, ConfigDescriptorHeader.ctor, hsize,
    List.getD_cons_succ, List.getD_cons_zero]
  omega

/-- C21: a configuration composed by `ConfigDescriptor` from interfaces built
by `InterfaceDescriptor` whose nested descriptors are endpoints and custom
descriptors, each custom descriptor under 256 bytes and the whole tree under
65536 bytes, is laid out as its records in argument order: the configuration
header, then for each interface its header and its nested descriptors. The loop
`hdr = hdr->Next()` from the configuration header up to `End()` visits exactly
the starts of these records, `k` calls of `Next()` reach the start of the `k`-th
record, the `bLength` bytes found at each visited position are that whole
record, the call of `Next()` on the last record returns `End()`, the visited
`bLength` values add up to `wTotalLength`, and no visited record extends past
`End()`. -/
theorem walk_composed_tree (index : Nat) (maxPower : Int) (strName attributes : Nat)
    (interfaces : List InterfaceArgs) (pre post : List Nat)
    (cfg : ConfigDescriptorBlock) (mem : Mem) (runs : List (List Nat))
    (hcfg : cfg = composedConfig index maxPower strName attributes interfaces)
    (hmem : mem = Mem.ofBytes (pre ++ (cfg.bytes ++ post)))
    (hruns : runs = cfg.toConfigDescriptorHeader.bytes :: composedRecords interfaces)
    (hcustom : ∀ a ∈ interfaces, ∀ c ∈ a.children, c.toItem.sizeof < 256)
    (htotal : cfg.bytes.length < 65536) :
    cfg.bytes = concatBytes runs ∧
    (∀ fuel, runs.length ≤ fuel →
      ConfigDescriptorHeader.records fuel mem pre.length = recordOffsets pre.length runs) ∧
    (List.range runs.length).map (fun k => DescriptorHeader.advance mem k pre.length) =
      recordOffsets pre.length runs ∧
    (recordOffsets pre.length runs).map (fun h => readBytes mem h (Ptr.bLength mem h)) =
      runs ∧
    DescriptorHeader.advance mem runs.length pre.length =
      ConfigDescriptorHeader.End mem pre.length ∧
    ((recordOffsets pre.length runs).map (Ptr.bLength mem)).sum =
      Ptr.wTotalLength mem pre.length ∧
    Ptr.wTotalLength mem pre.length = cfg.wTotalLength ∧
    (∀ h ∈ recordOffsets pre.length runs,
      h + Ptr.bLength mem h ≤ ConfigDescriptorHeader.End mem pre.length) := by
  have hcfg' : cfg = ⟨ConfigDescriptorHeader.ctor
      (ConfigChildren.sizeof (interfaces.map (fun a => a.build.toItem)))
      (interfaces.map (fun a => a.build.toItem)).length index maxPower strName attributes,
      interfaces.map (fun a => a.build.toItem)⟩ := by
    rw [hcfg, composedConfig, ConfigDescriptor_eq]
  have hbytes : cfg.bytes = concatBytes runs := by
    rw [hruns, hcfg']
    show _ ++ ConfigChildren.bytes (interfaces.map (fun a => a.build.toItem)) = _ ++ _
    rw [ConfigChildren_bytes_composed]
  have hhl : cfg.toConfigDescriptorHeader.bytes.length = 9 :=
    ConfigDescriptorHeader_length_bytes _
  have hlen : cfg.bytes.length =
      9 + ConfigChildren.sizeof (interfaces.map (fun a => a.build.toItem)) := by
    rw [hcfg']
    show (_ ++ ConfigChildren.bytes (interfaces.map (fun a => a.build.toItem))).length = _
    rw [List.length_append, ConfigChildren_length_bytes, ConfigDescriptorHeader_length_bytes]
  have hframed : ∀ r ∈ runs, Framed r := by
    intro r hr
    rw [hruns] at hr
    rcases List.mem_cons.mp hr with rfl | hr
    · refine ⟨by rw [hhl]; omega, by rw [hhl]; omega, ?_⟩
      rw [hhl, hcfg']
      rfl
    · exact composedRecords_framed interfaces hcustom r hr
  have hmem' : mem = Mem.ofBytes (pre ++ (concatBytes runs ++ post)) := by
    rw [hmem, hbytes]
  have hfield : cfg.wTotalLength = cfg.bytes.length := by
    rw [hlen, hcfg']
    show (ConfigDescriptorHeader.sizeof +
      ConfigChildren.sizeof (interfaces.map (fun a => a.build.toItem)) % 65536) % 65536 = _
    rw [ConfigDescriptorHeader_sizeof_eq]
    omega
  have hwtl : Ptr.wTotalLength mem pre.length = cfg.bytes.length := by
    have := wTotalLength_layout
      (ConfigChildren.sizeof (interfaces.map (fun a => a.build.toItem)))
      (interfaces.map (fun a => a.build.toItem)).length index maxPower strName attributes pre
      (ConfigChildren.bytes (interfaces.map (fun a => a.build.toItem)) ++ post)
    rw [hmem, hlen]
    rw [hcfg']
    show Ptr.wTotalLength (Mem.ofBytes (pre ++ ((_ ++ _) ++ post))) pre.length = _
    rw [List.append_assoc, this]
    omega
  have hend : ConfigDescriptorHeader.End mem pre.length =
      pre.length + (concatBytes runs).length := by
    rw [ConfigDescriptorHeader.End, hwtl, hbytes]
  have hsum : ((recordOffsets pre.length runs).map (Ptr.bLength mem)).sum =
      (concatBytes runs).length := by
    rw [hmem', map_bLength_framed runs pre post hframed, sum_length_eq_length_concatBytes]
  refine ⟨hbytes, ?_, ?_, ?_, ?_, ?_, ?_, ?_⟩
  · intro fuel hfuel
    rw [ConfigDescriptorHeader.records, hend, hmem', walk_framed runs pre post fuel hframed]
    exact List.take_of_length_le (by rw [length_recordOffsets]; exact hfuel)
  · rw [hmem']
    exact map_advance_framed runs pre post hframed
  · rw [hmem']
    exact map_readBytes_framed runs pre post hframed
  · rw [hend, hmem']
    exact advance_framed runs pre post hframed
  · rw [hsum, hwtl, hbytes]
  · rw [hwtl, hfield]
  · intro h hh
    obtain ⟨a, r, b, hrs, hoff⟩ := mem_recordOffsets runs pre.length h hh
    have hr : Framed r := hframed r (by rw [hrs]; simp)
    have hat := Mem_ofBytes_record_at pre post a r b 0 hr.1
    have hbl : Ptr.bLength mem h = r.length := by
      rw [hmem', hoff, hrs]
      simp only [Ptr.bLength, read8]
      rw [Nat.add_zero] at hat
      rw [hat, hr.2.2]
      exact Nat.mod_eq_of_lt hr.2.1
    rw [hend, hbl, hoff, hrs]
    simp only [concatBytes_append, concatBytes, List.length_append]
    omega

/-- Witness of C21: the configuration `twoAlternates` at address 0 is visited
at 0, 9, 18, 25, 34 and 41, and the next position is its end, 46. -/
theorem walk_composed_tree_witness :
    ((∀ a ∈ Example.twoAlternatesArgs, ∀ c ∈ a.children, c.toItem.sizeof < 256) ∧
      Example.twoAlternates.bytes.length < 65536) ∧
    (List.range 6).map (fun k => DescriptorHeader.advance Example.twoAlternatesMem k 0) =
      [0, 9, 18, 25, 34, 41] ∧
    DescriptorHeader.advance Example.twoAlternatesMem 6 0 =
      ConfigDescriptorHeader.End Example.twoAlternatesMem 0 ∧
    ConfigDescriptorHeader.End Example.twoAlternatesMem 0 = 46 :=
  ⟨⟨by decide, by decide⟩,
    (walk_composed_tree 1 100 0 ConfigAttributes.BusPowered Example.twoAlternatesArgs [] []
      Example.twoAlternates Example.twoAlternatesMem
      (Example.twoAlternates.toConfigDescriptorHeader.bytes ::
        composedRecords Example.twoAlternatesArgs)
      rfl rfl rfl (by decide) (by decide)).2.2.1,
    (walk_composed_tree 1 100 0 ConfigAttributes.BusPowered Example.twoAlternatesArgs [] []
      Example.twoAlternates Example.twoAlternatesMem
      (Example.twoAlternates.toConfigDescriptorHeader.bytes ::
        composedRecords Example.twoAlternatesArgs)
      rfl rfl rfl (by decide) (by decide)).2.2.2.2.1,
    by decide⟩

end usb
